import Mathlib

/-!
# Accord server core: a shallow embedding with proofs

This file embeds the core of the Accord chat server (the `accord` wire
library, the server's connection reader/writer actors and the central
arbiter) as executable Lean definitions, translated from the Rust sources,
and proves or refutes the specification claims about them.

Bytes are modelled as `Nat` values (< 256 for genuine byte data); byte
strings as `List Nat`.  Rust functions that can `panic!` / `unwrap` are
modelled with an `Option` (or a dedicated result type) whose `none`
(or `panic`) value marks the panic.
-/

set_option maxRecDepth 100000

/-! ## Byte-order helpers -/

/-- Big-endian bytes of `v`, width `w` (most significant first).
Each emitted byte is reduced mod 256; for `v < 256 ^ w` this is exact. -/
def toBE : Nat → Nat → List Nat
  | 0, _ => []
  | w + 1, v => (v / 256 ^ w) % 256 :: toBE w (v % 256 ^ w)

/-- Read `w` big-endian bytes into an accumulator, returning the value and
the rest of the input, or `none` if the input is too short. -/
def fromBE : Nat → Nat → List Nat → Option (Nat × List Nat)
  | 0, acc, bs => some (acc, bs)
  | _ + 1, _, [] => none
  | w + 1, acc, b :: bs => fromBE w (acc * 256 + b) bs

/-- Little-endian bytes of `v`, width `w`. -/
def toLE : Nat → Nat → List Nat
  | 0, _ => []
  | w + 1, v => v % 256 :: toLE w (v / 256)

/-- Little-endian value of a whole byte list. -/
def leVal : List Nat → Nat
  | [] => 0
  | b :: bs => b % 256 + 256 * leVal bs

theorem toBE_length (w v : Nat) : (toBE w v).length = w := by
  induction w generalizing v with
  | zero => rfl
  | succ w ih => simp [toBE, ih]

theorem toLE_length (w v : Nat) : (toLE w v).length = w := by
  induction w generalizing v with
  | zero => rfl
  | succ w ih => simp [toLE, ih]

theorem fromBE_toBE (w : Nat) (acc : Nat) (v : Nat) (r : List Nat)
    (h : v < 256 ^ w) :
    fromBE w acc (toBE w v ++ r) = some (acc * 256 ^ w + v, r) := by
  induction w generalizing acc v with
  | zero =>
    simp only [Nat.pow_zero, Nat.lt_one_iff] at h
    simp [toBE, fromBE, h]
  | succ w ih =>
    have hlt : v % 256 ^ w < 256 ^ w := Nat.mod_lt _ (Nat.pos_pow_of_pos w (by norm_num))
    have hdiv : v / 256 ^ w < 256 := by
      have : v < 256 ^ w * 256 := by
        calc v < 256 ^ (w + 1) := h
        _ = 256 ^ w * 256 := by ring
      exact Nat.div_lt_of_lt_mul this
    simp only [toBE, List.cons_append, fromBE, List.append_eq]
    rw [Nat.mod_eq_of_lt hdiv, ih _ _ hlt]
    have hvm : 256 ^ w * (v / 256 ^ w) + v % 256 ^ w = v := Nat.div_add_mod v (256 ^ w)
    congr 2
    rw [pow_succ]
    generalize hX : (256 : Nat) ^ w = X at *
    calc (acc * 256 + v / X) * X + v % X
        = acc * 256 * X + (X * (v / X) + v % X) := by ring
      _ = acc * 256 * X + v := by rw [hvm]
      _ = acc * (X * 256) + v := by ring

/-! ## SHA-256 (FIPS 180-4), used for password hashing and image hashes -/

def shaAdd (a b : Nat) : Nat := (a + b) % 4294967296

def shaRotr (x n : Nat) : Nat :=
  (x / 2 ^ n + (x % 2 ^ n) * 2 ^ (32 - n)) % 4294967296

def shaShr (x n : Nat) : Nat := x / 2 ^ n

def shaXor (a b : Nat) : Nat := a ^^^ b

def shaSmall0 (x : Nat) : Nat := shaXor (shaXor (shaRotr x 7) (shaRotr x 18)) (shaShr x 3)

def shaSmall1 (x : Nat) : Nat := shaXor (shaXor (shaRotr x 17) (shaRotr x 19)) (shaShr x 10)

def shaBig0 (x : Nat) : Nat := shaXor (shaXor (shaRotr x 2) (shaRotr x 13)) (shaRotr x 22)

def shaBig1 (x : Nat) : Nat := shaXor (shaXor (shaRotr x 6) (shaRotr x 11)) (shaRotr x 25)

def shaCh (x y z : Nat) : Nat := shaXor (x &&& y) ((4294967295 - x) &&& z)

def shaMaj (x y z : Nat) : Nat := shaXor (shaXor (x &&& y) (x &&& z)) (y &&& z)

def shaK : List Nat :=
  [1116352408, 1899447441, 3049323471, 3921009573, 961987163, 1508970993,
   2453635748, 2870763221, 3624381080, 310598401, 607225278, 1426881987,
   1925078388, 2162078206, 2614888103, 3248222580, 3835390401, 4022224774,
   264347078, 604807628, 770255983, 1249150122, 1555081692, 1996064986,
   2554220882, 2821834349, 2952996808, 3210313671, 3336571891, 3584528711,
   113926993, 338241895, 666307205, 773529912, 1294757372, 1396182291,
   1695183700, 1986661051, 2177026350, 2456956037, 2730485921, 2820302411,
   3259730800, 3345764771, 3516065817, 3600352804, 4094571909, 275423344,
   430227734, 506948616, 659060556, 883997877, 958139571, 1322822218,
   1537002063, 1747873779, 1955562222, 2024104815, 2227730452, 2361852424,
   2428436474, 2756734187, 3204031479, 3329325298]

structure ShaState where
  a : Nat
  b : Nat
  c : Nat
  d : Nat
  e : Nat
  f : Nat
  g : Nat
  h : Nat
deriving Repr, DecidableEq

def shaInit : ShaState :=
  ⟨1779033703, 3144134277, 1013904242, 2773480762,
   1359893119, 2600822924, 528734635, 1541459225⟩

/-- Extend the 16 message words to 64. -/
def shaExtend : Nat → List Nat → List Nat
  | 0, ws => ws
  | k + 1, ws =>
    let n := ws.length
    let w := shaAdd (shaAdd (shaSmall1 (ws.getD (n - 2) 0)) (ws.getD (n - 7) 0))
                    (shaAdd (shaSmall0 (ws.getD (n - 15) 0)) (ws.getD (n - 16) 0))
    shaExtend k (ws ++ [w])

def shaRound (st : ShaState) (kw : Nat × Nat) : ShaState :=
  let t1 := shaAdd (shaAdd (shaAdd st.h (shaBig1 st.e)) (shaAdd (shaCh st.e st.f st.g) kw.1)) kw.2
  let t2 := shaAdd (shaBig0 st.a) (shaMaj st.a st.b st.c)
  ⟨shaAdd t1 t2, st.a, st.b, st.c, shaAdd st.d t1, st.e, st.f, st.g⟩

/-- Compress one 64-byte block (given as 16 words) into the hash state. -/
def shaCompress (hs : ShaState) (ws : List Nat) : ShaState :=
  let ws64 := shaExtend 48 ws
  let st := (shaK.zip ws64).foldl shaRound hs
  ⟨shaAdd hs.a st.a, shaAdd hs.b st.b, shaAdd hs.c st.c, shaAdd hs.d st.d,
   shaAdd hs.e st.e, shaAdd hs.f st.f, shaAdd hs.g st.g, shaAdd hs.h st.h⟩

/-- Split a byte list into 32-bit big-endian words (length must divide by 4). -/
def bytesToWordsBE : List Nat → List Nat
  | b0 :: b1 :: b2 :: b3 :: rest =>
    ((((b0 % 256) * 256 + b1 % 256) * 256 + b2 % 256) * 256 + b3 % 256) :: bytesToWordsBE rest
  | _ => []

/-- Split a list into chunks of 16 elements (fuel-driven, structurally
recursive so that the kernel can evaluate it). -/
def chunks16Aux : Nat → List Nat → List (List Nat)
  | 0, _ => []
  | _, [] => []
  | fuel + 1, ws => ws.take 16 :: chunks16Aux fuel (ws.drop 16)

def chunks16 (ws : List Nat) : List (List Nat) := chunks16Aux ws.length ws

/-- SHA-256 padding: append 0x80, zeros, and the 64-bit big-endian bit length. -/
def shaPad (msg : List Nat) : List Nat :=
  let l := msg.length
  let zeros := (64 - (l + 9) % 64) % 64
  msg ++ [0x80] ++ List.replicate zeros 0 ++ toBE 8 (l * 8)

/-- Full SHA-256: 32-byte digest of a byte list. -/
def sha256 (msg : List Nat) : List Nat :=
  let blocks := chunks16 (bytesToWordsBE (shaPad msg))
  let st := blocks.foldl shaCompress shaInit
  toBE 4 st.a ++ toBE 4 st.b ++ toBE 4 st.c ++ toBE 4 st.d ++
  toBE 4 st.e ++ toBE 4 st.f ++ toBE 4 st.g ++ toBE 4 st.h

/-! ## Base64 (standard alphabet, with padding), as used by the `base64` crate -/

def b64Char (v : Nat) : Char :=
  if v < 26 then Char.ofNat (65 + v)
  else if v < 52 then Char.ofNat (97 + (v - 26))
  else if v < 62 then Char.ofNat (48 + (v - 52))
  else if v = 62 then '+'
  else '/'

def b64Val (c : Char) : Option Nat :=
  if 'A' ≤ c ∧ c ≤ 'Z' then some (c.toNat - 65)
  else if 'a' ≤ c ∧ c ≤ 'z' then some (c.toNat - 97 + 26)
  else if '0' ≤ c ∧ c ≤ '9' then some (c.toNat - 48 + 52)
  else if c = '+' then some 62
  else if c = '/' then some 63
  else none

def b64EncodeAux : List Nat → List Char
  | [] => []
  | [b1] =>
    [b64Char (b1 % 256 / 4), b64Char (b1 % 256 % 4 * 16), '=', '=']
  | [b1, b2] =>
    [b64Char (b1 % 256 / 4), b64Char (b1 % 256 % 4 * 16 + b2 % 256 / 16),
     b64Char (b2 % 256 % 16 * 4), '=']
  | b1 :: b2 :: b3 :: rest =>
    b64Char (b1 % 256 / 4) :: b64Char (b1 % 256 % 4 * 16 + b2 % 256 / 16) ::
    b64Char (b2 % 256 % 16 * 4 + b3 % 256 / 64) :: b64Char (b3 % 256 % 64) ::
    b64EncodeAux rest

/-- `base64::encode`. -/
def b64Encode (bs : List Nat) : String := String.mk (b64EncodeAux bs)

def b64DecodeAux : List Char → Option (List Nat)
  | [] => some []
  | [c1, c2, '=', '='] => do
    let v1 ← b64Val c1
    let v2 ← b64Val c2
    pure [v1 * 4 + v2 / 16]
  | [c1, c2, c3, '='] => do
    let v1 ← b64Val c1
    let v2 ← b64Val c2
    let v3 ← b64Val c3
    pure [v1 * 4 + v2 / 16, v2 % 16 * 16 + v3 / 4]
  | c1 :: c2 :: c3 :: c4 :: rest => do
    let v1 ← b64Val c1
    let v2 ← b64Val c2
    let v3 ← b64Val c3
    let v4 ← b64Val c4
    let tail ← b64DecodeAux rest
    pure ((v1 * 4 + v2 / 16) :: (v2 % 16 * 16 + v3 / 4) :: (v3 % 4 * 64 + v4) :: tail)
  | _ => none

/-- `base64::decode` (returns `none` where the crate returns a decode error). -/
def b64Decode (s : String) : Option (List Nat) := b64DecodeAux s.data

/-! ## `accord::utils` : username / message validation

Translated from `src/src/utils.rs`.  Rust's `char::is_control` is the
Unicode `Cc` category, which is exactly `U+0000..=U+001F` and
`U+007F..=U+009F`.  Rust's `char::is_alphanumeric` is the Unicode
`Alphabetic ∪ Nd ∪ Nl ∪ No` property: the definition below reproduces that
table exactly on the Basic Latin and Latin-1 ranges (`U+0000..=U+00FF`) —
the only code points any statement in this file evaluates it on — and
classifies every code point from `U+0100` upward as alphanumeric (an
approximation: those planes are dominated by letters, but contain
non-alphanumeric characters too). -/

def rustIsControl (c : Char) : Bool :=
  c.toNat < 32 || (127 ≤ c.toNat && c.toNat ≤ 159)

def rustIsAlphanumeric (c : Char) : Bool :=
  let v := c.toNat
  (48 ≤ v && v ≤ 57) || (65 ≤ v && v ≤ 90) || (97 ≤ v && v ≤ 122) ||
  v = 0xAA || v = 0xB2 || v = 0xB3 || v = 0xB5 || v = 0xB9 || v = 0xBA ||
  v = 0xBC || v = 0xBD || v = 0xBE ||
  (0xC0 ≤ v && v ≤ 0xD6) || (0xD8 ≤ v && v ≤ 0xF6) || (0xF8 ≤ v && v ≤ 0xFF) ||
  0x100 ≤ v

/-- `verify_message` from `src/src/utils.rs`: no control characters and nonempty. -/
def verify_message (m : String) : Bool :=
  !(m.data.any rustIsControl) && !m.data.isEmpty

/-- `verify_username` from `src/src/utils.rs`.  Note that Rust
`str::len()` is the **UTF-8 byte length**, not the character count. -/
def verify_username (u : String) : Bool :=
  !(u.utf8ByteSize > 18 || u.data.isEmpty || u.data.any (fun c => !rustIsAlphanumeric c))

/-! ## ChaCha20, HChaCha20, Poly1305 and the XChaCha20-Poly1305 AEAD

This is the cipher used by the `chacha20poly1305` crate
(`XChaCha20Poly1305`), which `src/src/connection.rs` uses for frame
encryption.  The implementation below follows RFC 8439 plus the XChaCha
nonce-extension (HChaCha20); it reproduces the repository's own test
vector (`encrypt_packet_test` in `src/src/connection.rs`) byte for byte,
see `encrypt_frame_matches_repo_test_vector` below. -/

def rotl32 (x n : Nat) : Nat := (x % 2 ^ (32 - n)) * 2 ^ n + x / 2 ^ (32 - n)

def chachaQR (a b c d : Nat) : Nat × Nat × Nat × Nat :=
  let a := (a + b) % 4294967296
  let d := rotl32 (d ^^^ a) 16
  let c := (c + d) % 4294967296
  let b := rotl32 (b ^^^ c) 12
  let a := (a + b) % 4294967296
  let d := rotl32 (d ^^^ a) 8
  let c := (c + d) % 4294967296
  let b := rotl32 (b ^^^ c) 7
  (a, b, c, d)

/-- The 16-word ChaCha state. -/
structure CCSt where
  y0 : Nat
  y1 : Nat
  y2 : Nat
  y3 : Nat
  y4 : Nat
  y5 : Nat
  y6 : Nat
  y7 : Nat
  y8 : Nat
  y9 : Nat
  y10 : Nat
  y11 : Nat
  y12 : Nat
  y13 : Nat
  y14 : Nat
  y15 : Nat
deriving Repr, DecidableEq

def chachaDoubleRound (s : CCSt) : CCSt :=
  let (a0, a4, a8, a12) := chachaQR s.y0 s.y4 s.y8 s.y12
  let (a1, a5, a9, a13) := chachaQR s.y1 s.y5 s.y9 s.y13
  let (a2, a6, a10, a14) := chachaQR s.y2 s.y6 s.y10 s.y14
  let (a3, a7, a11, a15) := chachaQR s.y3 s.y7 s.y11 s.y15
  let (b0, b5, b10, b15) := chachaQR a0 a5 a10 a15
  let (b1, b6, b11, b12) := chachaQR a1 a6 a11 a12
  let (b2, b7, b8, b13) := chachaQR a2 a7 a8 a13
  let (b3, b4, b9, b14) := chachaQR a3 a4 a9 a14
  ⟨b0, b1, b2, b3, b4, b5, b6, b7, b8, b9, b10, b11, b12, b13, b14, b15⟩

def chachaRounds : Nat → CCSt → CCSt
  | 0, s => s
  | k + 1, s => chachaRounds k (chachaDoubleRound s)

/-- Little-endian 32-bit word `i` of a byte list. -/
def leWord (bs : List Nat) (i : Nat) : Nat := leVal ((bs.drop (4 * i)).take 4)

def chachaInit (key : List Nat) (counter : Nat) (n12 : List Nat) : CCSt :=
  ⟨0x61707865, 0x3320646e, 0x79622d32, 0x6b206574,
   leWord key 0, leWord key 1, leWord key 2, leWord key 3,
   leWord key 4, leWord key 5, leWord key 6, leWord key 7,
   counter % 4294967296, leWord n12 0, leWord n12 1, leWord n12 2⟩

/-- One ChaCha20 block: 64 keystream bytes. -/
def chachaBlockBytes (key : List Nat) (counter : Nat) (n12 : List Nat) : List Nat :=
  let i := chachaInit key counter n12
  let w := chachaRounds 10 i
  toLE 4 ((i.y0 + w.y0) % 4294967296) ++ toLE 4 ((i.y1 + w.y1) % 4294967296) ++
  toLE 4 ((i.y2 + w.y2) % 4294967296) ++ toLE 4 ((i.y3 + w.y3) % 4294967296) ++
  toLE 4 ((i.y4 + w.y4) % 4294967296) ++ toLE 4 ((i.y5 + w.y5) % 4294967296) ++
  toLE 4 ((i.y6 + w.y6) % 4294967296) ++ toLE 4 ((i.y7 + w.y7) % 4294967296) ++
  toLE 4 ((i.y8 + w.y8) % 4294967296) ++ toLE 4 ((i.y9 + w.y9) % 4294967296) ++
  toLE 4 ((i.y10 + w.y10) % 4294967296) ++ toLE 4 ((i.y11 + w.y11) % 4294967296) ++
  toLE 4 ((i.y12 + w.y12) % 4294967296) ++ toLE 4 ((i.y13 + w.y13) % 4294967296) ++
  toLE 4 ((i.y14 + w.y14) % 4294967296) ++ toLE 4 ((i.y15 + w.y15) % 4294967296)

/-- HChaCha20: derive the XChaCha subkey from the key and the first 16
nonce bytes (no feed-forward; words 0-3 and 12-15 of the final state). -/
def hchacha20 (key n16 : List Nat) : List Nat :=
  let i : CCSt :=
    ⟨0x61707865, 0x3320646e, 0x79622d32, 0x6b206574,
     leWord key 0, leWord key 1, leWord key 2, leWord key 3,
     leWord key 4, leWord key 5, leWord key 6, leWord key 7,
     leWord n16 0, leWord n16 1, leWord n16 2, leWord n16 3⟩
  let w := chachaRounds 10 i
  toLE 4 w.y0 ++ toLE 4 w.y1 ++ toLE 4 w.y2 ++ toLE 4 w.y3 ++
  toLE 4 w.y12 ++ toLE 4 w.y13 ++ toLE 4 w.y14 ++ toLE 4 w.y15

/-- Keystream blocks `startCtr, startCtr+1, …` (count blocks). -/
def ksBlocks (key n12 : List Nat) : Nat → Nat → List Nat
  | 0, _ => []
  | k + 1, ctr => chachaBlockBytes key ctr n12 ++ ksBlocks key n12 k (ctr + 1)

/-- `len` bytes of ChaCha20 keystream starting at block counter 1. -/
def chachaKeystream (key n12 : List Nat) (len : Nat) : List Nat :=
  (ksBlocks key n12 ((len + 63) / 64) 1).take len

def poly1305Clamp : Nat := 0x0ffffffc0ffffffc0ffffffc0fffffff

def poly1305P : Nat := 2 ^ 130 - 5

def polyAux : Nat → Nat → Nat → List Nat → Nat
  | _, _, acc, [] => acc
  | 0, _, acc, _ => acc
  | fuel + 1, r, acc, msg =>
    polyAux fuel r ((acc + leVal (msg.take 16 ++ [1])) * r % poly1305P) (msg.drop 16)

/-- Poly1305 MAC (RFC 8439). -/
def poly1305 (key32 msg : List Nat) : List Nat :=
  let r := leVal (key32.take 16) &&& poly1305Clamp
  let s := leVal ((key32.drop 16).take 16)
  toLE 16 ((polyAux msg.length r 0 msg + s) % 2 ^ 128)

def xchachaN12 (nonce24 : List Nat) : List Nat := [0, 0, 0, 0] ++ nonce24.drop 16

def xchachaSubkey (key nonce24 : List Nat) : List Nat := hchacha20 key (nonce24.take 16)

/-- Poly1305 tag over the ciphertext, with empty associated data, as
`chacha20poly1305`'s `XChaCha20Poly1305` computes it. -/
def aeadTag (key nonce24 ct : List Nat) : List Nat :=
  let sub := xchachaSubkey key nonce24
  let n12 := xchachaN12 nonce24
  let polyKey := (chachaBlockBytes sub 0 n12).take 32
  poly1305 polyKey (ct ++ List.replicate ((16 - ct.length % 16) % 16) 0 ++ toLE 8 0 ++ toLE 8 ct.length)

def listXor (a b : List Nat) : List Nat := List.zipWith (· ^^^ ·) a b

/-- `XChaCha20Poly1305::encrypt` (empty AAD): ciphertext followed by the
16-byte tag. -/
def aeadEncrypt (key nonce24 pt : List Nat) : List Nat :=
  let sub := xchachaSubkey key nonce24
  let n12 := xchachaN12 nonce24
  let ct := listXor pt (chachaKeystream sub n12 pt.length)
  ct ++ aeadTag key nonce24 ct

/-- `XChaCha20Poly1305::decrypt` (empty AAD): `none` on authentication
failure (including inputs shorter than the tag). -/
def aeadDecrypt (key nonce24 data : List Nat) : Option (List Nat) :=
  if data.length < 16 then none
  else
    let ct := data.take (data.length - 16)
    let tag := data.drop (data.length - 16)
    if aeadTag key nonce24 ct = tag then
      some (listXor ct (chachaKeystream (xchachaSubkey key nonce24) (xchachaN12 nonce24) ct.length))
    else none

/-! ## The wire frame (`mod encryption` in `src/src/connection.rs`) -/

/-- Result of `decrypt_frame`: a decoded plaintext together with the bytes
after the frame, an `Err(String)` as in the source, or a panic (the
source's `.unwrap()` on `cipher.decrypt`). -/
inductive FrameResult where
  | ok (plain : List Nat) (rest : List Nat)
  | err (msg : String)
  | panic
deriving Repr, DecidableEq

/-- `encryption::encrypt_frame`.  `none` models the two
`.expect("Packet too big!")` panics (a length that does not fit in `u32`).
On success: 4-byte big-endian length of `ciphertext‖tag`, then the
ciphertext and tag. -/
def encrypt_frame (packet_bytes key nonce : List Nat) : Option (List Nat) :=
  if packet_bytes.length ≥ 2 ^ 32 then none
  else
    let buf := aeadEncrypt key nonce packet_bytes
    if buf.length ≥ 2 ^ 32 then none
    else some (toBE 4 buf.length ++ buf)

/-- `encryption::decrypt_frame`.  Fewer than 4 bytes: `Err "Too short"`.
A length prefix exceeding the remaining bytes: `Err "Not full frame"`
(there is no upper bound on the length prefix).  A complete frame is
split off and decrypted; authentication failure hits the source's
`.unwrap()`, i.e. `panic`. -/
def decrypt_frame (encrypted_bytes key nonce : List Nat) : FrameResult :=
  if encrypted_bytes.length < 4 then FrameResult.err "Too short"
  else
    match fromBE 4 0 encrypted_bytes with
    | none => FrameResult.err "Too short"
    | some (data_len, rest) =>
      if data_len > rest.length then FrameResult.err "Not full frame"
      else
        match aeadDecrypt key nonce (rest.take data_len) with
        | some pt => FrameResult.ok pt (rest.drop data_len)
        | none => FrameResult.panic

/-! ## UTF-8 (Rust `String` / `str` byte representation) -/

/-- UTF-8 bytes of one scalar value. -/
def utf8Char (c : Char) : List Nat :=
  let v := c.toNat
  if v < 0x80 then [v]
  else if v < 0x800 then [0xC0 + v / 64, 0x80 + v % 64]
  else if v < 0x10000 then [0xE0 + v / 4096, 0x80 + v / 64 % 64, 0x80 + v % 64]
  else [0xF0 + v / 262144, 0x80 + v / 4096 % 64, 0x80 + v / 64 % 64, 0x80 + v % 64]

/-- UTF-8 bytes of a string (Rust `str::as_bytes`). -/
def utf8Encode (s : String) : List Nat := (s.data.map utf8Char).flatten

def mkChar (v : Nat) : Option Char :=
  if Nat.isValidChar v then some (Char.ofNat v) else none

/-- Decode one UTF-8 scalar value (Rust `str::from_utf8` semantics:
rejects truncated sequences, stray continuation bytes, overlong forms and
surrogates). -/
def utf8DecodeChar : List Nat → Option (Char × List Nat)
  | [] => none
  | b :: rest =>
    if b < 0x80 then (mkChar b).map (fun c => (c, rest))
    else if b < 0xC2 then none
    else if b < 0xE0 then
      match rest with
      | b2 :: rest2 =>
        if 0x80 ≤ b2 ∧ b2 < 0xC0 then
          (mkChar ((b - 0xC0) * 64 + (b2 - 0x80))).map (fun c => (c, rest2))
        else none
      | [] => none
    else if b < 0xF0 then
      match rest with
      | b2 :: b3 :: rest3 =>
        if (0x80 ≤ b2 ∧ b2 < 0xC0) ∧ (0x80 ≤ b3 ∧ b3 < 0xC0) then
          let v := (b - 0xE0) * 4096 + (b2 - 0x80) * 64 + (b3 - 0x80)
          if 0x800 ≤ v then (mkChar v).map (fun c => (c, rest3))
          else none
        else none
      | _ => none
    else if b < 0xF5 then
      match rest with
      | b2 :: b3 :: b4 :: rest4 =>
        if (0x80 ≤ b2 ∧ b2 < 0xC0) ∧ (0x80 ≤ b3 ∧ b3 < 0xC0) ∧ (0x80 ≤ b4 ∧ b4 < 0xC0) then
          let v := (b - 0xF0) * 262144 + (b2 - 0x80) * 4096 + (b3 - 0x80) * 64 + (b4 - 0x80)
          if 0x10000 ≤ v then (mkChar v).map (fun c => (c, rest4))
          else none
        else none
      | _ => none
    else none

/-- Decode a whole byte list (the fuel only bounds recursion; one byte of
fuel per decoded character is always enough). -/
def utf8DecodeList : Nat → List Nat → Option (List Char)
  | _, [] => some []
  | 0, _ :: _ => none
  | fuel + 1, b :: t => do
    let (c, r) ← utf8DecodeChar (b :: t)
    let cs ← utf8DecodeList fuel r
    pure (c :: cs)

def utf8Decode (bs : List Nat) : Option String :=
  (utf8DecodeList bs.length bs).map String.mk

/-! ## MessagePack primitives as `rmp` / `rmp-serde` emit and read them

`rmp-serde` (the serializer constructed with `Serializer::new`, as in
`src/src/packets.rs`) writes integers in the most compact MessagePack
representation, strings with a fixstr/str8/str16/str32 length prefix
followed by UTF-8 bytes, `Vec<T>` as a MessagePack array, structs as
arrays of their fields, and enum variants as either a plain string (unit
variants) or a one-entry map `{variant_name: payload}`.  The entry for
variant `Message` of `ServerboundPacket` is confirmed byte-for-byte by
the repository's `encrypt_packet_test` vector (see
`serialized_matches_repo_test_vector` below).

Writers return `none` where the Rust side cannot represent the value
(length or magnitude beyond `u32`/`u64`/`i64` bounds): these are exactly
the inputs on which `Packet::serialized`'s internal `.unwrap()` cannot be
modelled faithfully from the sources at hand, and no claim below depends
on them. -/

/-- Most compact unsigned encoding (`rmp::encode::write_uint`). -/
def wrUint (v : Nat) : Option (List Nat) :=
  if v < 128 then some [v]
  else if v < 256 then some [0xcc, v]
  else if v < 65536 then some (0xcd :: toBE 2 v)
  else if v < 4294967296 then some (0xce :: toBE 4 v)
  else if v < 18446744073709551616 then some (0xcf :: toBE 8 v)
  else none

/-- Most compact signed encoding (`rmp::encode::write_sint`); nonnegative
values use the unsigned formats. -/
def wrInt (v : Int) : Option (List Nat) :=
  if 0 ≤ v then wrUint v.toNat
  else if -32 ≤ v then some [(v + 256).toNat]
  else if -128 ≤ v then some [0xd0, (v + 256).toNat]
  else if -32768 ≤ v then some (0xd1 :: toBE 2 (v + 65536).toNat)
  else if -2147483648 ≤ v then some (0xd2 :: toBE 4 (v + 4294967296).toNat)
  else if -9223372036854775808 ≤ v then some (0xd3 :: toBE 8 (v + 18446744073709551616).toNat)
  else none

/-- String encoding: length prefix plus UTF-8 bytes. -/
def wrStr (s : String) : Option (List Nat) :=
  let b := utf8Encode s
  let n := b.length
  if n < 32 then some ((0xa0 + n) :: b)
  else if n < 256 then some (0xd9 :: n :: b)
  else if n < 65536 then some (0xda :: toBE 2 n ++ b)
  else if n < 4294967296 then some (0xdb :: toBE 4 n ++ b)
  else none

/-- Array length prefix. -/
def wrArrayLen (n : Nat) : Option (List Nat) :=
  if n < 16 then some [0x90 + n]
  else if n < 65536 then some (0xdc :: toBE 2 n)
  else if n < 4294967296 then some (0xdd :: toBE 4 n)
  else none

/-- `Vec<u8>` is serialized through serde as an array of integers. -/
def wrByteVec (bs : List Nat) : Option (List Nat) := do
  let pre ← wrArrayLen bs.length
  let elems ← bs.mapM (fun b => if b < 256 then wrUint b else none)
  pure (pre ++ elems.flatten)

/-- `Vec<String>`. -/
def wrStrVec (ss : List String) : Option (List Nat) := do
  let pre ← wrArrayLen ss.length
  let elems ← ss.mapM wrStr
  pure (pre ++ elems.flatten)

/-- Signed integer reader: accepts every MessagePack int format, as
`rmp-serde`'s deserializer does. -/
def rdInt (bs : List Nat) : Option (Int × List Nat) :=
  match bs with
  | [] => none
  | m :: rest =>
    if m < 0x80 then some ((m : Int), rest)
    else if 0xe0 ≤ m ∧ m ≤ 0xff then some ((m : Int) - 256, rest)
    else if m = 0xcc then
      match rest with
      | b :: r => some ((b : Int), r)
      | [] => none
    else if m = 0xcd then (fromBE 2 0 rest).map (fun p => ((p.1 : Int), p.2))
    else if m = 0xce then (fromBE 4 0 rest).map (fun p => ((p.1 : Int), p.2))
    else if m = 0xcf then (fromBE 8 0 rest).map (fun p => ((p.1 : Int), p.2))
    else if m = 0xd0 then
      match rest with
      | b :: r => some (if b < 128 then (b : Int) else (b : Int) - 256, r)
      | [] => none
    else if m = 0xd1 then
      (fromBE 2 0 rest).map (fun p => (if p.1 < 32768 then (p.1 : Int) else (p.1 : Int) - 65536, p.2))
    else if m = 0xd2 then
      (fromBE 4 0 rest).map
        (fun p => (if p.1 < 2147483648 then (p.1 : Int) else (p.1 : Int) - 4294967296, p.2))
    else if m = 0xd3 then
      (fromBE 8 0 rest).map
        (fun p =>
          (if p.1 < 9223372036854775808 then (p.1 : Int)
           else (p.1 : Int) - 18446744073709551616, p.2))
    else none

/-- Unsigned reader: an int that must be nonnegative. -/
def rdUint (bs : List Nat) : Option (Nat × List Nat) := do
  let (v, r) ← rdInt bs
  if 0 ≤ v then pure (v.toNat, r) else none

/-- A `u8` element: value must fit in a byte. -/
def rdByte (bs : List Nat) : Option (Nat × List Nat) := do
  let (v, r) ← rdUint bs
  if v < 256 then pure (v, r) else none

def rdStrBody (n : Nat) (bs : List Nat) : Option (String × List Nat) :=
  if bs.length < n then none
  else do
    let s ← utf8Decode (bs.take n)
    pure (s, bs.drop n)

/-- String reader (fixstr / str8 / str16 / str32). -/
def rdStr (bs : List Nat) : Option (String × List Nat) :=
  match bs with
  | [] => none
  | m :: rest =>
    if 0xa0 ≤ m ∧ m ≤ 0xbf then rdStrBody (m - 0xa0) rest
    else if m = 0xd9 then
      match rest with
      | n :: r2 => rdStrBody n r2
      | [] => none
    else if m = 0xda then do
      let (n, r2) ← fromBE 2 0 rest
      rdStrBody n r2
    else if m = 0xdb then do
      let (n, r2) ← fromBE 4 0 rest
      rdStrBody n r2
    else none

/-- Array length reader (fixarray / array16 / array32). -/
def rdArrayLen (bs : List Nat) : Option (Nat × List Nat) :=
  match bs with
  | [] => none
  | m :: rest =>
    if 0x90 ≤ m ∧ m ≤ 0x9f then some (m - 0x90, rest)
    else if m = 0xdc then fromBE 2 0 rest
    else if m = 0xdd then fromBE 4 0 rest
    else none

/-- Read `n` byte elements. -/
def rdNBytes : Nat → List Nat → Option (List Nat × List Nat)
  | 0, bs => some ([], bs)
  | k + 1, bs => do
    let (v, bs1) ← rdByte bs
    let (vs, bs2) ← rdNBytes k bs1
    pure (v :: vs, bs2)

/-- Read `n` string elements. -/
def rdNStrs : Nat → List Nat → Option (List String × List Nat)
  | 0, bs => some ([], bs)
  | k + 1, bs => do
    let (s, bs1) ← rdStr bs
    let (ss, bs2) ← rdNStrs k bs1
    pure (s :: ss, bs2)

def rdByteVec (bs : List Nat) : Option (List Nat × List Nat) := do
  let (n, r) ← rdArrayLen bs
  rdNBytes n r

def rdStrVec (bs : List Nat) : Option (List String × List Nat) := do
  let (n, r) ← rdArrayLen bs
  rdNStrs n r

/-! ## `accord::packets` (`src/src/packets.rs`) -/

namespace packets

/-- The `Message` struct of `src/src/packets.rs`. -/
structure Message where
  sender : String
  text : String
  time : Nat
deriving Repr, DecidableEq

/-- `ServerboundPacket` from `src/src/packets.rs`. -/
inductive ServerboundPacket where
  | Ping
  | EncryptionRequest
  | EncryptionConfirm (enc_secret : List Nat) (enc_token : List Nat)
  | Login (username : String) (password : String)
  | Message (text : String)
  | Command (command : String)
  | FetchMessages (offset : Int) (count : Int)
deriving Repr, DecidableEq

/-- `ClientboundPacket` from `src/src/packets.rs`. -/
inductive ClientboundPacket where
  | Pong
  | EncryptionResponse (pub_key : List Nat) (token : List Nat)
  | EncryptionAck
  | LoginAck
  | LoginFailed (reason : String)
  | UserJoined (username : String)
  | UserLeft (username : String)
  | UsersOnline (usernames : List String)
  | Message (message : packets.Message)
deriving Repr, DecidableEq

/-- The serde-derived serialization of the `Message` struct: an array of
its three fields. -/
def wrMessage (m : Message) : Option (List Nat) := do
  let pre ← wrArrayLen 3
  let s1 ← wrStr m.sender
  let s2 ← wrStr m.text
  let s3 ← if m.time < 18446744073709551616 then wrUint m.time else none
  pure (pre ++ s1 ++ s2 ++ s3)

def rdMessage (bs : List Nat) : Option (Message × List Nat) := do
  let (n, r0) ← rdArrayLen bs
  if n = 3 then do
    let (s1, r1) ← rdStr r0
    let (s2, r2) ← rdStr r1
    let (v, r3) ← rdUint r2
    pure (⟨s1, s2, v⟩, r3)
  else none

/-- An `i64` field: the value must be in the `i64` range. -/
def wrI64 (v : Int) : Option (List Nat) :=
  if -9223372036854775808 ≤ v ∧ v < 9223372036854775808 then wrInt v else none

/-- `Packet::serialized` for `ServerboundPacket` (`rmp_serde`
`Serializer::new`): unit variants as a plain string, other variants as a
one-entry map from the variant name to the payload; multi-field payloads
as arrays.  `none` abstracts the panic on unrepresentable values. -/
def ServerboundPacket.serialized : ServerboundPacket → Option (List Nat)
  | .Ping => wrStr "Ping"
  | .EncryptionRequest => wrStr "EncryptionRequest"
  | .EncryptionConfirm a b => do
    let nm ← wrStr "EncryptionConfirm"
    let pre ← wrArrayLen 2
    let sa ← wrByteVec a
    let sb ← wrByteVec b
    pure (0x81 :: nm ++ pre ++ sa ++ sb)
  | .Login u p => do
    let nm ← wrStr "Login"
    let pre ← wrArrayLen 2
    let su ← wrStr u
    let sp ← wrStr p
    pure (0x81 :: nm ++ pre ++ su ++ sp)
  | .Message t => do
    let nm ← wrStr "Message"
    let st ← wrStr t
    pure (0x81 :: nm ++ st)
  | .Command c => do
    let nm ← wrStr "Command"
    let sc ← wrStr c
    pure (0x81 :: nm ++ sc)
  | .FetchMessages o n => do
    let nm ← wrStr "FetchMessages"
    let pre ← wrArrayLen 2
    let so ← wrI64 o
    let sn ← wrI64 n
    pure (0x81 :: nm ++ pre ++ so ++ sn)

/-- `Packet::deserialized` for `ServerboundPacket`: `rmp_serde`
deserializes an enum either from a plain string (unit variant) or from a
one-entry map keyed by the variant name; the pair is returned together
with the unconsumed input (`Deserializer::into_inner`). -/
def ServerboundPacket.deserialized (bs : List Nat) :
    Option (ServerboundPacket × List Nat) :=
  match bs with
  | [] => none
  | m :: rest =>
    if m = 0x81 then do
      let (name, r1) ← rdStr rest
      if name = "EncryptionConfirm" then do
        let (n, r2) ← rdArrayLen r1
        if n = 2 then do
          let (a, r3) ← rdByteVec r2
          let (b, r4) ← rdByteVec r3
          pure (.EncryptionConfirm a b, r4)
        else none
      else if name = "Login" then do
        let (n, r2) ← rdArrayLen r1
        if n = 2 then do
          let (u, r3) ← rdStr r2
          let (p, r4) ← rdStr r3
          pure (.Login u p, r4)
        else none
      else if name = "Message" then do
        let (t, r2) ← rdStr r1
        pure (.Message t, r2)
      else if name = "Command" then do
        let (c, r2) ← rdStr r1
        pure (.Command c, r2)
      else if name = "FetchMessages" then do
        let (n, r2) ← rdArrayLen r1
        if n = 2 then do
          let (o, r3) ← rdInt r2
          let (k, r4) ← rdInt r3
          pure (.FetchMessages o k, r4)
        else none
      else none
    else do
      let (name, r1) ← rdStr (m :: rest)
      if name = "Ping" then pure (.Ping, r1)
      else if name = "EncryptionRequest" then pure (.EncryptionRequest, r1)
      else none

/-- `Packet::serialized` for `ClientboundPacket`. -/
def ClientboundPacket.serialized : ClientboundPacket → Option (List Nat)
  | .Pong => wrStr "Pong"
  | .EncryptionAck => wrStr "EncryptionAck"
  | .LoginAck => wrStr "LoginAck"
  | .EncryptionResponse k t => do
    let nm ← wrStr "EncryptionResponse"
    let pre ← wrArrayLen 2
    let sk ← wrByteVec k
    let st ← wrByteVec t
    pure (0x81 :: nm ++ pre ++ sk ++ st)
  | .LoginFailed rsn => do
    let nm ← wrStr "LoginFailed"
    let sr ← wrStr rsn
    pure (0x81 :: nm ++ sr)
  | .UserJoined u => do
    let nm ← wrStr "UserJoined"
    let su ← wrStr u
    pure (0x81 :: nm ++ su)
  | .UserLeft u => do
    let nm ← wrStr "UserLeft"
    let su ← wrStr u
    pure (0x81 :: nm ++ su)
  | .UsersOnline us => do
    let nm ← wrStr "UsersOnline"
    let su ← wrStrVec us
    pure (0x81 :: nm ++ su)
  | .Message m => do
    let nm ← wrStr "Message"
    let sm ← wrMessage m
    pure (0x81 :: nm ++ sm)

/-- `Packet::deserialized` for `ClientboundPacket`. -/
def ClientboundPacket.deserialized (bs : List Nat) :
    Option (ClientboundPacket × List Nat) :=
  match bs with
  | [] => none
  | m :: rest =>
    if m = 0x81 then do
      let (name, r1) ← rdStr rest
      if name = "EncryptionResponse" then do
        let (n, r2) ← rdArrayLen r1
        if n = 2 then do
          let (k, r3) ← rdByteVec r2
          let (t, r4) ← rdByteVec r3
          pure (.EncryptionResponse k t, r4)
        else none
      else if name = "LoginFailed" then do
        let (rsn, r2) ← rdStr r1
        pure (.LoginFailed rsn, r2)
      else if name = "UserJoined" then do
        let (u, r2) ← rdStr r1
        pure (.UserJoined u, r2)
      else if name = "UserLeft" then do
        let (u, r2) ← rdStr r1
        pure (.UserLeft u, r2)
      else if name = "UsersOnline" then do
        let (us, r2) ← rdStrVec r1
        pure (.UsersOnline us, r2)
      else if name = "Message" then do
        let (msg, r2) ← rdMessage r1
        pure (.Message msg, r2)
      else none
    else do
      let (name, r1) ← rdStr (m :: rest)
      if name = "Pong" then pure (.Pong, r1)
      else if name = "EncryptionAck" then pure (.EncryptionAck, r1)
      else if name = "LoginAck" then pure (.LoginAck, r1)
      else none

end packets

theorem charOfNat_toNat (c : Char) : Char.ofNat c.toNat = c := by
  have h : Nat.isValidChar c.toNat := c.valid
  unfold Char.ofNat
  rw [dif_pos h]
  unfold Char.ofNatAux
  apply Char.eq_of_val_eq
  simp [Char.toNat]
  apply UInt32.eq_of_toBitVec_eq
  apply BitVec.eq_of_toNat_eq
  simp
  rfl

theorem mkChar_toNat (c : Char) : mkChar c.toNat = some c := by
  have h : Nat.isValidChar c.toNat := c.valid
  unfold mkChar
  rw [if_pos h, charOfNat_toNat]

theorem utf8DecodeChar_append (c : Char) (bs : List Nat) :
    utf8DecodeChar (utf8Char c ++ bs) = some (c, bs) := by
  have hval : c.toNat < 0xd800 ∨ (0xdfff < c.toNat ∧ c.toNat < 0x110000) := c.valid
  have hmk : mkChar c.toNat = some c := mkChar_toNat c
  by_cases h1 : c.toNat < 0x80
  · simp only [utf8Char, if_pos h1, List.cons_append, List.nil_append, utf8DecodeChar,
      hmk, Option.map_some']
  · by_cases h2 : c.toNat < 0x800
    · simp only [utf8Char, if_neg h1, if_pos h2, List.cons_append, List.nil_append,
        utf8DecodeChar]
      rw [if_neg (by omega), if_neg (by omega), if_pos (by omega),
          if_pos (by omega : 0x80 ≤ 0x80 + c.toNat % 64 ∧ 0x80 + c.toNat % 64 < 0xC0)]
      have hv' : (0xC0 + c.toNat / 64 - 0xC0) * 64 + (0x80 + c.toNat % 64 - 0x80) = c.toNat := by
        omega
      rw [hv', hmk, Option.map_some']
    · by_cases h3 : c.toNat < 0x10000
      · simp only [utf8Char, if_neg h1, if_neg h2, if_pos h3, List.cons_append, List.nil_append,
          utf8DecodeChar]
        rw [if_neg (by omega), if_neg (by omega), if_neg (by omega), if_pos (by omega),
            if_pos (by omega :
              (0x80 ≤ 0x80 + c.toNat / 64 % 64 ∧ 0x80 + c.toNat / 64 % 64 < 0xC0) ∧
              0x80 ≤ 0x80 + c.toNat % 64 ∧ 0x80 + c.toNat % 64 < 0xC0)]
        have hv' : (0xE0 + c.toNat / 4096 - 0xE0) * 4096 + (0x80 + c.toNat / 64 % 64 - 0x80) * 64 +
            (0x80 + c.toNat % 64 - 0x80) = c.toNat := by omega
        simp only [hv']
        rw [if_pos (by omega), hmk, Option.map_some']
      · have h4 : c.toNat < 0x110000 := by omega
        simp only [utf8Char, if_neg h1, if_neg h2, if_neg h3, List.cons_append, List.nil_append,
          utf8DecodeChar]
        rw [if_neg (by omega), if_neg (by omega), if_neg (by omega), if_neg (by omega),
            if_pos (by omega),
            if_pos (by omega :
              (0x80 ≤ 0x80 + c.toNat / 4096 % 64 ∧ 0x80 + c.toNat / 4096 % 64 < 0xC0) ∧
              (0x80 ≤ 0x80 + c.toNat / 64 % 64 ∧ 0x80 + c.toNat / 64 % 64 < 0xC0) ∧
              0x80 ≤ 0x80 + c.toNat % 64 ∧ 0x80 + c.toNat % 64 < 0xC0)]
        have hv' : (0xF0 + c.toNat / 262144 - 0xF0) * 262144 +
            (0x80 + c.toNat / 4096 % 64 - 0x80) * 4096 +
            (0x80 + c.toNat / 64 % 64 - 0x80) * 64 + (0x80 + c.toNat % 64 - 0x80) = c.toNat := by
          omega
        simp only [hv']
        rw [if_pos (by omega), hmk, Option.map_some']

theorem utf8Char_cons (c : Char) : ∃ b t, utf8Char c = b :: t := by
  unfold utf8Char
  dsimp only
  split_ifs <;> exact ⟨_, _, rfl⟩

theorem utf8Char_length_pos (c : Char) : 1 ≤ (utf8Char c).length := by
  obtain ⟨b, t, h⟩ := utf8Char_cons c
  simp [h]

theorem utf8Flatten_length (l : List Char) :
    l.length ≤ ((l.map utf8Char).flatten).length := by
  induction l with
  | nil => simp
  | cons c cs ih =>
    simp only [List.map_cons, List.flatten_cons, List.length_append, List.length_cons]
    have := utf8Char_length_pos c
    omega

theorem utf8DecodeList_encode (l : List Char) :
    ∀ fuel, l.length ≤ fuel →
      utf8DecodeList fuel ((l.map utf8Char).flatten) = some l := by
  induction l with
  | nil => intro fuel _; simp [utf8DecodeList]
  | cons c cs ih =>
    intro fuel hf
    obtain ⟨b, t, hbt⟩ := utf8Char_cons c
    cases fuel with
    | zero => simp at hf
    | succ f =>
      simp only [List.map_cons, List.flatten_cons]
      rw [hbt, List.cons_append, utf8DecodeList, ← List.cons_append, ← hbt,
        utf8DecodeChar_append]
      simp only [Option.pure_def, Option.bind_eq_bind, Option.some_bind]
      rw [ih f (by simpa using hf)]
      rfl

theorem utf8Decode_encode (s : String) : utf8Decode (utf8Encode s) = some s := by
  unfold utf8Decode
  rw [show utf8Encode s = (s.data.map utf8Char).flatten from rfl]
  rw [utf8DecodeList_encode s.data _ (utf8Flatten_length s.data)]
  rfl

theorem rdInt_wrUint (v : Nat) (u : List Nat) (h : wrUint v = some u) (r : List Nat) :
    rdInt (u ++ r) = some ((v : Int), r) := by
  unfold wrUint at h
  split_ifs at h with h1 h2 h3 h4 h5
  · simp only [Option.some.injEq] at h; subst h
    simp only [List.cons_append, List.nil_append, rdInt]
    rw [if_pos h1]
  · simp only [Option.some.injEq] at h; subst h
    simp only [List.cons_append, List.nil_append, rdInt]
    norm_num
  · simp only [Option.some.injEq] at h; subst h
    simp only [List.cons_append, rdInt]
    norm_num
    rw [fromBE_toBE 2 0 v r (by omega)]
    simp
  · simp only [Option.some.injEq] at h; subst h
    simp only [List.cons_append, rdInt]
    norm_num
    rw [fromBE_toBE 4 0 v r (by omega)]
    simp
  · simp only [Option.some.injEq] at h; subst h
    simp only [List.cons_append, rdInt]
    norm_num
    rw [fromBE_toBE 8 0 v r (by omega)]
    simp

theorem rdUint_wrUint (v : Nat) (u : List Nat) (h : wrUint v = some u) (r : List Nat) :
    rdUint (u ++ r) = some (v, r) := by
  unfold rdUint
  rw [rdInt_wrUint v u h r]
  simp

theorem rdByte_wrUint (v : Nat) (u : List Nat) (hv : v < 256) (h : wrUint v = some u)
    (r : List Nat) : rdByte (u ++ r) = some (v, r) := by
  unfold rdByte
  rw [rdUint_wrUint v u h r]
  simp [hv]

theorem rdInt_wrInt (v : Int) (u : List Nat) (h : wrInt v = some u) (r : List Nat) :
    rdInt (u ++ r) = some (v, r) := by
  unfold wrInt at h
  split_ifs at h with h0 h1 h2 h3 h4 h5
  · rw [rdInt_wrUint v.toNat u h r, Int.toNat_of_nonneg h0]
  · simp only [Option.some.injEq] at h; subst h
    simp only [List.cons_append, List.nil_append, rdInt]
    rw [if_neg (by omega), if_pos (by omega)]
    congr 1
    congr 1
    omega
  · simp only [Option.some.injEq] at h; subst h
    simp only [List.cons_append, List.nil_append, rdInt]
    norm_num
    rw [if_neg (by omega)]
    omega
  · simp only [Option.some.injEq] at h; subst h
    simp only [List.cons_append, rdInt]
    norm_num [fromBE_toBE 2 0 (v + 65536).toNat r (by omega)]
    rw [if_neg (by omega)]
    omega
  · simp only [Option.some.injEq] at h; subst h
    simp only [List.cons_append, rdInt]
    norm_num [fromBE_toBE 4 0 (v + 4294967296).toNat r (by omega)]
    rw [if_neg (by omega)]
    omega
  · simp only [Option.some.injEq] at h; subst h
    simp only [List.cons_append, rdInt]
    norm_num [fromBE_toBE 8 0 (v + 18446744073709551616).toNat r (by omega)]
    rw [if_neg (by omega)]
    omega

theorem rdStrBody_exact (s : String) (b r : List Nat) (hb : utf8Encode s = b) :
    rdStrBody b.length (b ++ r) = some (s, r) := by
  unfold rdStrBody
  rw [if_neg (by simp)]
  simp only [List.take_left, List.drop_left]
  subst hb
  rw [utf8Decode_encode s]
  rfl

theorem rdStr_wrStr (s : String) (u : List Nat) (h : wrStr s = some u) (r : List Nat) :
    rdStr (u ++ r) = some (s, r) := by
  unfold wrStr at h
  dsimp only at h
  split_ifs at h with h1 h2 h3 h4
  · simp only [Option.some.injEq] at h; subst h
    simp only [List.cons_append, rdStr]
    rw [if_pos (by omega)]
    have : 0xa0 + (utf8Encode s).length - 0xa0 = (utf8Encode s).length := by omega
    rw [this]
    exact rdStrBody_exact s _ r rfl
  · simp only [Option.some.injEq] at h; subst h
    simp only [List.cons_append, rdStr]
    rw [if_neg (by omega)]
    simp only [if_true]
    exact rdStrBody_exact s _ r rfl
  · simp only [Option.some.injEq] at h; subst h
    simp only [List.cons_append, List.append_assoc, rdStr]
    rw [if_neg (by omega), if_neg (by omega)]
    simp only [if_true]
    rw [fromBE_toBE 2 0 (utf8Encode s).length (utf8Encode s ++ r) (by omega)]
    simp only [Option.pure_def, Option.bind_eq_bind, Option.some_bind, Nat.zero_mul,
      Nat.zero_add]
    exact rdStrBody_exact s _ r rfl
  · simp only [Option.some.injEq] at h; subst h
    simp only [List.cons_append, List.append_assoc, rdStr]
    rw [if_neg (by omega), if_neg (by omega), if_neg (by omega)]
    simp only [if_true]
    rw [fromBE_toBE 4 0 (utf8Encode s).length (utf8Encode s ++ r) (by omega)]
    simp only [Option.pure_def, Option.bind_eq_bind, Option.some_bind, Nat.zero_mul,
      Nat.zero_add]
    exact rdStrBody_exact s _ r rfl

theorem rdArrayLen_wrArrayLen (n : Nat) (u : List Nat) (h : wrArrayLen n = some u)
    (r : List Nat) : rdArrayLen (u ++ r) = some (n, r) := by
  unfold wrArrayLen at h
  split_ifs at h with h1 h2 h3
  · simp only [Option.some.injEq] at h; subst h
    simp only [List.cons_append, List.nil_append, rdArrayLen]
    rw [if_pos (by omega)]
    congr 2
    omega
  · simp only [Option.some.injEq] at h; subst h
    simp only [List.cons_append, rdArrayLen]
    rw [if_neg (by omega)]
    simp only [if_true]
    rw [fromBE_toBE 2 0 n r (by omega)]
    simp
  · simp only [Option.some.injEq] at h; subst h
    simp only [List.cons_append, rdArrayLen]
    rw [if_neg (by omega), if_neg (by omega)]
    simp only [if_true]
    rw [fromBE_toBE 4 0 n r (by omega)]
    simp

theorem rdNBytes_mapM (bs : List Nat) :
    ∀ es r, bs.mapM (fun b => if b < 256 then wrUint b else none) = some es →
      rdNBytes bs.length (es.flatten ++ r) = some (bs, r) := by
  induction bs with
  | nil =>
    intro es r h
    simp only [List.mapM_nil, Option.pure_def, Option.some.injEq] at h
    subst h
    simp [rdNBytes]
  | cons b t ih =>
    intro es r h
    simp only [List.mapM_cons, Option.pure_def, Option.bind_eq_bind, Option.bind_eq_some] at h
    obtain ⟨e, he, rest1, hrest1, hes⟩ := h
    simp only [Option.some.injEq] at hes
    subst hes
    by_cases hb : b < 256
    · rw [if_pos hb] at he
      simp only [List.length_cons, List.flatten_cons, List.append_assoc, rdNBytes]
      rw [rdByte_wrUint b e hb he (rest1.flatten ++ r)]
      simp only [Option.pure_def, Option.bind_eq_bind, Option.some_bind]
      rw [ih rest1 r hrest1]
      rfl
    · rw [if_neg hb] at he
      exact absurd he (by simp)

theorem rdByteVec_wrByteVec (bs : List Nat) (u : List Nat) (h : wrByteVec bs = some u)
    (r : List Nat) : rdByteVec (u ++ r) = some (bs, r) := by
  unfold wrByteVec at h
  simp only [Option.pure_def, Option.bind_eq_bind, Option.bind_eq_some] at h
  obtain ⟨pre, hpre, es, hes, hu⟩ := h
  simp only [Option.some.injEq] at hu
  subst hu
  unfold rdByteVec
  simp only [List.append_assoc]
  rw [rdArrayLen_wrArrayLen bs.length pre hpre (es.flatten ++ r)]
  simp only [Option.pure_def, Option.bind_eq_bind, Option.some_bind]
  exact rdNBytes_mapM bs es r hes

theorem rdNStrs_mapM (ss : List String) :
    ∀ es r, ss.mapM wrStr = some es →
      rdNStrs ss.length (es.flatten ++ r) = some (ss, r) := by
  induction ss with
  | nil =>
    intro es r h
    simp only [List.mapM_nil, Option.pure_def, Option.some.injEq] at h
    subst h
    simp [rdNStrs]
  | cons s t ih =>
    intro es r h
    simp only [List.mapM_cons, Option.pure_def, Option.bind_eq_bind, Option.bind_eq_some] at h
    obtain ⟨e, he, rest1, hrest1, hes⟩ := h
    simp only [Option.some.injEq] at hes
    subst hes
    simp only [List.length_cons, List.flatten_cons, List.append_assoc, rdNStrs]
    rw [rdStr_wrStr s e he (rest1.flatten ++ r)]
    simp only [Option.pure_def, Option.bind_eq_bind, Option.some_bind]
    rw [ih rest1 r hrest1]
    rfl

theorem rdStrVec_wrStrVec (ss : List String) (u : List Nat) (h : wrStrVec ss = some u)
    (r : List Nat) : rdStrVec (u ++ r) = some (ss, r) := by
  unfold wrStrVec at h
  simp only [Option.pure_def, Option.bind_eq_bind, Option.bind_eq_some] at h
  obtain ⟨pre, hpre, es, hes, hu⟩ := h
  simp only [Option.some.injEq] at hu
  subst hu
  unfold rdStrVec
  simp only [List.append_assoc]
  rw [rdArrayLen_wrArrayLen ss.length pre hpre (es.flatten ++ r)]
  simp only [Option.pure_def, Option.bind_eq_bind, Option.some_bind]
  exact rdNStrs_mapM ss es r hes

namespace packets

theorem rdMessage_wrMessage (m : Message) (u : List Nat) (h : wrMessage m = some u)
    (r : List Nat) : rdMessage (u ++ r) = some (m, r) := by
  unfold wrMessage at h
  by_cases ht : m.time < 18446744073709551616
  · simp only [ht, if_true] at h
    simp only [Option.pure_def, Option.bind_eq_bind, Option.bind_eq_some] at h
    obtain ⟨pre, hpre, s1, hs1, s2, hs2, s3, hs3, hu⟩ := h
    simp only [Option.some.injEq] at hu
    subst hu
    unfold rdMessage
    simp only [List.append_assoc]
    rw [rdArrayLen_wrArrayLen 3 pre hpre (s1 ++ (s2 ++ (s3 ++ r)))]
    simp only [Option.pure_def, Option.bind_eq_bind, Option.some_bind, if_true]
    rw [rdStr_wrStr m.sender s1 hs1 (s2 ++ (s3 ++ r))]
    simp only [Option.some_bind]
    rw [rdStr_wrStr m.text s2 hs2 (s3 ++ r)]
    simp only [Option.some_bind]
    rw [rdUint_wrUint m.time s3 hs3 r]
    rfl
  · simp [ht] at h

theorem sb_deserialized_serialized (p : ServerboundPacket) (u : List Nat)
    (h : p.serialized = some u) (r : List Nat) :
    ServerboundPacket.deserialized (u ++ r) = some (p, r) := by
  cases p with
  | Ping =>
    rw [show ServerboundPacket.serialized .Ping = wrStr "Ping" from rfl] at h
    rw [show wrStr "Ping" = some [164, 80, 105, 110, 103] from rfl] at h
    simp only [Option.some.injEq] at h
    subst h
    simp only [List.cons_append, List.nil_append, ServerboundPacket.deserialized]
    rw [if_neg (by omega)]
    rw [show (164 : Nat) :: 80 :: 105 :: 110 :: 103 :: r =
      [164, 80, 105, 110, 103] ++ r from rfl]
    rw [rdStr_wrStr "Ping" [164, 80, 105, 110, 103] rfl r]
    simp
  | EncryptionRequest =>
    rw [show ServerboundPacket.serialized .EncryptionRequest = wrStr "EncryptionRequest" from rfl] at h
    rw [show wrStr "EncryptionRequest" = some [177, 69, 110, 99, 114, 121, 112, 116, 105, 111, 110, 82, 101, 113, 117, 101, 115, 116] from rfl] at h
    simp only [Option.some.injEq] at h
    subst h
    simp only [List.cons_append, List.nil_append, ServerboundPacket.deserialized]
    rw [if_neg (by omega)]
    rw [show (177 : Nat) :: 69 :: 110 :: 99 :: 114 :: 121 :: 112 :: 116 :: 105 :: 111 :: 110 :: 82 :: 101 :: 113 :: 117 :: 101 :: 115 :: 116 :: r =
      [177, 69, 110, 99, 114, 121, 112, 116, 105, 111, 110, 82, 101, 113, 117, 101, 115, 116] ++ r from rfl]
    rw [rdStr_wrStr "EncryptionRequest" [177, 69, 110, 99, 114, 121, 112, 116, 105, 111, 110, 82, 101, 113, 117, 101, 115, 116] rfl r]
    simp
  | EncryptionConfirm ea eb =>
    simp only [ServerboundPacket.serialized, Option.pure_def, Option.bind_eq_bind,
      Option.bind_eq_some] at h
    obtain ⟨nm, hnm, pre, hpre, sa, hsa, sb, hsb, hu⟩ := h
    simp only [Option.some.injEq] at hu
    subst hu
    simp only [List.cons_append, List.append_assoc, ServerboundPacket.deserialized, if_true,
      Option.pure_def, Option.bind_eq_bind]
    rw [rdStr_wrStr "EncryptionConfirm" nm hnm (pre ++ (sa ++ (sb ++ r)))]
    simp only [Option.some_bind]
    norm_num
    rw [rdArrayLen_wrArrayLen 2 pre hpre (sa ++ (sb ++ r))]
    simp only [Option.some_bind]
    norm_num
    rw [rdByteVec_wrByteVec ea sa hsa (sb ++ r)]
    simp only [Option.some_bind]
    rw [rdByteVec_wrByteVec eb sb hsb r]
    rfl
  | Login un pw =>
    simp only [ServerboundPacket.serialized, Option.pure_def, Option.bind_eq_bind,
      Option.bind_eq_some] at h
    obtain ⟨nm, hnm, pre, hpre, sa, hsa, sb, hsb, hu⟩ := h
    simp only [Option.some.injEq] at hu
    subst hu
    simp only [List.cons_append, List.append_assoc, ServerboundPacket.deserialized, if_true,
      Option.pure_def, Option.bind_eq_bind]
    rw [rdStr_wrStr "Login" nm hnm (pre ++ (sa ++ (sb ++ r)))]
    simp only [Option.some_bind]
    norm_num
    rw [rdArrayLen_wrArrayLen 2 pre hpre (sa ++ (sb ++ r))]
    simp only [Option.some_bind]
    norm_num
    rw [rdStr_wrStr un sa hsa (sb ++ r)]
    simp only [Option.some_bind]
    rw [rdStr_wrStr pw sb hsb r]
    rfl
  | Message t =>
    simp only [ServerboundPacket.serialized, Option.pure_def, Option.bind_eq_bind,
      Option.bind_eq_some] at h
    obtain ⟨nm, hnm, st, hst, hu⟩ := h
    simp only [Option.some.injEq] at hu
    subst hu
    simp only [List.cons_append, List.append_assoc, ServerboundPacket.deserialized, if_true,
      Option.pure_def, Option.bind_eq_bind]
    rw [rdStr_wrStr "Message" nm hnm (st ++ r)]
    simp only [Option.some_bind]
    norm_num
    rw [rdStr_wrStr t st hst r]
    rfl
  | Command c =>
    simp only [ServerboundPacket.serialized, Option.pure_def, Option.bind_eq_bind,
      Option.bind_eq_some] at h
    obtain ⟨nm, hnm, st, hst, hu⟩ := h
    simp only [Option.some.injEq] at hu
    subst hu
    simp only [List.cons_append, List.append_assoc, ServerboundPacket.deserialized, if_true,
      Option.pure_def, Option.bind_eq_bind]
    rw [rdStr_wrStr "Command" nm hnm (st ++ r)]
    simp only [Option.some_bind]
    norm_num
    rw [rdStr_wrStr c st hst r]
    rfl
  | FetchMessages o k =>
    simp only [ServerboundPacket.serialized, Option.pure_def, Option.bind_eq_bind,
      Option.bind_eq_some] at h
    obtain ⟨nm, hnm, pre, hpre, sa, hsa, sb, hsb, hu⟩ := h
    simp only [Option.some.injEq] at hu
    subst hu
    unfold wrI64 at hsa hsb
    split_ifs at hsa with hro
    · split_ifs at hsb with hrk
      · simp only [List.cons_append, List.append_assoc, ServerboundPacket.deserialized, if_true,
          Option.pure_def, Option.bind_eq_bind]
        rw [rdStr_wrStr "FetchMessages" nm hnm (pre ++ (sa ++ (sb ++ r)))]
        simp only [Option.some_bind]
        norm_num
        rw [rdArrayLen_wrArrayLen 2 pre hpre (sa ++ (sb ++ r))]
        simp only [Option.some_bind]
        norm_num
        rw [rdInt_wrInt o sa hsa (sb ++ r)]
        simp only [Option.some_bind]
        rw [rdInt_wrInt k sb hsb r]
        rfl

theorem cb_deserialized_serialized (p : ClientboundPacket) (u : List Nat)
    (h : p.serialized = some u) (r : List Nat) :
    ClientboundPacket.deserialized (u ++ r) = some (p, r) := by
  cases p with
  | Pong =>
    rw [show ClientboundPacket.serialized .Pong = wrStr "Pong" from rfl] at h
    rw [show wrStr "Pong" = some [164, 80, 111, 110, 103] from rfl] at h
    simp only [Option.some.injEq] at h
    subst h
    simp only [List.cons_append, List.nil_append, ClientboundPacket.deserialized]
    rw [if_neg (by omega)]
    rw [show (164 : Nat) :: 80 :: 111 :: 110 :: 103 :: r =
      [164, 80, 111, 110, 103] ++ r from rfl]
    rw [rdStr_wrStr "Pong" [164, 80, 111, 110, 103] rfl r]
    simp
  | EncryptionAck =>
    rw [show ClientboundPacket.serialized .EncryptionAck = wrStr "EncryptionAck" from rfl] at h
    rw [show wrStr "EncryptionAck" = some [173, 69, 110, 99, 114, 121, 112, 116, 105, 111, 110, 65, 99, 107] from rfl] at h
    simp only [Option.some.injEq] at h
    subst h
    simp only [List.cons_append, List.nil_append, ClientboundPacket.deserialized]
    rw [if_neg (by omega)]
    rw [show (173 : Nat) :: 69 :: 110 :: 99 :: 114 :: 121 :: 112 :: 116 :: 105 :: 111 :: 110 :: 65 :: 99 :: 107 :: r =
      [173, 69, 110, 99, 114, 121, 112, 116, 105, 111, 110, 65, 99, 107] ++ r from rfl]
    rw [rdStr_wrStr "EncryptionAck" [173, 69, 110, 99, 114, 121, 112, 116, 105, 111, 110, 65, 99, 107] rfl r]
    simp
  | LoginAck =>
    rw [show ClientboundPacket.serialized .LoginAck = wrStr "LoginAck" from rfl] at h
    rw [show wrStr "LoginAck" = some [168, 76, 111, 103, 105, 110, 65, 99, 107] from rfl] at h
    simp only [Option.some.injEq] at h
    subst h
    simp only [List.cons_append, List.nil_append, ClientboundPacket.deserialized]
    rw [if_neg (by omega)]
    rw [show (168 : Nat) :: 76 :: 111 :: 103 :: 105 :: 110 :: 65 :: 99 :: 107 :: r =
      [168, 76, 111, 103, 105, 110, 65, 99, 107] ++ r from rfl]
    rw [rdStr_wrStr "LoginAck" [168, 76, 111, 103, 105, 110, 65, 99, 107] rfl r]
    simp
  | EncryptionResponse ka tb =>
    simp only [ClientboundPacket.serialized, Option.pure_def, Option.bind_eq_bind,
      Option.bind_eq_some] at h
    obtain ⟨nm, hnm, pre, hpre, sa, hsa, sb, hsb, hu⟩ := h
    simp only [Option.some.injEq] at hu
    subst hu
    simp only [List.cons_append, List.append_assoc, ClientboundPacket.deserialized, if_true,
      Option.pure_def, Option.bind_eq_bind]
    rw [rdStr_wrStr "EncryptionResponse" nm hnm (pre ++ (sa ++ (sb ++ r)))]
    simp only [Option.some_bind]
    norm_num
    rw [rdArrayLen_wrArrayLen 2 pre hpre (sa ++ (sb ++ r))]
    simp only [Option.some_bind]
    norm_num
    rw [rdByteVec_wrByteVec ka sa hsa (sb ++ r)]
    simp only [Option.some_bind]
    rw [rdByteVec_wrByteVec tb sb hsb r]
    rfl
  | LoginFailed rsn =>
    simp only [ClientboundPacket.serialized, Option.pure_def, Option.bind_eq_bind,
      Option.bind_eq_some] at h
    obtain ⟨nm, hnm, st, hst, hu⟩ := h
    simp only [Option.some.injEq] at hu
    subst hu
    simp only [List.cons_append, List.append_assoc, ClientboundPacket.deserialized, if_true,
      Option.pure_def, Option.bind_eq_bind]
    rw [rdStr_wrStr "LoginFailed" nm hnm (st ++ r)]
    simp only [Option.some_bind]
    norm_num
    rw [rdStr_wrStr rsn st hst r]
    rfl
  | UserJoined un =>
    simp only [ClientboundPacket.serialized, Option.pure_def, Option.bind_eq_bind,
      Option.bind_eq_some] at h
    obtain ⟨nm, hnm, st, hst, hu⟩ := h
    simp only [Option.some.injEq] at hu
    subst hu
    simp only [List.cons_append, List.append_assoc, ClientboundPacket.deserialized, if_true,
      Option.pure_def, Option.bind_eq_bind]
    rw [rdStr_wrStr "UserJoined" nm hnm (st ++ r)]
    simp only [Option.some_bind]
    norm_num
    rw [rdStr_wrStr un st hst r]
    rfl
  | UserLeft un =>
    simp only [ClientboundPacket.serialized, Option.pure_def, Option.bind_eq_bind,
      Option.bind_eq_some] at h
    obtain ⟨nm, hnm, st, hst, hu⟩ := h
    simp only [Option.some.injEq] at hu
    subst hu
    simp only [List.cons_append, List.append_assoc, ClientboundPacket.deserialized, if_true,
      Option.pure_def, Option.bind_eq_bind]
    rw [rdStr_wrStr "UserLeft" nm hnm (st ++ r)]
    simp only [Option.some_bind]
    norm_num
    rw [rdStr_wrStr un st hst r]
    rfl
  | UsersOnline us =>
    simp only [ClientboundPacket.serialized, Option.pure_def, Option.bind_eq_bind,
      Option.bind_eq_some] at h
    obtain ⟨nm, hnm, st, hst, hu⟩ := h
    simp only [Option.some.injEq] at hu
    subst hu
    simp only [List.cons_append, List.append_assoc, ClientboundPacket.deserialized, if_true,
      Option.pure_def, Option.bind_eq_bind]
    rw [rdStr_wrStr "UsersOnline" nm hnm (st ++ r)]
    simp only [Option.some_bind]
    norm_num
    rw [rdStrVec_wrStrVec us st hst r]
    rfl
  | Message m =>
    simp only [ClientboundPacket.serialized, Option.pure_def, Option.bind_eq_bind,
      Option.bind_eq_some] at h
    obtain ⟨nm, hnm, st, hst, hu⟩ := h
    simp only [Option.some.injEq] at hu
    subst hu
    simp only [List.cons_append, List.append_assoc, ClientboundPacket.deserialized, if_true,
      Option.pure_def, Option.bind_eq_bind]
    rw [rdStr_wrStr "Message" nm hnm (st ++ r)]
    simp only [Option.some_bind]
    norm_num
    rw [rdMessage_wrMessage m st hst r]
    rfl

end packets

theorem chachaBlockBytes_length (key : List Nat) (ctr : Nat) (n12 : List Nat) :
    (chachaBlockBytes key ctr n12).length = 64 := by
  simp [chachaBlockBytes, toLE_length]

theorem ksBlocks_length (key n12 : List Nat) (k : Nat) :
    ∀ ctr, (ksBlocks key n12 k ctr).length = 64 * k := by
  induction k with
  | zero => intro ctr; rfl
  | succ k ih =>
    intro ctr
    simp only [ksBlocks, List.length_append, chachaBlockBytes_length, ih]
    omega

theorem chachaKeystream_length (key n12 : List Nat) (len : Nat) :
    (chachaKeystream key n12 len).length = len := by
  unfold chachaKeystream
  rw [List.length_take, ksBlocks_length]
  omega

theorem listXor_length (a b : List Nat) : (listXor a b).length = min a.length b.length := by
  simp [listXor]

theorem listXor_cancel (a : List Nat) :
    ∀ ks, ks.length = a.length → listXor (listXor a ks) ks = a := by
  induction a with
  | nil => intro ks _; simp [listXor]
  | cons x t ih =>
    intro ks hks
    cases ks with
    | nil => simp at hks
    | cons k kt =>
      simp only [listXor, List.zipWith_cons_cons, List.cons.injEq]
      constructor
      · rw [Nat.xor_assoc, Nat.xor_self, Nat.xor_zero]
      · exact ih kt (by simpa using hks)

theorem poly1305_length (key32 msg : List Nat) : (poly1305 key32 msg).length = 16 := by
  simp [poly1305, toLE_length]

theorem aeadTag_length (key nonce ct : List Nat) : (aeadTag key nonce ct).length = 16 := by
  simp [aeadTag, poly1305_length]

theorem aeadEncrypt_length (key nonce pt : List Nat) :
    (aeadEncrypt key nonce pt).length = pt.length + 16 := by
  simp [aeadEncrypt, listXor_length, aeadTag_length, chachaKeystream_length]

theorem aeadDecrypt_aeadEncrypt (key nonce pt : List Nat) :
    aeadDecrypt key nonce (aeadEncrypt key nonce pt) = some pt := by
  have hct : (listXor pt (chachaKeystream (xchachaSubkey key nonce) (xchachaN12 nonce)
      pt.length)).length = pt.length := by
    rw [listXor_length, chachaKeystream_length]
    omega
  unfold aeadDecrypt
  rw [if_neg (by rw [aeadEncrypt_length]; omega)]
  unfold aeadEncrypt
  rw [show (listXor pt (chachaKeystream (xchachaSubkey key nonce) (xchachaN12 nonce) pt.length) ++
      aeadTag key nonce (listXor pt (chachaKeystream (xchachaSubkey key nonce)
        (xchachaN12 nonce) pt.length))).length - 16 =
      (listXor pt (chachaKeystream (xchachaSubkey key nonce) (xchachaN12 nonce)
        pt.length)).length by
    rw [List.length_append, aeadTag_length]
    omega]
  rw [List.take_left, List.drop_left]
  rw [if_pos rfl]
  rw [hct]
  rw [listXor_cancel pt _ (by rw [chachaKeystream_length])]

theorem decrypt_frame_encrypt_frame (pb key nonce u : List Nat)
    (h : encrypt_frame pb key nonce = some u) (r : List Nat) :
    decrypt_frame (u ++ r) key nonce = FrameResult.ok pb r := by
  unfold encrypt_frame at h
  dsimp only at h
  split_ifs at h with h1 h2
  simp only [Option.some.injEq] at h
  subst h
  have hbuf : (aeadEncrypt key nonce pb).length = pb.length + 16 := aeadEncrypt_length key nonce pb
  unfold decrypt_frame
  rw [if_neg (by simp [toBE_length])]
  simp only [List.append_assoc]
  rw [fromBE_toBE 4 0 (aeadEncrypt key nonce pb).length (aeadEncrypt key nonce pb ++ r)
    (by norm_num; omega)]
  simp only [Nat.zero_mul, Nat.zero_add]
  rw [if_neg (by simp)]
  rw [List.take_left, List.drop_left]
  rw [aeadDecrypt_aeadEncrypt key nonce pb]

/-! ## RSA with PKCS#1 v1.5 padding (the `rsa` crate's `decrypt` with
`PaddingScheme::PKCS1v15`), as used by the arbiter for the handshake -/

/-- Big-endian value of a byte list (`os2ip`). -/
def beVal (bs : List Nat) : Nat := bs.foldl (fun acc b => acc * 256 + b % 256) 0

/-- Fuel-driven fast modular exponentiation (square and multiply,
tail-recursive with an accumulator; the fuel `e + 1` always suffices
since the exponent halves on every step). -/
def powModAux : Nat → Nat → Nat → Nat → Nat → Nat
  | 0, _, _, acc, n => acc % n
  | fuel + 1, b, e, acc, n =>
    if e = 0 then acc % n
    else powModAux fuel (b * b % n) (e / 2) (if e % 2 = 1 then acc * b % n else acc) n

def powMod (b e n : Nat) : Nat := powModAux (e + 1) (b % n) e 1 n

/-- An RSA private key: modulus, private exponent and byte size `k`. -/
structure RsaKey where
  n : Nat
  d : Nat
  size : Nat
deriving Repr, DecidableEq

/-- PKCS#1 v1.5 unpadding (`rsa::pkcs1v15::decrypt_inner`): the encoded
message must be `00 02 ‖ PS ‖ 00 ‖ M` with at least eight nonzero padding
bytes `PS`. -/
def pkcs1v15Unpad (em : List Nat) : Option (List Nat) :=
  match em with
  | 0 :: 2 :: rest =>
    let i := rest.findIdx (· = 0)
    if i < rest.length ∧ 8 ≤ i then some (rest.drop (i + 1)) else none
  | _ => none

/-- `RsaPrivateKey::decrypt` with PKCS#1 v1.5: interpret the ciphertext as
an integer (reject it if it is not below the modulus), apply the private
exponent, serialize to `k` bytes and unpad.  `none` is the crate's
`Err(...)` result. -/
def rsaDecrypt (key : RsaKey) (c : List Nat) : Option (List Nat) :=
  let cInt := beVal c
  if cInt ≥ key.n then none
  else pkcs1v15Unpad (toBE key.size (powMod cInt key.d key.n))

/-! ## The server (`src/server/src/`): data model

Types follow `commands.rs`, `config.rs` and the database schema from
`channel.rs`.  Socket addresses and writer queues are identified by
natural numbers; a command that in Rust carries a `Sender` handle carries
the corresponding identifier here, and a oneshot reply is modelled as an
explicit output value. -/

namespace server

/-- `accord::packets::Message` as the server uses it (with `sender_id`). -/
structure Message where
  sender_id : Int
  sender : String
  text : String
  time : Nat
deriving Repr, DecidableEq

structure ImageMessage where
  sender_id : Int
  sender : String
  image_bytes : List Nat
  time : Nat
deriving Repr, DecidableEq

inductive ServerboundPacket where
  | Ping
  | EncryptionRequest
  | EncryptionConfirm (enc_secret : List Nat) (enc_token : List Nat)
  | Login (username : String) (password : String)
  | Message (text : String)
  | ImageMessage (image_bytes : List Nat)
  | Command (command : String)
  | FetchMessages (offset : Int) (count : Int)
deriving Repr, DecidableEq

inductive ClientboundPacket where
  | Pong
  | EncryptionResponse (pub_key : List Nat) (token : List Nat)
  | EncryptionAck
  | LoginAck
  | LoginFailed (reason : String)
  | UserJoined (username : String)
  | UserLeft (username : String)
  | UsersOnline (usernames : List String)
  | Message (message : server.Message)
  | ImageMessage (message : server.ImageMessage)
deriving Repr, DecidableEq

/-- `UserPermissions` from `commands.rs`; the `Default` used by
`get_user_perms` is all-`false`. -/
structure UserPermissions where
  operator : Bool
  whitelisted : Bool
  banned : Bool
deriving Repr, DecidableEq

/-- `ConnectionCommand` from `commands.rs`. -/
inductive ConnectionCommand where
  | Write (p : ClientboundPacket)
  | SetSecret (s : Option (List Nat))
  | Close
deriving Repr, DecidableEq

abbrev Addr := Nat

abbrev WriterId := Nat

/-- `ChannelCommand` from `commands.rs` (queue handles as identifiers,
oneshot reply channels implicit). -/
inductive ChannelCommand where
  | Close
  | Write (p : ClientboundPacket)
  | EncryptionRequest (tx : WriterId)
  | EncryptionConfirm (tx : WriterId) (enc_secret enc_token expected_token : List Nat)
  | LoginAttempt (username password : String) (addr : Addr) (tx : WriterId)
  | UserJoined (username : String)
  | UserLeft (addr : Addr)
  | UsersQuery (addr : Addr)
  | UsersQueryTUI
  | FetchMessages (offset count : Int)
  | CheckPermissions (username : String)
  | KickUser (username : String)
  | BanUser (username : String) (switch : Bool)
  | WhitelistUser (username : String) (switch : Bool)
  | SetWhitelist (state : Bool)
  | SetAllowNewAccounts (state : Bool)
deriving Repr, DecidableEq

/-- A row of `accord.accounts` (`password` and `salt` are stored
base64-encoded, as `handle_login` / `insert_user` do). -/
structure Account where
  user_id : Int
  username : String
  password : String
  salt : String
  banned : Bool
  whitelisted : Bool
deriving Repr, DecidableEq

/-- A row of `accord.messages`. -/
structure MessageRow where
  sender_id : Int
  sender : String
  content : String
  send_time : Int
  image_hash : Option Int
deriving Repr, DecidableEq

/-- The parts of the database the arbiter touches.  `next_user_id` models
the `serial8` sequence behind `accounts.user_id`. -/
structure Database where
  accounts : List Account
  next_user_id : Int
  messages : List MessageRow
  images : List (Int × List Nat)
deriving Repr, DecidableEq

/-- The runtime-relevant configuration fields (`config.rs`). -/
structure Config where
  operators : List String
  whitelist_on : Bool
  allow_new_accounts : Bool
deriving Repr, DecidableEq

/-- The arbiter's state (`AccordChannel`).  The OS randomness consumed by
the salt generator and the handshake tokens is modelled as explicit
streams. -/
structure CState where
  txs : List (Addr × WriterId)
  connected_users : List (Addr × String)
  db : Database
  config : Config
  saltStream : List Nat
  tokenStream : List (List Nat)
  key : RsaKey
  pubKeyDer : List Nat
deriving Repr, DecidableEq

/-- `HashMap::insert` on an association list. -/
def alInsert {β : Type} (l : List (Nat × β)) (k : Nat) (v : β) : List (Nat × β) :=
  (k, v) :: l.filter (fun p => p.1 != k)

/-- `HashMap::remove`. -/
def alRemove {β : Type} (l : List (Nat × β)) (k : Nat) : List (Nat × β) :=
  l.filter (fun p => p.1 != k)

/-- `HashMap::get`. -/
def alGet {β : Type} (l : List (Nat × β)) (k : Nat) : Option β :=
  (l.find? (fun p => p.1 == k)).map (fun p => p.2)

/-- `hash_password` from `channel.rs`: the first 32 bytes of
`SHA-256(pass ‖ salt)`. -/
def hash_password (pass salt : List Nat) : List Nat := (sha256 (pass ++ salt)).take 32

/-- `get_user_perms`: looks the username up in `accounts`; the default
(account missing) is all-`false`, including `operator`. -/
def get_user_perms (st : CState) (username : String) : UserPermissions :=
  match st.db.accounts.find? (fun a => a.username == username) with
  | some a => ⟨st.config.operators.contains username, a.whitelisted, a.banned⟩
  | none => ⟨false, false, false⟩

/-- `get_user`. -/
def get_user (st : CState) (username : String) : Option Account :=
  st.db.accounts.find? (fun a => a.username == username)

/-- The result of a `LoginAttempt` (`LoginResult = Result<String, String>`). -/
abbrev LoginResult := Except String String

/-- `AccordChannel::handle_login`, translated line by line from
`channel.rs`.  Returns the updated arbiter state and the reply sent back
over the oneshot, or `none` for a panic (`base64::decode(..).unwrap()` on
a malformed stored row).  On success the address is registered in
`connected_users` and `txs`; state is otherwise unchanged. -/
def handle_login (st : CState) (username password : String) (addr : Addr) (tx : WriterId) :
    Option (CState × LoginResult) :=
  let perms := get_user_perms st username
  if ¬verify_username username then
    some (st, Except.error "Invalid username!")
  else if perms.banned then
    some (st, Except.error "User banned.")
  else if st.config.whitelist_on ∧ ¬perms.whitelisted then
    some (st, Except.error "User not on whitelist.")
  else
    match get_user st username with
    | some row =>
      match b64Decode row.salt with
      | none => none
      | some salt =>
        match b64Decode row.password with
        | none => none
        | some acc_pass =>
          let pass_hash := hash_password (utf8Encode password) salt
          if pass_hash = acc_pass then
            if st.connected_users.any (fun p => p.2 == username) then
              some (st, Except.error "Already logged in.")
            else
              some ({ st with
                        connected_users := alInsert st.connected_users addr username,
                        txs := alInsert st.txs addr tx },
                    Except.ok (toString row.user_id ++ "|" ++ row.username))
          else
            some (st, Except.error "Incorrect password.")
    | none =>
      if st.config.allow_new_accounts then
        let salt := st.saltStream.take 64
        let pass_hash := hash_password (utf8Encode password) salt
        let row : Account :=
          { user_id := st.db.next_user_id, username := username,
            password := b64Encode pass_hash, salt := b64Encode salt,
            banned := false, whitelisted := false }
        some ({ st with
                  db := { st.db with
                            accounts := st.db.accounts ++ [row],
                            next_user_id := st.db.next_user_id + 1 },
                  saltStream := st.saltStream.drop 64,
                  connected_users := alInsert st.connected_users addr username,
                  txs := alInsert st.txs addr tx },
              Except.ok (toString st.db.next_user_id ++ "|" ++ username))
      else
        some (st, Except.error "Account creation disabled.")

/-- `read_be_i32` of the first four bytes of the SHA-256 of the image:
the image key used by `insert_image_message`. -/
def imageHash (image_bytes : List Nat) : Int :=
  let v := beVal ((sha256 image_bytes).take 4)
  if v < 2147483648 then (v : Int) else (v : Int) - 4294967296

/-- `insert_message`. -/
def insert_message (db : Database) (m : server.Message) : Database :=
  { db with messages := db.messages ++
      [{ sender_id := m.sender_id, sender := m.sender, content := m.text,
         send_time := (m.time : Int), image_hash := none }] }

/-- `insert_image_message`: the image row first (`ON CONFLICT DO
NOTHING`), then the message row with empty content referencing the hash. -/
def insert_image_message (db : Database) (m : server.ImageMessage) : Database :=
  let h := imageHash m.image_bytes
  let images := if (db.images.find? (fun p => p.1 == h)).isSome then db.images
                else db.images ++ [(h, m.image_bytes)]
  { db with
      images := images,
      messages := db.messages ++
        [{ sender_id := m.sender_id, sender := m.sender, content := "",
           send_time := (m.time : Int), image_hash := some h }] }

/-- `ORDER BY send_time DESC` (ties in unspecified order; modelled with a
stable insertion sort). -/
def sortByTimeDesc (rows : List MessageRow) : List MessageRow :=
  rows.insertionSort (fun a b => b.send_time ≤ a.send_time)

/-- `fetch_messages(offset, count)`: the SQL
`ORDER BY send_time DESC OFFSET $1 ROWS FETCH FIRST $2 ROW ONLY`.
PostgreSQL rejects a negative `OFFSET` or row count, which the arbiter's
`.unwrap()` turns into a panic: `none`. -/
def fetch_messages (db : Database) (offset count : Int) : Option (List MessageRow) :=
  if offset < 0 ∨ count < 0 then none
  else some (((sortByTimeDesc db.messages).drop offset.toNat).take count.toNat)

/-- `fetch_image`: panics (`r.get(0).unwrap()`) when the hash is absent. -/
def fetch_image (db : Database) (h : Int) : Option (List Nat) :=
  (db.images.find? (fun p => p.1 == h)).map (fun p => p.2)

/-- Rebuild a clientbound packet from a fetched row (the body of the
`FetchMessages` arm of `channel_loop`). -/
def rowToPacket (db : Database) (r : MessageRow) : Option ClientboundPacket :=
  match r.image_hash with
  | some h =>
    (fetch_image db h).map (fun bytes =>
      ClientboundPacket.ImageMessage
        { sender_id := r.sender_id, sender := r.sender, image_bytes := bytes,
          time := r.send_time.toNat })
  | none =>
    some (ClientboundPacket.Message
      { sender_id := r.sender_id, sender := r.sender, text := r.content,
        time := r.send_time.toNat })

instance exceptDecEq {ε α : Type} [DecidableEq ε] [DecidableEq α] :
    DecidableEq (Except ε α) := fun a b =>
  match a, b with
  | Except.ok x, Except.ok y =>
    if h : x = y then isTrue (by rw [h]) else isFalse (by simp [h])
  | Except.ok _, Except.error _ => isFalse (by simp)
  | Except.error _, Except.ok _ => isFalse (by simp)
  | Except.error x, Except.error y =>
    if h : x = y then isTrue (by rw [h]) else isFalse (by simp [h])

/-- An observable output of one arbiter step: a command sent to a writer
queue, or a value sent back over the command's oneshot channel. -/
inductive COut where
  | send (w : WriterId) (c : ConnectionCommand) (strict : Bool)
  | replyToken (token : List Nat)
  | replySecret (r : Except Unit (List Nat))
  | replyLogin (r : LoginResult)
  | replyPackets (ps : List ClientboundPacket)
  | replyPerms (p : UserPermissions)
  | replyUsers (us : List String)
deriving Repr, DecidableEq

/-- `kick_user`: sends `Close` to the writer of every connected user with
that name; `self.txs.get(addr).unwrap()` panics if such an address has no
writer. -/
def kick_user (st : CState) (username : String) : Option (List COut) :=
  st.connected_users.foldr
    (fun p acc => do
      let outs ← acc
      if p.2 = username then
        match alGet st.txs p.1 with
        | some w => some (COut.send w ConnectionCommand.Close true :: outs)
        | none => none
      else some outs)
    (some [])

/-- One iteration of `AccordChannel::channel_loop` on one command
(`Close` is handled by the loop itself, see `runChannel`).  `none` models
a panic of the arbiter task. -/
def channelStep (st : CState) (cmd : ChannelCommand) : Option (CState × List COut) :=
  match cmd with
  | ChannelCommand.Close => some (st, [])
  | ChannelCommand.Write p =>
    let db' := match p with
      | ClientboundPacket.Message m => insert_message st.db m
      | ClientboundPacket.ImageMessage im => insert_image_message st.db im
      | _ => st.db
    let outs := st.txs.filterMap (fun q =>
      if (alGet st.connected_users q.1).isSome then
        some (COut.send q.2 (ConnectionCommand.Write p) false)
      else none)
    some ({ st with db := db' }, outs)
  | ChannelCommand.EncryptionRequest tx =>
    match st.tokenStream with
    | [] => none
    | token :: rest =>
      some ({ st with tokenStream := rest },
        [COut.send tx (ConnectionCommand.Write
          (ClientboundPacket.EncryptionResponse st.pubKeyDer token)) true,
         COut.replyToken token])
  | ChannelCommand.EncryptionConfirm tx enc_s enc_t exp_t =>
    match rsaDecrypt st.key enc_t with
    | none => none
    | some t =>
      if t ≠ exp_t then
        some (st, [COut.send tx ConnectionCommand.Close false,
                   COut.replySecret (Except.error ())])
      else
        match rsaDecrypt st.key enc_s with
        | none => none
        | some s =>
          some (st, [COut.replySecret (Except.ok s),
                     COut.send tx (ConnectionCommand.SetSecret (some s)) true,
                     COut.send tx (ConnectionCommand.Write ClientboundPacket.EncryptionAck) true])
  | ChannelCommand.LoginAttempt username password addr tx =>
    (handle_login st username password addr tx).map
      (fun r => (r.1, [COut.replyLogin r.2]))
  | ChannelCommand.UserJoined username =>
    some (st, st.txs.map (fun q =>
      COut.send q.2 (ConnectionCommand.Write (ClientboundPacket.UserJoined username)) false))
  | ChannelCommand.UserLeft addr =>
    let txs' := alRemove st.txs addr
    match alGet st.connected_users addr with
    | some username =>
      some ({ st with txs := txs', connected_users := alRemove st.connected_users addr },
        txs'.map (fun q =>
          COut.send q.2 (ConnectionCommand.Write (ClientboundPacket.UserLeft username)) false))
    | none => some ({ st with txs := txs' }, [])
  | ChannelCommand.UsersQuery addr =>
    match alGet st.txs addr with
    | none => none
    | some tx =>
      some (st, [COut.send tx (ConnectionCommand.Write
        (ClientboundPacket.UsersOnline (st.connected_users.map (fun p => p.2)))) true])
  | ChannelCommand.UsersQueryTUI =>
    some (st, [COut.replyUsers (st.connected_users.map (fun p => p.2))])
  | ChannelCommand.FetchMessages offset count =>
    let count := min count 64
    match fetch_messages st.db offset count with
    | none => none
    | some rows =>
      match rows.mapM (rowToPacket st.db) with
      | none => none
      | some pkts => some (st, [COut.replyPackets pkts])
  | ChannelCommand.CheckPermissions username =>
    some (st, [COut.replyPerms (get_user_perms st username)])
  | ChannelCommand.KickUser username =>
    (kick_user st username).map (fun outs => (st, outs))
  | ChannelCommand.BanUser username switch =>
    let kicked := if switch then kick_user st username else some []
    match kicked with
    | none => none
    | some outs =>
      some ({ st with db := { st.db with accounts := st.db.accounts.map (fun a =>
        if a.username = username then { a with banned := switch } else a) } }, outs)
  | ChannelCommand.WhitelistUser username switch =>
    some ({ st with db := { st.db with accounts := st.db.accounts.map (fun a =>
      if a.username = username then { a with whitelisted := switch } else a) } }, [])
  | ChannelCommand.SetWhitelist state =>
    some ({ st with config := { st.config with whitelist_on := state } }, [])
  | ChannelCommand.SetAllowNewAccounts state =>
    some ({ st with config := { st.config with allow_new_accounts := state } }, [])

/-- The arbiter loop over a list of commands.  `Close` breaks the loop
(subsequent commands are never received); a panic (`none`) ends the
trace. -/
def runChannel : CState → List ChannelCommand → Option CState
  | st, [] => some st
  | st, ChannelCommand.Close :: _ => some st
  | st, c :: cs => (channelStep st c).bind (fun r => runChannel r.1 cs)

/-- Rust `str::split(c)` (structurally recursive so the kernel can
evaluate it; `String.splitOn` in core is well-founded-recursive). -/
def splitChar (sep : Char) : List Char → List (List Char)
  | [] => [[]]
  | c :: rest =>
    let r := splitChar sep rest
    if c = sep then [] :: r
    else
      match r with
      | [] => [[c]]
      | g :: gs => (c :: g) :: gs

def rustSplit (s : String) (sep : Char) : List String :=
  (splitChar sep s.data).map String.mk

def digitsValAux : List Char → Nat → Option Nat
  | [], acc => some acc
  | c :: rest, acc =>
    if 48 ≤ c.toNat ∧ c.toNat ≤ 57 then digitsValAux rest (acc * 10 + (c.toNat - 48))
    else none

def digitsVal : List Char → Option Nat
  | [] => none
  | l => digitsValAux l 0

/-- Rust `str::parse::<i64>()`: optional sign, decimal digits, `i64`
range. -/
def rustParseI64 (s : String) : Option Int :=
  match s.data with
  | '-' :: rest =>
    (digitsVal rest).bind (fun v =>
      if (v : Int) ≤ 9223372036854775808 then some (-(v : Int)) else none)
  | '+' :: rest =>
    (digitsVal rest).bind (fun v =>
      if v < 9223372036854775808 then some ((v : Int)) else none)
  | l =>
    (digitsVal l).bind (fun v =>
      if v < 9223372036854775808 then some ((v : Int)) else none)

/-! ## The per-connection system: reader actor + writer actor + arbiter

`runConn` executes the reader's `spawn_loop` over a list of decoded
packets, performing the reader's interactions with the writer queue and
the arbiter synchronously (every such interaction in the source is a
queue send followed, where applicable, by an await on a oneshot reply).
`none` models a panic of a task the connection depends on.  The reader's
`current_time_as_sec()` is modelled by the constant `now` field.  End of
the packet list simply stops the loop (socket EOF and its `UserLeft`
notification are outside the claims proved on this system). -/

/-- The reader's fields (`ConnectionReaderWrapper`). -/
structure RState where
  addr : Addr
  user_id : Option Int
  username : Option String
  secret : Option (List Nat)
  nonceSeeded : Bool
deriving Repr, DecidableEq

/-- The writer's fields (`ConnectionWriterWrapper`), plus the list of
packets it has been asked to write (its processed queue) and whether the
task has exited (`Close` processed or panic). -/
structure WState where
  secret : Option (List Nat)
  nonceSeeded : Bool
  closed : Bool
  log : List ClientboundPacket
deriving Repr, DecidableEq

structure SysState where
  r : RState
  w : WState
  arb : CState
  wid : WriterId
  now : Nat
  extOut : List (WriterId × ConnectionCommand)
deriving Repr, DecidableEq

/-- One step of the writer's `spawn_loop` on one queue command.
`SetSecret` stores the secret, then `seed.copy_from_slice(&s.unwrap())`
panics — killing the writer task — unless the secret is present with
exactly 32 bytes. -/
def writerApply (w : WState) (c : ConnectionCommand) : WState :=
  match c with
  | ConnectionCommand.Close => { w with closed := true }
  | ConnectionCommand.SetSecret s =>
    match s with
    | some bytes =>
      if bytes.length = 32 then { w with secret := some bytes, nonceSeeded := true }
      else { w with secret := some bytes, closed := true }
    | none => { w with secret := none, closed := true }
  | ConnectionCommand.Write p => { w with log := w.log ++ [p] }

/-- Send one command to this connection's writer queue.  If the writer
task is gone the send fails: a `.unwrap()`-style send (`strict`) panics
the sender (`none`), a `.ok()`-style send is ignored. -/
def sendW (sys : SysState) (c : ConnectionCommand) (strict : Bool) : Option SysState :=
  if sys.w.closed then (if strict then none else some sys)
  else some { sys with w := writerApply sys.w c }

/-- Apply the arbiter's outputs: writer sends are routed (to this
connection's writer or to `extOut` for other connections); replies are
collected for the awaiting reader. -/
def applyOuts : SysState → List COut → Option (SysState × List COut)
  | sys, [] => some (sys, [])
  | sys, COut.send w c strict :: rest =>
    if w = sys.wid then
      match sendW sys c strict with
      | none => none
      | some sys' => applyOuts sys' rest
    else applyOuts { sys with extOut := sys.extOut ++ [(w, c)] } rest
  | sys, reply :: rest =>
    (applyOuts sys rest).map (fun r => (r.1, reply :: r.2))

/-- Send one command to the arbiter and process its effects. -/
def arbCall (sys : SysState) (cmd : ChannelCommand) : Option (SysState × List COut) :=
  match channelStep sys.arb cmd with
  | none => none
  | some (arb', outs) => applyOuts { sys with arb := arb' } outs

/-- `ConnectionReaderWrapper::respond`: a `#SERVER#` message to this
connection only. -/
def respond (sys : SysState) (m : String) : Option SysState :=
  sendW sys (ConnectionCommand.Write (ClientboundPacket.Message
    { sender_id := 0, sender := "#SERVER#", text := m, time := sys.now })) true

/-- `ConnectionReaderWrapper::get_perms` (a `CheckPermissions` round
trip). -/
def getPerms (sys : SysState) (username : String) : Option (SysState × UserPermissions) :=
  (arbCall sys (ChannelCommand.CheckPermissions username)).bind (fun r =>
    match r.2 with
    | [COut.replyPerms p] => some (r.1, p)
    | _ => none)

/-- `ban_command` / `whitelist_command`: operator-gated, with the reply
messages from the source. -/
def gatedUserCommand (sys : SysState) (target : Option String)
    (mk : String → ChannelCommand) (okMsg : String → String) : Option SysState :=
  match target with
  | none => respond sys "No target provided"
  | some t =>
    match sys.r.username with
    | none => none
    | some un =>
      match getPerms sys un with
      | none => none
      | some (sys1, perms) =>
        if perms.operator then
          match arbCall sys1 (mk t) with
          | none => none
          | some (sys2, _) => respond sys2 (okMsg t)
        else respond sys1 "Not permitted."

/-- The `Command(..)` arm of `handle_packet`, split on spaces.  Note that
`set_whitelist` and `set_allow_new_accounts` perform **no** permission
check in the source. -/
def handleCommand (sys : SysState) (command : String) : Option SysState :=
  match rustSplit command ' ' with
  | [] => some sys
  | verb :: args =>
    let arg := args.head?
    if verb = "list" then
      (arbCall sys (ChannelCommand.UsersQuery sys.r.addr)).map (fun r => r.1)
    else if verb = "kick" then
      gatedUserCommand sys arg ChannelCommand.KickUser (fun t => t ++ " kicked.")
    else if verb = "ban" then
      gatedUserCommand sys arg (fun t => ChannelCommand.BanUser t true)
        (fun t => t ++ " banned.")
    else if verb = "unban" then
      gatedUserCommand sys arg (fun t => ChannelCommand.BanUser t false)
        (fun t => t ++ " unbanned.")
    else if verb = "whitelist" then
      gatedUserCommand sys arg (fun t => ChannelCommand.WhitelistUser t true)
        (fun t => t ++ " whitelisted.")
    else if verb = "unwhitelist" then
      gatedUserCommand sys arg (fun t => ChannelCommand.WhitelistUser t false)
        (fun t => t ++ " unwhitelisted.")
    else if verb = "set_whitelist" then
      match arg with
      | none => respond sys "No argument provided"
      | some a =>
        if a = "on" ∨ a = "true" then
          match arbCall sys (ChannelCommand.SetWhitelist true) with
          | none => none
          | some (sys1, _) => respond sys1 "Whitelist on."
        else if a = "off" ∨ a = "false" then
          match arbCall sys (ChannelCommand.SetWhitelist false) with
          | none => none
          | some (sys1, _) => respond sys1 "Whitelist off."
        else
          respond sys ("Invalid argument: " ++ a ++ ".\nExpected \"on\"/\"off\"")
    else if verb = "set_allow_new_accounts" then
      match arg with
      | none => respond sys "No argument provided"
      | some a =>
        if a = "on" ∨ a = "true" then
          match arbCall sys (ChannelCommand.SetAllowNewAccounts true) with
          | none => none
          | some (sys1, _) => respond sys1 "Allow new accounts on."
        else if a = "off" ∨ a = "false" then
          match arbCall sys (ChannelCommand.SetAllowNewAccounts false) with
          | none => none
          | some (sys1, _) => respond sys1 "Allow new accounts off."
        else
          respond sys ("Invalid argument: " ++ a ++ ".\nExpected \"on\"/\"off\"")
    else
      respond sys ("Unknown command: " ++ verb)

/-- `ConnectionReaderWrapper::handle_login`. -/
def readerLogin (sys : SysState) (un pw : String) : Option SysState :=
  match arbCall sys (ChannelCommand.LoginAttempt un pw sys.r.addr sys.wid) with
  | none => none
  | some (sys1, [COut.replyLogin res]) =>
    match res with
    | Except.ok response =>
      match rustSplit response '|' with
      | a :: b :: _ =>
        match rustParseI64 a with
        | none => none
        | some uid =>
          let sys2 := { sys1 with
            r := { sys1.r with user_id := some uid, username := some b } }
          match sendW sys2 (ConnectionCommand.Write ClientboundPacket.LoginAck) true with
          | none => none
          | some sys3 =>
            (arbCall sys3 (ChannelCommand.UserJoined b)).map (fun r => r.1)
      | _ => none
    | Except.error m =>
      (sendW sys1 (ConnectionCommand.Write (ClientboundPacket.LoginFailed m)) true).bind
        (fun s2 => sendW s2 ConnectionCommand.Close true)
  | some _ => none

/-- `ConnectionReaderWrapper::handle_encryption_request`, which reads the
next packet itself (`next = none` models end of input there). -/
def handleEncryptionRequest (sys : SysState) (next : Option ServerboundPacket) :
    Option SysState :=
  match arbCall sys (ChannelCommand.EncryptionRequest sys.wid) with
  | none => none
  | some (sys1, [COut.replyToken expect_token]) =>
    match next with
    | none => some sys1
    | some (ServerboundPacket.EncryptionConfirm s t) =>
      match arbCall sys1 (ChannelCommand.EncryptionConfirm sys.wid s t expect_token) with
      | none => none
      | some (sys2, [COut.replySecret (Except.ok s')]) =>
        let sys3 := { sys2 with r := { sys2.r with secret := some s' } }
        if s'.length = 32 then
          some { sys3 with r := { sys3.r with nonceSeeded := true } }
        else none
      | some (sys2, [COut.replySecret (Except.error ())]) =>
        sendW sys2 ConnectionCommand.Close false
      | some _ => none
    | some _ =>
      sendW sys1 ConnectionCommand.Close false
  | some _ => none

/-- `ConnectionReaderWrapper::handle_packet` for packets other than
`EncryptionRequest` (which needs the next packet; `runConn` routes it to
`handleEncryptionRequest`). -/
def handlePacket (sys : SysState) (p : ServerboundPacket) : Option SysState :=
  match p with
  | ServerboundPacket.Ping =>
    sendW sys (ConnectionCommand.Write ClientboundPacket.Pong) true
  | ServerboundPacket.Login un pw =>
    if sys.r.username.isSome then some sys
    else readerLogin sys un pw
  | ServerboundPacket.EncryptionRequest => handleEncryptionRequest sys none
  | p =>
    if sys.r.username.isSome then
      match p with
      | ServerboundPacket.Message m =>
        match sys.r.user_id, sys.r.username with
        | some uid, some un =>
          if verify_message m then
            (arbCall sys (ChannelCommand.Write (ClientboundPacket.Message
              { sender_id := uid, sender := un, text := m, time := sys.now }))).map
              (fun r => r.1)
          else some sys
        | _, _ => none
      | ServerboundPacket.ImageMessage im =>
        match sys.r.user_id, sys.r.username with
        | some uid, some un =>
          (arbCall sys (ChannelCommand.Write (ClientboundPacket.ImageMessage
            { sender_id := uid, sender := un, image_bytes := im, time := sys.now }))).map
            (fun r => r.1)
        | _, _ => none
      | ServerboundPacket.Command c => handleCommand sys c
      | ServerboundPacket.FetchMessages o n =>
        match arbCall sys (ChannelCommand.FetchMessages o n) with
        | some (sys1, [COut.replyPackets msgs]) =>
          msgs.reverse.foldl
            (fun acc m => acc.bind (fun s => sendW s (ConnectionCommand.Write m) true))
            (some sys1)
        | _ => none
      | _ => none
    else some sys

/-- The reader's `spawn_loop` over a list of decoded packets. -/
def runConn : SysState → List ServerboundPacket → Option SysState
  | sys, [] => some sys
  | sys, ServerboundPacket.EncryptionRequest :: ps =>
    match ps with
    | [] => (handleEncryptionRequest sys none).bind (fun s => runConn s [])
    | q :: qs => (handleEncryptionRequest sys (some q)).bind (fun s => runConn s qs)
  | sys, p :: ps => (handlePacket sys p).bind (fun s => runConn s ps)

end server

/-! ## Concrete fixtures

A real RSA key pair (1024-bit modulus; `rsaN = p·q` for two primes, with
`rsaD` the inverse of 65537 modulo `φ(n)`), PKCS#1-v1.5 encryptions of
two 32-byte tokens and two 32-byte secrets under that key, and the
byte vectors of the repository's own `encrypt_packet_test` test vector. -/

def rsaN : Nat := 55990119133749610449260248219558646479494683085605131185669058502558533721508815020279953201701790086373848767105267119427954425815311870038248406531764668404137644303579295729839220372646425851018281476964956728179454575656907153882797271446848381809742579829678427656773110645483723766152622501059394619527
def rsaD : Nat := 8533886202099956647049157261778404865704447706518602551438854774891392546868967960656979302253676261848854468996361036604755127019380659319347289818664222082042086881040185632072142258800590427353421895921446205253273440438623132330832794338908617977958028929496856979446279702169077579480309952382503930873
def rsaE : Nat := 65537
def encT1 : List Nat := [28, 224, 113, 209, 152, 38, 235, 87, 0, 114, 40, 153, 141, 25, 151, 95, 77, 241, 145, 230, 140, 9, 21, 3, 32, 159, 249, 215, 117, 122, 226, 207, 119, 193, 149, 113, 149, 180, 181, 201, 42, 211, 87, 102, 103, 206, 208, 184, 111, 213, 4, 11, 43, 157, 133, 96, 148, 13, 44, 250, 96, 45, 130, 123, 96, 159, 34, 117, 165, 2, 105, 222, 233, 7, 118, 105, 223, 108, 15, 11, 22, 30, 246, 114, 43, 251, 122, 43, 33, 14, 197, 228, 89, 49, 106, 250, 77, 157, 57, 89, 169, 157, 153, 110, 8, 103, 58, 44, 253, 226, 92, 50, 108, 189, 17, 47, 12, 161, 239, 31, 221, 199, 146, 220, 174, 53, 40, 76]
def encS1 : List Nat := [7, 177, 207, 197, 73, 149, 123, 53, 146, 159, 84, 195, 240, 74, 194, 172, 88, 164, 0, 249, 243, 240, 164, 85, 240, 6, 254, 38, 233, 5, 139, 30, 244, 85, 26, 201, 222, 187, 156, 84, 175, 234, 237, 197, 52, 36, 148, 171, 234, 114, 248, 245, 46, 239, 227, 62, 88, 132, 81, 33, 122, 234, 240, 79, 180, 171, 99, 142, 144, 101, 241, 215, 86, 191, 75, 119, 90, 6, 109, 94, 184, 246, 202, 94, 157, 117, 140, 60, 77, 110, 112, 31, 214, 234, 101, 114, 43, 60, 118, 1, 200, 64, 8, 64, 30, 115, 72, 143, 17, 167, 188, 16, 112, 51, 245, 119, 142, 207, 35, 155, 183, 212, 24, 78, 111, 122, 216, 5]
def encT2 : List Nat := [49, 77, 24, 205, 62, 246, 228, 234, 122, 243, 128, 164, 111, 73, 240, 173, 203, 158, 64, 67, 77, 70, 238, 33, 115, 206, 132, 21, 80, 9, 195, 80, 97, 180, 75, 67, 196, 222, 79, 17, 24, 18, 16, 175, 211, 52, 7, 203, 35, 21, 72, 45, 97, 111, 92, 48, 39, 83, 211, 161, 175, 127, 180, 127, 74, 206, 9, 86, 169, 194, 239, 201, 176, 197, 23, 178, 210, 240, 172, 41, 173, 39, 236, 106, 135, 83, 188, 177, 229, 208, 115, 89, 222, 38, 213, 213, 82, 15, 120, 53, 83, 222, 246, 119, 58, 178, 11, 154, 33, 244, 117, 168, 113, 183, 121, 32, 160, 204, 57, 125, 5, 176, 28, 100, 135, 253, 206, 120]
def encS2 : List Nat := [1, 172, 15, 118, 103, 110, 182, 73, 11, 76, 110, 83, 36, 148, 36, 242, 253, 60, 50, 130, 36, 169, 59, 129, 229, 61, 178, 77, 103, 45, 253, 82, 239, 185, 149, 114, 4, 181, 8, 65, 78, 237, 120, 82, 84, 135, 209, 212, 202, 208, 95, 60, 77, 198, 125, 220, 13, 86, 85, 102, 200, 98, 239, 237, 148, 166, 16, 163, 203, 255, 241, 203, 101, 185, 228, 150, 212, 86, 215, 118, 107, 244, 32, 152, 56, 167, 195, 254, 77, 76, 143, 255, 7, 57, 140, 207, 234, 98, 161, 96, 108, 0, 47, 39, 114, 115, 19, 137, 40, 13, 135, 238, 21, 106, 198, 77, 139, 221, 12, 9, 29, 212, 240, 12, 219, 231, 72, 210]
def tok1 : List Nat := [1, 2, 3, 4, 5, 6, 7, 8, 9, 10, 11, 12, 13, 14, 15, 16, 17, 18, 19, 20, 21, 22, 23, 24, 25, 26, 27, 28, 29, 30, 31, 32]
def sec1 : List Nat := [101, 102, 103, 104, 105, 106, 107, 108, 109, 110, 111, 112, 113, 114, 115, 116, 117, 118, 119, 120, 121, 122, 123, 124, 125, 126, 127, 128, 129, 130, 131, 132]
def tok2 : List Nat := [33, 34, 35, 36, 37, 38, 39, 40, 41, 42, 43, 44, 45, 46, 47, 48, 49, 50, 51, 52, 53, 54, 55, 56, 57, 58, 59, 60, 61, 62, 63, 64]
def sec2 : List Nat := [141, 142, 143, 144, 145, 146, 147, 148, 149, 150, 151, 152, 153, 154, 155, 156, 157, 158, 159, 160, 161, 162, 163, 164, 165, 166, 167, 168, 169, 170, 171, 172]

def testKey : RsaKey := ⟨rsaN, rsaD, 128⟩

/-- `rsaE · rsaD ≡ 1 (mod φ)` is not needed by any proof below; the
ciphertexts were produced with the public exponent 65537 and are consumed
only through `rsaDecrypt`. -/
theorem testKey_pos : 0 < rsaN ∧ 0 < rsaD := by decide

/-- The serialized bytes of `ServerboundPacket::Message("test".to_string())`
(see `encrypt_packet_test` in `src/src/connection.rs`). -/
def tvPT : List Nat := [0x81, 0xa7, 77, 101, 115, 115, 97, 103, 101, 0xa4, 116, 101, 115, 116]

def tvKey : List Nat := List.replicate 32 0

def tvNonce : List Nat := List.replicate 24 0

/-- The expected wire frame from the repository's tests. -/
def tvFrame : List Nat :=
  [0, 0, 0, 30, 249, 57, 219, 236, 150, 83, 236, 24, 188, 69, 135, 160, 198, 64, 126, 155,
   247, 135, 6, 132, 161, 45, 1, 86, 75, 207, 109, 177, 135, 228]

/-- The embedding reproduces the repository's `encrypt_packet_test` and
`decrypt_packet_test` vectors byte for byte: serialization of
`Message("test")` followed by XChaCha20-Poly1305 under the zero key and
zero nonce. -/
theorem serialized_matches_repo_test_vector :
    packets.ServerboundPacket.serialized (packets.ServerboundPacket.Message "test") =
      some tvPT ∧
    encrypt_frame tvPT tvKey tvNonce = some tvFrame ∧
    decrypt_frame tvFrame tvKey tvNonce = FrameResult.ok tvPT [] := by decide

/-! ## Claim C8: `verify_username` -/

/-- The claim's characterization of `verify_username` (refinement pair for
C8, following the spec's words): nonempty, at most 18 **characters**,
every character alphanumeric. -/
def verify_username_claim (u : String) : Bool :=
  !u.data.isEmpty && u.data.length ≤ 18 && u.data.all rustIsAlphanumeric

theorem char_utf8Size_pos (c : Char) : 1 ≤ c.utf8Size := by
  unfold Char.utf8Size
  dsimp only
  split_ifs <;> norm_num

theorem data_length_le_utf8ByteSize (s : String) : s.data.length ≤ s.utf8ByteSize := by
  cases s with
  | mk l =>
    show l.length ≤ String.utf8ByteSize.go l
    induction l with
    | nil => simp [String.utf8ByteSize.go]
    | cons c cs ih =>
      have := char_utf8Size_pos c
      simp only [List.length_cons, String.utf8ByteSize.go]
      omega

/-- C8, counterexample: the claim's characterization ("at most 18
characters") disagrees with the code, which limits the UTF-8 **byte**
length (`str::len()`) to 18: ten copies of `'é'` are 10 characters, all
alphanumeric, but 20 UTF-8 bytes, so `verify_username` rejects them. -/
theorem C8_counterexample :
    verify_username_claim (String.mk (List.replicate 10 'é')) = true ∧
    verify_username (String.mk (List.replicate 10 'é')) = false := by decide

/-- C8 (amended): `verify_username` accepts exactly the nonempty strings
of UTF-8 byte length at most 18 whose characters are all alphanumeric; in
particular it accepts `"a"` and the 18-character ASCII string, rejects
`""`, every string of 19 or more characters, and every string containing
`'-'`, `'.'`, a space, or a control character. -/
theorem C8_verify_username_characterization :
    (∀ u : String, verify_username u = true ↔
      (u.data ≠ [] ∧ u.utf8ByteSize ≤ 18 ∧ ∀ c ∈ u.data, rustIsAlphanumeric c = true)) ∧
    verify_username "a" = true ∧
    verify_username "abcdefghijklmnopqr" = true ∧
    verify_username "" = false ∧
    (∀ u : String, 19 ≤ u.data.length → verify_username u = false) ∧
    (∀ u : String, (∃ c ∈ u.data, c = '-' ∨ c = '.' ∨ c = ' ' ∨ rustIsControl c = true) →
      verify_username u = false) := by
  have hemp : ∀ l : List Char, l.isEmpty = false ↔ l ≠ [] := by
    intro l
    cases l <;> simp
  refine ⟨?_, by decide, by decide, by decide, ?_, ?_⟩
  · intro u
    simp only [verify_username, Bool.not_eq_true', Bool.or_eq_false_iff,
      decide_eq_false_iff_not, not_lt, List.any_eq_false, Bool.not_eq_false]
    constructor
    · rintro ⟨⟨h2, h1⟩, h3⟩
      exact ⟨(hemp u.data).mp h1, h2, h3⟩
    · rintro ⟨h1, h2, h3⟩
      exact ⟨⟨h2, (hemp u.data).mpr h1⟩, h3⟩
  · intro u hlen
    have hb := data_length_le_utf8ByteSize u
    have h19 : 18 < u.utf8ByteSize := by omega
    simp [verify_username, h19]
  · rintro u ⟨c, hc, hprop⟩
    have hbad : rustIsAlphanumeric c = false := by
      rcases hprop with h | h | h | h
      · subst h; decide
      · subst h; decide
      · subst h; decide
      · simp only [rustIsControl, Bool.or_eq_true, Bool.and_eq_true,
          decide_eq_true_eq] at h
        simp only [rustIsAlphanumeric, Bool.or_eq_false_iff, Bool.and_eq_false_iff,
          decide_eq_false_iff_not, not_le, not_lt]
        omega
    have hany : u.data.any (fun c => !rustIsAlphanumeric c) = true :=
      List.any_eq_true.mpr ⟨c, hc, by simp [hbad]⟩
    simp [verify_username, hany]

theorem C8_witness :
    verify_username (String.mk (List.replicate 19 'b')) = false ∧
    verify_username "bob-by" = false :=
  ⟨C8_verify_username_characterization.2.2.2.2.1 _ (by decide),
   C8_verify_username_characterization.2.2.2.2.2 _ ⟨'-', by decide, Or.inl rfl⟩⟩

/-! ## Claim C10: `Ping` always answers with exactly one `Pong` -/

/-- C10: in every connection state (any handshake or login progress, any
arbiter state), a received `Ping` enqueues exactly one `Pong` on this
connection's writer queue and changes nothing else: reader fields
(`secret`, `user_id`, `username`), writer secret, arbiter state and
external outputs are all untouched. -/
theorem C10_ping_pong (sys : server.SysState) (h : sys.w.closed = false) :
    server.handlePacket sys server.ServerboundPacket.Ping =
      some { sys with w := { sys.w with
        log := sys.w.log ++ [server.ClientboundPacket.Pong] } } := by
  simp [server.handlePacket, server.sendW, h, server.writerApply]

/-- A live logged-in connection used by several witnesses. -/
def sysPing : server.SysState :=
  { r := { addr := 0, user_id := some 7, username := some "eve", secret := some (List.replicate 32 1),
           nonceSeeded := true },
    w := { secret := some (List.replicate 32 1), nonceSeeded := true, closed := false,
           log := [server.ClientboundPacket.LoginAck] },
    arb := { txs := [(0, 5)], connected_users := [(0, "eve")],
             db := { accounts := [⟨7, "eve", "", "", false, false⟩], next_user_id := 8,
                     messages := [], images := [] },
             config := { operators := ["op"], whitelist_on := false, allow_new_accounts := true },
             saltStream := [], tokenStream := [], key := ⟨3233, 2753, 2⟩, pubKeyDer := [] },
    wid := 5, now := 1000, extOut := [] }

theorem C10_witness :
    sysPing.w.closed = false ∧
    server.handlePacket sysPing server.ServerboundPacket.Ping =
      some { sysPing with w := { sysPing.w with
        log := sysPing.w.log ++ [server.ClientboundPacket.Pong] } } :=
  ⟨rfl, C10_ping_pong sysPing rfl⟩

/-! ## Claim C1: `set_whitelist` / `set_allow_new_accounts` and non-operators -/

/-- C1 (code bug): the reader's `Command` handler forwards
`set_whitelist on` and `set_allow_new_accounts off` to the arbiter and
answers `"Whitelist on."` / `"Allow new accounts off."` for **every**
logged-in user — there is no operator check in these two arms (unlike
`kick`, `ban` and `whitelist`), so the non-operator `"eve"` flips both
config fields instead of receiving `"Not permitted."`. -/
theorem C1_set_whitelist_not_gated :
    (server.get_user_perms sysPing.arb "eve").operator = false ∧
    sysPing.arb.config.whitelist_on = false ∧
    server.handlePacket sysPing (server.ServerboundPacket.Command "set_whitelist on") =
      some { sysPing with
        arb := { sysPing.arb with config := { sysPing.arb.config with whitelist_on := true } },
        w := { sysPing.w with log := sysPing.w.log ++ [server.ClientboundPacket.Message
          { sender_id := 0, sender := "#SERVER#", text := "Whitelist on.", time := sysPing.now }] } } ∧
    sysPing.arb.config.allow_new_accounts = true ∧
    server.handlePacket sysPing (server.ServerboundPacket.Command "set_allow_new_accounts off") =
      some { sysPing with
        arb := { sysPing.arb with
          config := { sysPing.arb.config with allow_new_accounts := false } },
        w := { sysPing.w with log := sysPing.w.log ++ [server.ClientboundPacket.Message
          { sender_id := 0, sender := "#SERVER#", text := "Allow new accounts off.",
            time := sysPing.now }] } } := by
  decide

/-! ## Claim C2: the arbiter and invalid handshake ciphertexts -/

/-- An arbiter state holding the concrete RSA key. -/
def c2Arb : server.CState :=
  { txs := [], connected_users := [],
    db := { accounts := [], next_user_id := 1, messages := [], images := [] },
    config := { operators := [], whitelist_on := false, allow_new_accounts := true },
    saltStream := [], tokenStream := [], key := testKey, pubKeyDer := [48] }

/-- C2 (code bug): an `EncryptionConfirm` whose `enc_token` is not a valid
PKCS#1 v1.5 ciphertext (here the single byte `0x00`, which decrypts to an
all-zero block without the `00 02` header) makes the arbiter **panic**
(`.expect("Failed to decrypt.")`) — `none` — instead of sending `Close`
and replying `Err`.  The graceful path exists only for a well-formed
ciphertext whose decrypted token mismatches: third conjunct. -/
theorem C2_arbiter_panics_on_invalid_ciphertext :
    rsaDecrypt testKey [0] = none ∧
    server.channelStep c2Arb (server.ChannelCommand.EncryptionConfirm 5 [0] [0] tok1) = none ∧
    server.channelStep c2Arb (server.ChannelCommand.EncryptionConfirm 5 encS1 encT1 tok2) =
      some (c2Arb, [server.COut.send 5 server.ConnectionCommand.Close false,
                    server.COut.replySecret (Except.error ())]) := by
  decide

/-! ## Claim C5: the login policy -/

/-- C5: `handle_login` applies the policy in the order of the spec —
invalid username, banned, whitelist gate, then for an existing account
the password-hash comparison followed by the `"Already logged in."`
check — accepts only with the string `"<user_id>|<username>"` (also
registering the connection in both maps), creates a missing account with
the next 64 bytes of the salt generator exactly when
`allow_new_accounts`, and rejects otherwise.  The stored-row hypotheses
pin down the base64 decodings that the code `unwrap`s. -/
theorem C5_login_policy (st : server.CState) (username password : String)
    (addr : server.Addr) (tx : server.WriterId) :
    (verify_username username = false →
      server.handle_login st username password addr tx =
        some (st, Except.error "Invalid username!")) ∧
    (verify_username username = true →
      (server.get_user_perms st username).banned = true →
      server.handle_login st username password addr tx =
        some (st, Except.error "User banned.")) ∧
    (verify_username username = true →
      (server.get_user_perms st username).banned = false →
      st.config.whitelist_on = true →
      (server.get_user_perms st username).whitelisted = false →
      server.handle_login st username password addr tx =
        some (st, Except.error "User not on whitelist.")) ∧
    (∀ row salt acc_pass,
      verify_username username = true →
      (server.get_user_perms st username).banned = false →
      (st.config.whitelist_on = true → (server.get_user_perms st username).whitelisted = true) →
      server.get_user st username = some row →
      b64Decode row.salt = some salt →
      b64Decode row.password = some acc_pass →
      (server.hash_password (utf8Encode password) salt ≠ acc_pass →
        server.handle_login st username password addr tx =
          some (st, Except.error "Incorrect password.")) ∧
      (server.hash_password (utf8Encode password) salt = acc_pass →
        (st.connected_users.any (fun p => p.2 == username) = true →
          server.handle_login st username password addr tx =
            some (st, Except.error "Already logged in.")) ∧
        (st.connected_users.any (fun p => p.2 == username) = false →
          server.handle_login st username password addr tx =
            some ({ st with
                      connected_users := server.alInsert st.connected_users addr username,
                      txs := server.alInsert st.txs addr tx },
                  Except.ok (toString row.user_id ++ "|" ++ row.username))))) ∧
    (verify_username username = true →
      (server.get_user_perms st username).banned = false →
      (st.config.whitelist_on = true → (server.get_user_perms st username).whitelisted = true) →
      server.get_user st username = none →
      (st.config.allow_new_accounts = true →
        server.handle_login st username password addr tx =
          some ({ st with
                    db := { st.db with
                              accounts := st.db.accounts ++
                                [{ user_id := st.db.next_user_id, username := username,
                                   password := b64Encode (server.hash_password
                                     (utf8Encode password) (st.saltStream.take 64)),
                                   salt := b64Encode (st.saltStream.take 64),
                                   banned := false, whitelisted := false }],
                              next_user_id := st.db.next_user_id + 1 },
                    saltStream := st.saltStream.drop 64,
                    connected_users := server.alInsert st.connected_users addr username,
                    txs := server.alInsert st.txs addr tx },
                Except.ok (toString st.db.next_user_id ++ "|" ++ username)) ∧
        (64 ≤ st.saltStream.length → (st.saltStream.take 64).length = 64)) ∧
      (st.config.allow_new_accounts = false →
        server.handle_login st username password addr tx =
          some (st, Except.error "Account creation disabled."))) := by
  refine ⟨?_, ?_, ?_, ?_, ?_⟩
  · intro hv
    simp [server.handle_login, hv]
  · intro hv hb
    simp [server.handle_login, hv, hb]
  · intro hv hb hwon hwl
    simp [server.handle_login, hv, hb, hwon, hwl]
  · intro row salt acc_pass hv hb hw hrow hsalt hpass
    constructor
    · intro hne
      simp [server.handle_login, hv, hb, hrow, hsalt, hpass, hne]
      intro hwon
      exact hw hwon
    · intro heq
      constructor
      · intro hconn
        simp [server.handle_login, hv, hb, hrow, hsalt, hpass, heq, hconn]
        intro hwon
        exact hw hwon
      · intro hconn
        simp [server.handle_login, hv, hb, hrow, hsalt, hpass, heq, hconn]
        intro hwon
        exact hw hwon
  · intro hv hb hw hrow
    constructor
    · intro hallow
      constructor
      · simp [server.handle_login, hv, hb, hrow, hallow]
        intro hwon
        exact hw hwon
      · intro hlen
        simp [List.length_take]
        omega
    · intro hallow
      simp [server.handle_login, hv, hb, hrow, hallow]
      intro hwon
      exact hw hwon

def c5St : server.CState :=
  { txs := [], connected_users := [],
    db := { accounts := [], next_user_id := 1, messages := [], images := [] },
    config := { operators := [], whitelist_on := false, allow_new_accounts := true },
    saltStream := List.range 80, tokenStream := [], key := ⟨3233, 2753, 2⟩, pubKeyDer := [] }

theorem C5_witness :
    server.handle_login c5St "alice" "pw1" 0 1 =
      some ({ c5St with
                db := { c5St.db with
                          accounts := c5St.db.accounts ++
                            [{ user_id := c5St.db.next_user_id, username := "alice",
                               password := b64Encode (server.hash_password
                                 (utf8Encode "pw1") (c5St.saltStream.take 64)),
                               salt := b64Encode (c5St.saltStream.take 64),
                               banned := false, whitelisted := false }],
                          next_user_id := c5St.db.next_user_id + 1 },
                saltStream := c5St.saltStream.drop 64,
                connected_users := server.alInsert c5St.connected_users 0 "alice",
                txs := server.alInsert c5St.txs 0 1 },
            Except.ok (toString c5St.db.next_user_id ++ "|" ++ "alice")) :=
  (((C5_login_policy c5St "alice" "pw1" 0 1).2.2.2.2 (by decide) (by decide)
    (by decide) (by decide)).1 (by decide)).1

/-! ## Claim C3: totality of `decrypt_frame` -/

theorem fromBE_some (w : Nat) :
    ∀ acc bs v r, fromBE w acc bs = some (v, r) → w ≤ bs.length ∧ r = bs.drop w := by
  induction w with
  | zero =>
    intro acc bs v r h
    simp only [fromBE, Option.some.injEq, Prod.mk.injEq] at h
    simp [h.2]
  | succ w ih =>
    intro acc bs v r h
    cases bs with
    | nil => simp [fromBE] at h
    | cons b t =>
      have h2 := ih (acc * 256 + b) t v r h
      simp only [List.length_cons, List.drop_succ_cons]
      exact ⟨by omega, h2.2⟩

/-- The repository's test frame with its final tag byte changed from 228
to 229: a complete frame (N = 30 with exactly 4+30 bytes present) whose
Poly1305 tag does not verify. -/
def tamperedFrame : List Nat := tvFrame.take 33 ++ [229]

/-- C3, counterexample: on a complete frame with an invalid
authentication tag, `decrypt_frame` hits `cipher.decrypt(..).unwrap()`
and panics — it does not return an `Error` value. -/
theorem C3_counterexample :
    tamperedFrame.length = 34 ∧
    fromBE 4 0 tamperedFrame = some (30, tamperedFrame.drop 4) ∧
    decrypt_frame tamperedFrame tvKey tvNonce = FrameResult.panic := by decide

/-- C3 (amended): `decrypt_frame` returns `Err "Too short"` below 4
bytes, `Err "Not full frame"` while fewer than `N` bytes follow the
length prefix (there is **no** upper bound on `N`: any complete frame is
processed whatever its size), and on a complete frame consumes exactly
`4 + N` bytes and returns the decrypted plaintext — or **panics** when
the authentication tag is invalid. -/
theorem C3_decrypt_frame_cases (buf key nonce : List Nat) :
    (buf.length < 4 → decrypt_frame buf key nonce = FrameResult.err "Too short") ∧
    (∀ N rest, fromBE 4 0 buf = some (N, rest) →
      rest = buf.drop 4 ∧
      (rest.length < N → decrypt_frame buf key nonce = FrameResult.err "Not full frame") ∧
      (N ≤ rest.length →
        decrypt_frame buf key nonce =
          match aeadDecrypt key nonce (rest.take N) with
          | some pt => FrameResult.ok pt (rest.drop N)
          | none => FrameResult.panic)) := by
  constructor
  · intro h
    simp [decrypt_frame, h]
  · intro N rest h
    have hlen := fromBE_some 4 0 buf N rest h
    refine ⟨hlen.2, ?_, ?_⟩
    · intro hshort
      unfold decrypt_frame
      rw [if_neg (by omega), h]
      dsimp only
      rw [if_pos (by omega)]
    · intro hfull
      unfold decrypt_frame
      rw [if_neg (by omega), h]
      dsimp only
      rw [if_neg (by omega)]

theorem C3_witness :
    decrypt_frame tvFrame tvKey tvNonce = FrameResult.ok tvPT [] := by
  have h := ((C3_decrypt_frame_cases tvFrame tvKey tvNonce).2 30 (tvFrame.drop 4)
    (by decide)).2.2 (by decide)
  exact h.trans (by decide)

/-! ## Claim C7: encode/decode round trip -/

/-- C7: for every packet, 32-byte key and 24-byte nonce,
`decode(encode(p, k, n), k, n) = p`: encoding (serialize, then
XChaCha20-Poly1305 with the 4-byte length prefix) followed by decoding
(`decrypt_frame`, then `deserialized`) returns the packet with all frame
bytes consumed and an empty remainder; likewise plaintext-mode
deserialization of serialized bytes.  The hypotheses
`serialized p = some bs` and `bs.length + 16 < 2^32` restrict the claim
to packets whose encoding the Rust side can represent at all (beyond
them `Packet::serialized` / `encrypt_frame` panic on `u32` overflow). -/
theorem C7_roundtrip :
    (∀ (p : packets.ServerboundPacket) (key nonce bs : List Nat),
      key.length = 32 → nonce.length = 24 →
      packets.ServerboundPacket.serialized p = some bs →
      bs.length + 16 < 4294967296 →
      ∃ frame, encrypt_frame bs key nonce = some frame ∧
        decrypt_frame frame key nonce = FrameResult.ok bs [] ∧
        packets.ServerboundPacket.deserialized bs = some (p, [])) ∧
    (∀ (q : packets.ClientboundPacket) (bs : List Nat),
      packets.ClientboundPacket.serialized q = some bs →
      packets.ClientboundPacket.deserialized bs = some (q, [])) := by
  constructor
  · intro p key nonce bs _hk _hn hs hfit
    have henc : encrypt_frame bs key nonce =
        some (toBE 4 (aeadEncrypt key nonce bs).length ++ aeadEncrypt key nonce bs) := by
      unfold encrypt_frame
      dsimp only
      rw [if_neg (by omega), if_neg (by rw [aeadEncrypt_length]; omega)]
    refine ⟨_, henc, ?_, ?_⟩
    · have h := decrypt_frame_encrypt_frame bs key nonce _ henc []
      simpa using h
    · have h := packets.sb_deserialized_serialized p bs hs []
      simpa using h
  · intro q bs hs
    have h := packets.cb_deserialized_serialized q bs hs []
    simpa using h

theorem C7_witness :
    (∃ frame, encrypt_frame tvPT tvKey tvNonce = some frame ∧
      decrypt_frame frame tvKey tvNonce = FrameResult.ok tvPT [] ∧
      packets.ServerboundPacket.deserialized tvPT =
        some (packets.ServerboundPacket.Message "test", [])) ∧
    packets.ClientboundPacket.deserialized [0xa8, 76, 111, 103, 105, 110, 65, 99, 107] =
      some (packets.ClientboundPacket.LoginAck, []) :=
  ⟨C7_roundtrip.1 (packets.ServerboundPacket.Message "test") tvKey tvNonce tvPT (by decide)
     (by decide) (by decide) (by decide),
   C7_roundtrip.2 packets.ClientboundPacket.LoginAck _ (by decide)⟩

/-! ## Claim C9: `connected_users ⊆ txs` in every reachable arbiter state -/

namespace server

/-- Invariant 1 of the spec: every connected address has a writer queue. -/
def connSubTxs (st : CState) : Prop :=
  ∀ a ∈ st.connected_users.map Prod.fst, a ∈ st.txs.map Prod.fst

theorem mem_keys_alInsert {β : Type} (l : List (Nat × β)) (k a : Nat) (v : β)
    (h : a ∈ (alInsert l k v).map Prod.fst) : a = k ∨ a ∈ l.map Prod.fst := by
  simp only [alInsert, List.map_cons, List.mem_cons] at h
  rcases h with h | h
  · exact Or.inl h
  · right
    simp only [List.mem_map] at h ⊢
    obtain ⟨p, hp, hpa⟩ := h
    exact ⟨p, (List.mem_filter.mp hp).1, hpa⟩

theorem keys_alInsert_self {β : Type} (l : List (Nat × β)) (k : Nat) (v : β) :
    k ∈ (alInsert l k v).map Prod.fst := by
  simp [alInsert]

theorem mem_keys_alInsert_of_mem {β : Type} (l : List (Nat × β)) (k a : Nat) (v : β)
    (h : a ∈ l.map Prod.fst) : a = k ∨ a ∈ (alInsert l k v).map Prod.fst := by
  by_cases hak : a = k
  · exact Or.inl hak
  · right
    simp only [alInsert, List.map_cons, List.mem_cons]
    right
    simp only [List.mem_map] at h ⊢
    obtain ⟨p, hp, hpa⟩ := h
    refine ⟨p, List.mem_filter.mpr ⟨hp, ?_⟩, hpa⟩
    simp [hpa, hak]

theorem mem_keys_alRemove {β : Type} (l : List (Nat × β)) (k a : Nat)
    (h : a ∈ (alRemove l k).map Prod.fst) : a ∈ l.map Prod.fst ∧ a ≠ k := by
  simp only [alRemove, List.mem_map] at h
  obtain ⟨p, hp, hpa⟩ := h
  have hf := List.mem_filter.mp hp
  constructor
  · exact List.mem_map.mpr ⟨p, hf.1, hpa⟩
  · have := hf.2
    simp only [bne_iff_ne, ne_eq] at this
    rw [← hpa]
    exact this

theorem mem_keys_alRemove_of {β : Type} (l : List (Nat × β)) (k a : Nat)
    (h : a ∈ l.map Prod.fst) (hne : a ≠ k) : a ∈ (alRemove l k).map Prod.fst := by
  simp only [List.mem_map] at h
  obtain ⟨p, hp, hpa⟩ := h
  refine List.mem_map.mpr ⟨p, List.mem_filter.mpr ⟨hp, ?_⟩, hpa⟩
  simp only [bne_iff_ne, ne_eq, hpa]
  exact hne

theorem alGet_none {β : Type} (l : List (Nat × β)) (k : Nat)
    (h : alGet l k = none) : k ∉ l.map Prod.fst := by
  intro hmem
  simp only [List.mem_map] at hmem
  obtain ⟨p, hp, hpk⟩ := hmem
  unfold alGet at h
  cases hf : List.find? (fun p => p.1 == k) l with
  | some q => rw [hf] at h; exact Option.noConfusion h
  | none =>
    have h2 := List.find?_eq_none.mp hf p hp
    simp [hpk] at h2

/-- On success `handle_login` inserts the address into **both** maps; on
failure it leaves both untouched. -/
theorem handle_login_shape (st : CState) (username password : String) (addr : Addr)
    (tx : WriterId) (st' : CState) (res : LoginResult)
    (h : handle_login st username password addr tx = some (st', res)) :
    (st'.connected_users = st.connected_users ∧ st'.txs = st.txs) ∨
    (st'.connected_users = alInsert st.connected_users addr username ∧
     st'.txs = alInsert st.txs addr tx) := by
  have base : ∀ r : LoginResult, some (st, r) = some (st', res) →
      st'.connected_users = st.connected_users ∧ st'.txs = st.txs := by
    intro r hh
    simp only [Option.some.injEq, Prod.mk.injEq] at hh
    rw [← hh.1]
    exact ⟨rfl, rfl⟩
  unfold handle_login at h
  repeat' split at h
  all_goals try exact Or.inl (base _ h)
  all_goals
    (dsimp only at h
     split_ifs at h <;>
      first
        | exact Option.noConfusion h
        | exact Or.inl (base _ h)
        | (simp only [Option.some.injEq, Prod.mk.injEq] at h
           exact Or.inr ⟨by rw [← h.1], by rw [← h.1]⟩))

theorem handle_login_preserves (st : CState) (username password : String)
    (addr : Addr) (tx : WriterId) (st' : CState) (res : LoginResult)
    (h : handle_login st username password addr tx = some (st', res))
    (hinv : connSubTxs st) : connSubTxs st' := by
  rcases handle_login_shape st username password addr tx st' res h with ⟨hc, ht⟩ | ⟨hc, ht⟩
  · intro a ha
    rw [ht]
    exact hinv a (hc ▸ ha)
  · intro a ha
    rw [ht]
    rw [hc] at ha
    rcases mem_keys_alInsert _ _ _ _ ha with rfl | ha2
    · exact keys_alInsert_self _ _ _
    · rcases mem_keys_alInsert_of_mem st.txs addr a tx (hinv a ha2) with rfl | h3
      · exact keys_alInsert_self _ _ _
      · exact h3

theorem channelStep_preserves (st : CState) (c : ChannelCommand) (st' : CState)
    (outs : List COut) (h : channelStep st c = some (st', outs)) (hinv : connSubTxs st) :
    connSubTxs st' := by
  have keep : ∀ s2 : CState, s2.connected_users = st.connected_users →
      s2.txs = st.txs → connSubTxs s2 := by
    intro s2 hc ht a ha
    rw [ht]
    exact hinv a (hc ▸ ha)
  cases c with
  | LoginAttempt username password addr tx =>
    simp only [channelStep] at h
    cases hl : handle_login st username password addr tx with
    | none => rw [hl] at h; exact Option.noConfusion h
    | some r =>
      obtain ⟨st2, res⟩ := r
      rw [hl] at h
      simp only [Option.map_some', Option.some.injEq, Prod.mk.injEq] at h
      obtain ⟨h1, -⟩ := h
      rw [← h1]
      exact handle_login_preserves st username password addr tx st2 res hl hinv
  | UserLeft addr =>
    simp only [channelStep] at h
    cases hg : alGet st.connected_users addr with
    | some u =>
      rw [hg] at h
      simp only [Option.some.injEq, Prod.mk.injEq] at h
      intro a ha
      rw [← h.1] at ha ⊢
      obtain ⟨hmem, hne⟩ := mem_keys_alRemove _ _ _ ha
      exact mem_keys_alRemove_of _ _ _ (hinv a hmem) hne
    | none =>
      rw [hg] at h
      simp only [Option.some.injEq, Prod.mk.injEq] at h
      intro a ha
      rw [← h.1] at ha ⊢
      have hne : a ≠ addr := fun e => alGet_none _ _ hg (e ▸ ha)
      exact mem_keys_alRemove_of _ _ _ (hinv a ha) hne
  | KickUser username =>
    simp only [channelStep] at h
    obtain ⟨o, -, h2⟩ := Option.map_eq_some'.mp h
    injection h2 with h3 h4
    exact keep st' (by rw [← h3]) (by rw [← h3])
  | _ =>
    simp only [channelStep] at h
    repeat' split at h
    all_goals first
      | exact Option.noConfusion h
      | (simp only [Option.some.injEq, Prod.mk.injEq] at h
         exact keep st' (by rw [← h.1]) (by rw [← h.1]))

theorem runChannel_preserves (cmds : List ChannelCommand) :
    ∀ st st', runChannel st cmds = some st' → connSubTxs st → connSubTxs st' := by
  induction cmds with
  | nil =>
    intro st st' h hinv
    simp only [runChannel, Option.some.injEq] at h
    rw [← h]
    exact hinv
  | cons c cs ih =>
    intro st st' h hinv
    cases c
    case Close =>
      simp only [runChannel, Option.some.injEq] at h
      rw [← h]
      exact hinv
    all_goals
      simp only [runChannel, Option.pure_def, Option.bind_eq_bind, Option.bind_eq_some] at h
    all_goals
      obtain ⟨r, hs, h2⟩ := h
    all_goals
      exact ih r.1 st' h2 (channelStep_preserves st _ r.1 r.2 hs hinv)

/-- The initial arbiter state: both maps empty (as in
`AccordChannel::spawn`), over an arbitrary database, configuration,
randomness and key material. -/
def initCState (db : Database) (cfg : Config) (salts : List Nat)
    (toks : List (List Nat)) (key : RsaKey) (der : List Nat) : CState :=
  { txs := [], connected_users := [], db := db, config := cfg,
    saltStream := salts, tokenStream := toks, key := key, pubKeyDer := der }

end server

/-- C9: in every arbiter state reachable from the initial empty state by
any sequence of channel commands, every address in `connected_users` also
has an entry in `txs` (successful logins insert into both maps, `UserLeft`
removes from both, and no other command touches either map's keys
asymmetrically). -/
theorem C9_connected_users_subset_txs (db : server.Database) (cfg : server.Config)
    (salts : List Nat) (toks : List (List Nat)) (key : RsaKey) (der : List Nat)
    (cmds : List server.ChannelCommand) (st' : server.CState)
    (h : server.runChannel (server.initCState db cfg salts toks key der) cmds = some st') :
    ∀ a ∈ st'.connected_users.map Prod.fst, a ∈ st'.txs.map Prod.fst :=
  server.runChannel_preserves cmds _ st' h (by intro a ha; simp [server.initCState] at ha)

/-- A concrete arbiter run for C9: two accounts created by login, one user
leaves, over an open configuration with enough salt-generator bytes. -/
def c9Init : server.CState :=
  server.initCState
    { accounts := [], next_user_id := 0, messages := [], images := [] }
    { operators := [], whitelist_on := false, allow_new_accounts := true }
    (List.range 128) [] testKey []

def c9Cmds : List server.ChannelCommand :=
  [server.ChannelCommand.LoginAttempt "alice" "pw" 0 1,
   server.ChannelCommand.UserLeft 0,
   server.ChannelCommand.LoginAttempt "bob" "pw2" 2 3]

def c9Final : server.CState := (server.runChannel c9Init c9Cmds).getD c9Init

theorem C9_witness :
    server.runChannel c9Init c9Cmds = some c9Final ∧
    (2 : Nat) ∈ c9Final.connected_users.map Prod.fst ∧
    (2 : Nat) ∈ c9Final.txs.map Prod.fst :=
  ⟨by decide, by decide,
   C9_connected_users_subset_txs
     { accounts := [], next_user_id := 0, messages := [], images := [] }
     { operators := [], whitelist_on := false, allow_new_accounts := true }
     (List.range 128) [] testKey [] c9Cmds c9Final (by decide) 2 (by decide)⟩

namespace server

theorem mapM_isSome {α β : Type} (f : α → Option β) :
    ∀ l : List α, (∀ x ∈ l, (f x).isSome = true) →
      ∃ ys, l.mapM f = some ys ∧ ys.length = l.length := by
  intro l
  induction l with
  | nil => intro _; exact ⟨[], rfl, rfl⟩
  | cons a l ih =>
    intro h
    obtain ⟨b, hb⟩ := Option.isSome_iff_exists.mp (h a (List.mem_cons_self a l))
    obtain ⟨ys, hys, hlen⟩ := ih (fun x hx => h x (List.mem_cons_of_mem a hx))
    refine ⟨b :: ys, ?_, by simp [hlen]⟩
    rw [List.mapM_cons, hb, hys]
    rfl

theorem rowToPacket_isSome (db : Database) (r : MessageRow)
    (hfk : (r.image_hash.all
      (fun hsh => (db.images.find? (fun p => p.1 == hsh)).isSome)) = true) :
    (rowToPacket db r).isSome = true := by
  unfold rowToPacket
  cases hih : r.image_hash with
  | none => rfl
  | some h =>
    rw [hih] at hfk
    simp only [Option.all_some] at hfk
    dsimp only
    unfold fetch_image
    cases hf : db.images.find? (fun p => p.1 == h) with
    | none => rw [hf] at hfk; exact absurd hfk (by decide)
    | some p => rfl

theorem mem_sortByTimeDesc {r : MessageRow} {rows : List MessageRow}
    (h : r ∈ sortByTimeDesc rows) : r ∈ rows :=
  (List.perm_insertionSort _ rows).mem_iff.mp h

instance : IsTotal MessageRow (fun a b => b.send_time ≤ a.send_time) :=
  ⟨fun a b => Int.le_total b.send_time a.send_time⟩

instance : IsTrans MessageRow (fun a b => b.send_time ≤ a.send_time) :=
  ⟨fun _ _ _ hab hbc => le_trans hbc hab⟩

theorem sortByTimeDesc_sorted (rows : List MessageRow) :
    (sortByTimeDesc rows).Pairwise (fun a b => b.send_time ≤ a.send_time) :=
  List.sorted_insertionSort _ rows

theorem sendW_write_fold (ms : List ClientboundPacket) :
    ∀ s : SysState, s.w.closed = false →
      ms.foldl (fun acc m => acc.bind
          (fun s2 => sendW s2 (ConnectionCommand.Write m) true)) (some s)
        = some { s with w := { s.w with log := s.w.log ++ ms } } := by
  induction ms with
  | nil =>
    intro s h
    simp only [List.foldl_nil, List.append_nil]
  | cons m ms ih =>
    intro s h
    rw [List.foldl_cons]
    have h1 : sendW s (ConnectionCommand.Write m) true
        = some { s with w := { s.w with log := s.w.log ++ [m] } } := by
      unfold sendW
      rw [h]
      rfl
    dsimp only [Option.some_bind]
    rw [h1]
    rw [ih { s with w := { s.w with log := s.w.log ++ [m] } } h]
    simp only [List.append_assoc, List.singleton_append, List.cons_append, List.nil_append]

end server

/-- C6: for a logged-in client, FetchMessages(offset, count) with
nonnegative arguments fetches the stored messages sorted newest-first,
skips `offset` and takes at most `min count 64` of them, converts them to
packets (which succeeds whenever every referenced image hash is present),
and the reader appends the packets to its own writer queue in reverse of
the arbiter's order, so the client receives at most `min count 64`
messages oldest-to-newest. -/
theorem C6_fetch_messages (sys : server.SysState) (o n : Int)
    (hlog : sys.r.username.isSome = true)
    (ho : 0 ≤ o) (hn : 0 ≤ n)
    (hw : sys.w.closed = false)
    (hfk : ∀ r ∈ sys.arb.db.messages, (r.image_hash.all
      (fun hsh => (sys.arb.db.images.find? (fun p => p.1 == hsh)).isSome)) = true) :
    ∃ pkts : List server.ClientboundPacket,
      (((server.sortByTimeDesc sys.arb.db.messages).drop o.toNat).take
          (min n 64).toNat).mapM (server.rowToPacket sys.arb.db) = some pkts ∧
      (((server.sortByTimeDesc sys.arb.db.messages).drop o.toNat).take
          (min n 64).toNat).Pairwise (fun a b => b.send_time ≤ a.send_time) ∧
      pkts.length ≤ 64 ∧ (pkts.length : Int) ≤ n ∧
      server.handlePacket sys (server.ServerboundPacket.FetchMessages o n) =
        some { sys with w := { sys.w with log := sys.w.log ++ pkts.reverse } } := by
  obtain ⟨pkts, hmap, hlen⟩ :=
    server.mapM_isSome (server.rowToPacket sys.arb.db)
      (((server.sortByTimeDesc sys.arb.db.messages).drop o.toNat).take (min n 64).toNat)
      (fun x hx => server.rowToPacket_isSome _ _
        (hfk x (server.mem_sortByTimeDesc
          (List.mem_of_mem_drop (List.mem_of_mem_take hx)))))
  have h1 : (((server.sortByTimeDesc sys.arb.db.messages).drop o.toNat).take
      (min n 64).toNat).length ≤ (min n 64).toNat := List.length_take_le _ _
  have h2 : (min n 64).toNat ≤ 64 := Int.toNat_le.mpr (by exact_mod_cast min_le_right n 64)
  have h3 : (0:Int) ≤ min n 64 := le_min hn (by decide)
  have hf : server.fetch_messages sys.arb.db o (min n 64) =
      some (((server.sortByTimeDesc sys.arb.db.messages).drop o.toNat).take
        (min n 64).toNat) := by
    unfold server.fetch_messages
    rw [if_neg]
    push_neg
    exact ⟨ho, h3⟩
  have hstep : server.channelStep sys.arb (server.ChannelCommand.FetchMessages o n)
      = some (sys.arb, [server.COut.replyPackets pkts]) := by
    unfold server.channelStep
    dsimp only
    rw [hf]
    dsimp only
    rw [hmap]
  have harb : server.arbCall sys (server.ChannelCommand.FetchMessages o n)
      = some (sys, [server.COut.replyPackets pkts]) := by
    unfold server.arbCall
    rw [hstep]
    rfl
  refine ⟨pkts, hmap, ?_, ?_, ?_, ?_⟩
  · exact (server.sortByTimeDesc_sorted sys.arb.db.messages).sublist
      ((List.take_sublist _ _).trans (List.drop_sublist _ _))
  · rw [hlen]; exact le_trans h1 h2
  · calc (pkts.length : Int) = ((((server.sortByTimeDesc sys.arb.db.messages).drop
          o.toNat).take (min n 64).toNat).length : Int) := by rw [hlen]
      _ ≤ ((min n 64).toNat : Int) := by exact_mod_cast h1
      _ = min n 64 := Int.toNat_of_nonneg h3
      _ ≤ n := min_le_left _ _
  · simp only [server.handlePacket, hlog, if_true]
    rw [harb]
    dsimp only
    rw [server.sendW_write_fold pkts.reverse sys hw]

/-- A logged-in connection over a database with three messages, one of
them an image message whose hash is present in `images`. -/
def c6Sys : server.SysState :=
  { r := { addr := 0, user_id := some 1, username := some "alice",
           secret := none, nonceSeeded := false },
    w := { secret := none, nonceSeeded := false, closed := false, log := [] },
    arb := { txs := [(0, 0)], connected_users := [(0, "alice")],
             db := { accounts := [], next_user_id := 2,
                     messages :=
                       [{ sender_id := 1, sender := "alice", content := "hi",
                          send_time := 10, image_hash := none },
                        { sender_id := 1, sender := "alice", content := "",
                          send_time := 20, image_hash := some 7 },
                        { sender_id := 1, sender := "alice", content := "bye",
                          send_time := 15, image_hash := none }],
                     images := [(7, [1, 2, 3])] },
             config := { operators := [], whitelist_on := false,
                         allow_new_accounts := true },
             saltStream := [], tokenStream := [], key := testKey, pubKeyDer := [] },
    wid := 0, now := 0, extOut := [] }

theorem C6_witness :
    ∃ pkts : List server.ClientboundPacket,
      (((server.sortByTimeDesc c6Sys.arb.db.messages).drop (0:Int).toNat).take
          (min (5:Int) 64).toNat).mapM (server.rowToPacket c6Sys.arb.db) = some pkts ∧
      (((server.sortByTimeDesc c6Sys.arb.db.messages).drop (0:Int).toNat).take
          (min (5:Int) 64).toNat).Pairwise (fun a b => b.send_time ≤ a.send_time) ∧
      pkts.length ≤ 64 ∧ (pkts.length : Int) ≤ 5 ∧
      server.handlePacket c6Sys (server.ServerboundPacket.FetchMessages 0 5) =
        some { c6Sys with w := { c6Sys.w with log := c6Sys.w.log ++ pkts.reverse } } :=
  C6_fetch_messages c6Sys 0 5 (by decide) (by decide) (by decide) (by decide) (by decide)

namespace server

/-- Queue commands that do not install a secret. -/
def coutNoSetSecret : COut → Bool
  | COut.send _ (ConnectionCommand.SetSecret _) _ => false
  | _ => true

theorem writerApply_secret (w : WState) (c : ConnectionCommand)
    (h : ∀ s, c ≠ ConnectionCommand.SetSecret s) :
    (writerApply w c).secret = w.secret := by
  cases c with
  | Close => rfl
  | SetSecret s => exact absurd rfl (h s)
  | Write p => rfl

theorem sendW_secret (sys : SysState) (c : ConnectionCommand) (strict : Bool)
    (sys' : SysState) (h : sendW sys c strict = some sys')
    (hc : ∀ s, c ≠ ConnectionCommand.SetSecret s) :
    sys'.r.secret = sys.r.secret ∧ sys'.w.secret = sys.w.secret := by
  unfold sendW at h
  split at h
  · split at h
    · exact Option.noConfusion h
    · injection h with h2
      rw [← h2]
      exact ⟨rfl, rfl⟩
  · injection h with h2
    rw [← h2]
    exact ⟨rfl, writerApply_secret sys.w c hc⟩

theorem sendW_wid (sys : SysState) (c : ConnectionCommand) (strict : Bool)
    (sys' : SysState) (h : sendW sys c strict = some sys') : sys'.wid = sys.wid := by
  unfold sendW at h
  split at h
  · split at h
    · exact Option.noConfusion h
    · injection h with h2; rw [← h2]
  · injection h with h2; rw [← h2]

theorem applyOuts_wid : ∀ (outs : List COut) (sys sys' : SysState) (rep : List COut),
    applyOuts sys outs = some (sys', rep) → sys'.wid = sys.wid := by
  intro outs
  induction outs with
  | nil =>
    intro sys sys' rep h
    simp only [applyOuts, Option.some.injEq, Prod.mk.injEq] at h
    rw [← h.1]
  | cons o rest ih =>
    intro sys sys' rep h
    cases o
    case send w c strict =>
      simp only [applyOuts] at h
      split at h
      · cases hs : sendW sys c strict with
        | none => rw [hs] at h; exact Option.noConfusion h
        | some sys1 =>
          rw [hs] at h
          exact (ih sys1 sys' rep h).trans (sendW_wid sys c strict sys1 hs)
      · exact ih { sys with extOut := sys.extOut ++ [(w, c)] } sys' rep h
    all_goals
      simp only [applyOuts] at h
    all_goals
      obtain ⟨r, hr, h2⟩ := Option.map_eq_some'.mp h
    all_goals
      injection h2 with h3 h4
    all_goals
      rw [← h3]
    all_goals
      exact ih sys r.1 r.2 (by rw [hr])

theorem applyOuts_secret : ∀ (outs : List COut) (sys sys' : SysState) (rep : List COut),
    (∀ o ∈ outs, coutNoSetSecret o = true) →
    applyOuts sys outs = some (sys', rep) →
    sys'.r.secret = sys.r.secret ∧ sys'.w.secret = sys.w.secret := by
  intro outs
  induction outs with
  | nil =>
    intro sys sys' rep _ h
    simp only [applyOuts, Option.some.injEq, Prod.mk.injEq] at h
    rw [← h.1]
    exact ⟨rfl, rfl⟩
  | cons o rest ih =>
    intro sys sys' rep hno h
    cases o
    case send w c strict =>
      simp only [applyOuts] at h
      split at h
      · cases hs : sendW sys c strict with
        | none => rw [hs] at h; exact Option.noConfusion h
        | some sys1 =>
          rw [hs] at h
          have hc : ∀ s, c ≠ ConnectionCommand.SetSecret s := by
            intro s he
            have h5 := hno (COut.send w c strict) (List.mem_cons_self _ _)
            rw [he] at h5
            simp only [coutNoSetSecret] at h5
            exact Bool.noConfusion h5
          obtain ⟨h1, h2⟩ := sendW_secret sys c strict sys1 hs hc
          obtain ⟨h3, h4⟩ := ih sys1 sys' rep
            (fun o ho => hno o (List.mem_cons_of_mem _ ho)) h
          exact ⟨h3.trans h1, h4.trans h2⟩
      · exact ih { sys with extOut := sys.extOut ++ [(w, c)] } sys' rep
          (fun o ho => hno o (List.mem_cons_of_mem _ ho)) h
    all_goals
      simp only [applyOuts] at h
    all_goals
      obtain ⟨r, hr, h2⟩ := Option.map_eq_some'.mp h
    all_goals
      injection h2 with h3 h4
    all_goals
      rw [← h3]
    all_goals
      exact ih sys r.1 r.2 (fun o ho => hno o (List.mem_cons_of_mem _ ho)) (by rw [hr])

theorem kick_user_outs_aux (u : String) (txs : List (Nat × WriterId)) :
    ∀ (l : List (Nat × String)) (outs : List COut),
      l.foldr (fun p acc => do
        let outs ← acc
        if p.2 = u then
          match alGet txs p.1 with
          | some w => some (COut.send w ConnectionCommand.Close true :: outs)
          | none => none
        else some outs) (some []) = some outs →
      ∀ o ∈ outs, coutNoSetSecret o = true := by
  intro l
  induction l with
  | nil =>
    intro outs h o ho
    simp only [List.foldr_nil, Option.some.injEq] at h
    rw [← h] at ho
    exact absurd ho (List.not_mem_nil o)
  | cons p l ih =>
    intro outs h o ho
    rw [List.foldr_cons] at h
    cases hrec : l.foldr _ (some []) with
    | none =>
      rw [hrec] at h
      exact Option.noConfusion h
    | some outs0 =>
      rw [hrec] at h
      have h2 : (if p.2 = u then
          match alGet txs p.1 with
          | some w => some (COut.send w ConnectionCommand.Close true :: outs0)
          | none => none
        else some outs0) = some outs := h
      clear h
      split at h2
      · split at h2
        · injection h2 with h3
          rw [← h3] at ho
          rcases List.mem_cons.mp ho with rfl | ho2
          · rfl
          · exact ih outs0 hrec o ho2
        · exact Option.noConfusion h2
      · injection h2 with h3
        rw [← h3] at ho
        exact ih outs0 hrec o ho

theorem kick_user_outs (st : CState) (u : String) (outs : List COut)
    (h : kick_user st u = some outs) : ∀ o ∈ outs, coutNoSetSecret o = true :=
  kick_user_outs_aux u st.txs st.connected_users outs h

theorem channelStep_no_setsecret (st : CState) (cmd : ChannelCommand) (st' : CState)
    (outs : List COut) (h : channelStep st cmd = some (st', outs))
    (hc : ∀ s t u v, cmd ≠ ChannelCommand.EncryptionConfirm s t u v) :
    ∀ o ∈ outs, coutNoSetSecret o = true := by
  cases cmd with
  | EncryptionConfirm s t u v => exact absurd rfl (hc s t u v)
  | Close =>
    simp only [channelStep, Option.some.injEq, Prod.mk.injEq] at h
    intro o ho
    rw [← h.2] at ho
    exact absurd ho (List.not_mem_nil o)
  | Write p =>
    simp only [channelStep, Option.some.injEq, Prod.mk.injEq] at h
    intro o ho
    rw [← h.2] at ho
    obtain ⟨a, -, hfa⟩ := List.mem_filterMap.mp ho
    split at hfa
    · injection hfa with h2
      rw [← h2]
      rfl
    · exact Option.noConfusion hfa
  | EncryptionRequest tx =>
    simp only [channelStep] at h
    split at h
    · exact Option.noConfusion h
    · simp only [Option.some.injEq, Prod.mk.injEq] at h
      intro o ho
      rw [← h.2] at ho
      rcases List.mem_cons.mp ho with rfl | ho2
      · rfl
      · rcases List.mem_cons.mp ho2 with rfl | ho3
        · rfl
        · exact absurd ho3 (List.not_mem_nil o)
  | LoginAttempt un pw addr tx =>
    simp only [channelStep] at h
    obtain ⟨r, -, h2⟩ := Option.map_eq_some'.mp h
    injection h2 with h3 h4
    intro o ho
    rw [← h4] at ho
    rcases List.mem_cons.mp ho with rfl | ho2
    · rfl
    · exact absurd ho2 (List.not_mem_nil o)
  | UserJoined un =>
    simp only [channelStep, Option.some.injEq, Prod.mk.injEq] at h
    intro o ho
    rw [← h.2] at ho
    obtain ⟨a, -, ha⟩ := List.mem_map.mp ho
    rw [← ha]
    rfl
  | UserLeft addr =>
    simp only [channelStep] at h
    split at h
    · simp only [Option.some.injEq, Prod.mk.injEq] at h
      intro o ho
      rw [← h.2] at ho
      obtain ⟨a, -, ha⟩ := List.mem_map.mp ho
      rw [← ha]
      rfl
    · simp only [Option.some.injEq, Prod.mk.injEq] at h
      intro o ho
      rw [← h.2] at ho
      exact absurd ho (List.not_mem_nil o)
  | UsersQuery addr =>
    simp only [channelStep] at h
    split at h
    · exact Option.noConfusion h
    · simp only [Option.some.injEq, Prod.mk.injEq] at h
      intro o ho
      rw [← h.2] at ho
      rcases List.mem_cons.mp ho with rfl | ho2
      · rfl
      · exact absurd ho2 (List.not_mem_nil o)
  | UsersQueryTUI =>
    simp only [channelStep, Option.some.injEq, Prod.mk.injEq] at h
    intro o ho
    rw [← h.2] at ho
    rcases List.mem_cons.mp ho with rfl | ho2
    · rfl
    · exact absurd ho2 (List.not_mem_nil o)
  | FetchMessages oo nn =>
    simp only [channelStep] at h
    split at h
    · exact Option.noConfusion h
    · split at h
      · exact Option.noConfusion h
      · simp only [Option.some.injEq, Prod.mk.injEq] at h
        intro o ho
        rw [← h.2] at ho
        rcases List.mem_cons.mp ho with rfl | ho2
        · rfl
        · exact absurd ho2 (List.not_mem_nil o)
  | CheckPermissions un =>
    simp only [channelStep, Option.some.injEq, Prod.mk.injEq] at h
    intro o ho
    rw [← h.2] at ho
    rcases List.mem_cons.mp ho with rfl | ho2
    · rfl
    · exact absurd ho2 (List.not_mem_nil o)
  | KickUser un =>
    simp only [channelStep] at h
    obtain ⟨outs0, houts, h2⟩ := Option.map_eq_some'.mp h
    injection h2 with h3 h4
    intro o ho
    rw [← h4] at ho
    exact kick_user_outs st un outs0 houts o ho
  | BanUser un sw =>
    simp only [channelStep] at h
    cases hk : (if sw then kick_user st un else some []) with
    | none => rw [hk] at h; exact Option.noConfusion h
    | some outs0 =>
      rw [hk] at h
      simp only [Option.some.injEq, Prod.mk.injEq] at h
      intro o ho
      rw [← h.2] at ho
      by_cases hsw : sw = true
      · rw [if_pos hsw] at hk
        exact kick_user_outs st un outs0 hk o ho
      · rw [if_neg hsw] at hk
        injection hk with h5
        rw [← h5] at ho
        exact absurd ho (List.not_mem_nil o)
  | WhitelistUser un sw =>
    simp only [channelStep, Option.some.injEq, Prod.mk.injEq] at h
    intro o ho
    rw [← h.2] at ho
    exact absurd ho (List.not_mem_nil o)
  | SetWhitelist b =>
    simp only [channelStep, Option.some.injEq, Prod.mk.injEq] at h
    intro o ho
    rw [← h.2] at ho
    exact absurd ho (List.not_mem_nil o)
  | SetAllowNewAccounts b =>
    simp only [channelStep, Option.some.injEq, Prod.mk.injEq] at h
    intro o ho
    rw [← h.2] at ho
    exact absurd ho (List.not_mem_nil o)

theorem arbCall_wid (sys : SysState) (cmd : ChannelCommand) (sys' : SysState)
    (rep : List COut) (h : arbCall sys cmd = some (sys', rep)) : sys'.wid = sys.wid := by
  unfold arbCall at h
  cases hs : channelStep sys.arb cmd with
  | none => rw [hs] at h; exact Option.noConfusion h
  | some r =>
    rw [hs] at h
    exact applyOuts_wid r.2 { sys with arb := r.1 } sys' rep h

theorem arbCall_secret (sys : SysState) (cmd : ChannelCommand) (sys' : SysState)
    (rep : List COut) (h : arbCall sys cmd = some (sys', rep))
    (hc : ∀ s t u v, cmd ≠ ChannelCommand.EncryptionConfirm s t u v) :
    sys'.r.secret = sys.r.secret ∧ sys'.w.secret = sys.w.secret := by
  unfold arbCall at h
  cases hs : channelStep sys.arb cmd with
  | none => rw [hs] at h; exact Option.noConfusion h
  | some r =>
    rw [hs] at h
    exact applyOuts_secret r.2 { sys with arb := r.1 } sys' rep
      (channelStep_no_setsecret sys.arb cmd r.1 r.2 (by rw [hs]) hc) h

/-- Outputs that are oneshot replies (returned to the awaiting reader). -/
def coutIsReply : COut → Bool
  | COut.send _ _ _ => false
  | _ => true

theorem applyOuts_rep : ∀ (outs : List COut) (sys sys' : SysState) (rep : List COut),
    applyOuts sys outs = some (sys', rep) → rep = outs.filter coutIsReply := by
  intro outs
  induction outs with
  | nil =>
    intro sys sys' rep h
    simp only [applyOuts, Option.some.injEq, Prod.mk.injEq] at h
    rw [← h.2]
    rfl
  | cons o rest ih =>
    intro sys sys' rep h
    cases o
    case send w c strict =>
      simp only [applyOuts] at h
      split at h
      · cases hs : sendW sys c strict with
        | none => rw [hs] at h; exact Option.noConfusion h
        | some sys1 =>
          rw [hs] at h
          rw [ih sys1 sys' rep h]
          rfl
      · rw [ih { sys with extOut := sys.extOut ++ [(w, c)] } sys' rep h]
        rfl
    all_goals
      simp only [applyOuts] at h
    all_goals
      obtain ⟨r, hr, h2⟩ := Option.map_eq_some'.mp h
    all_goals
      injection h2 with h3 h4
    all_goals
      rw [← h4, ih sys r.1 r.2 (by rw [hr])]
    all_goals
      rfl

theorem applyOuts_setsecret (sysB : SysState) (tx : WriterId) (s0 : List Nat)
    (sys2 : SysState) (rep : List COut) (htx : tx = sysB.wid)
    (h : applyOuts sysB [COut.replySecret (Except.ok s0),
        COut.send tx (ConnectionCommand.SetSecret (some s0)) true,
        COut.send tx (ConnectionCommand.Write ClientboundPacket.EncryptionAck) true]
      = some (sys2, rep)) :
    sys2.r.secret = sysB.r.secret ∧ sys2.w.secret = some s0 ∧ s0.length = 32 := by
  subst htx
  by_cases hcl : sysB.w.closed = true
  · simp only [applyOuts, sendW, hcl, if_true, if_pos rfl] at h
    exact Option.noConfusion h
  · rw [Bool.not_eq_true] at hcl
    by_cases hlen : s0.length = 32
    · simp only [applyOuts, sendW, writerApply, hcl, hlen, if_pos rfl, if_true,
        Bool.false_eq_true, if_false, Option.map_some', Option.some.injEq] at h
      obtain ⟨h1, -⟩ := Prod.mk.injEq .. |>.mp h
      rw [← h1]
      exact ⟨rfl, rfl, hlen⟩
    · simp only [applyOuts, sendW, writerApply, hcl, hlen, if_pos rfl, if_true,
        Bool.false_eq_true, if_false] at h
      exact Option.noConfusion h

theorem channelStep_ec (st : CState) (tx : WriterId) (es et xt : List Nat)
    (st' : CState) (outs : List COut)
    (h : channelStep st (ChannelCommand.EncryptionConfirm tx es et xt) = some (st', outs)) :
    st' = st ∧
    (outs = [COut.send tx ConnectionCommand.Close false,
             COut.replySecret (Except.error ())] ∨
     ∃ s0, outs = [COut.replySecret (Except.ok s0),
                   COut.send tx (ConnectionCommand.SetSecret (some s0)) true,
                   COut.send tx (ConnectionCommand.Write ClientboundPacket.EncryptionAck) true]) := by
  simp only [channelStep] at h
  split at h
  · exact Option.noConfusion h
  · split at h
    · simp only [Option.some.injEq, Prod.mk.injEq] at h
      exact ⟨h.1.symm, Or.inl h.2.symm⟩
    · split at h
      · exact Option.noConfusion h
      · next s0 hs0 =>
        simp only [Option.some.injEq, Prod.mk.injEq] at h
        exact ⟨h.1.symm, Or.inr ⟨s0, h.2.symm⟩⟩

theorem arbCall_ec (sys1 : SysState) (tx : WriterId) (es et xt : List Nat)
    (sys2 : SysState) (rep : List COut) (htx : tx = sys1.wid)
    (h : arbCall sys1 (ChannelCommand.EncryptionConfirm tx es et xt) = some (sys2, rep)) :
    (sys2.r.secret = sys1.r.secret ∧ sys2.w.secret = sys1.w.secret ∧
      rep = [COut.replySecret (Except.error ())]) ∨
    (∃ s0, sys2.r.secret = sys1.r.secret ∧ sys2.w.secret = some s0 ∧ s0.length = 32 ∧
      rep = [COut.replySecret (Except.ok s0)]) := by
  unfold arbCall at h
  cases hcs : channelStep sys1.arb (ChannelCommand.EncryptionConfirm tx es et xt) with
  | none => rw [hcs] at h; exact Option.noConfusion h
  | some r =>
    obtain ⟨st', outs⟩ := r
    rw [hcs] at h
    obtain ⟨-, houts⟩ := channelStep_ec sys1.arb tx es et xt st' outs hcs
    rcases houts with hmis | ⟨s0, hsuc⟩
    · subst hmis
      left
      have hno : ∀ o ∈ [COut.send tx ConnectionCommand.Close false,
          COut.replySecret (Except.error ())], coutNoSetSecret o = true := by
        intro o ho
        rcases List.mem_cons.mp ho with rfl | ho2
        · rfl
        · rcases List.mem_cons.mp ho2 with rfl | ho3
          · rfl
          · exact absurd ho3 (List.not_mem_nil o)
      have hs := applyOuts_secret _ { sys1 with arb := st' } sys2 rep hno h
      have hrep := applyOuts_rep _ { sys1 with arb := st' } sys2 rep h
      exact ⟨hs.1, hs.2, by rw [hrep]; rfl⟩
    · subst hsuc
      right
      have hset := applyOuts_setsecret { sys1 with arb := st' } tx s0 sys2 rep htx h
      have hrep := applyOuts_rep _ { sys1 with arb := st' } sys2 rep h
      exact ⟨s0, hset.1, hset.2.1, hset.2.2, by rw [hrep]; rfl⟩

/-- The C4 invariant between an initial and a later connection state:
agreement of the two halves is preserved, and an installed secret is
never cleared (though it may be rotated). -/
def secPres (a b : SysState) : Prop :=
  (a.r.secret = a.w.secret → b.r.secret = b.w.secret) ∧
  (a.r.secret.isSome = true → b.r.secret.isSome = true)

theorem secPres_of_eq {a b : SysState} (hr : b.r.secret = a.r.secret)
    (hw : b.w.secret = a.w.secret) : secPres a b :=
  ⟨fun he => by rw [hr, hw, he], fun hs => by rw [hr]; exact hs⟩

theorem secPres_refl (a : SysState) : secPres a a := ⟨id, id⟩

theorem secPres_trans {a b c : SysState} (h1 : secPres a b) (h2 : secPres b c) :
    secPres a c :=
  ⟨fun he => h2.1 (h1.1 he), fun hs => h2.2 (h1.2 hs)⟩

theorem hER_secPres (sys : SysState) (next : Option ServerboundPacket) (sys' : SysState)
    (h : handleEncryptionRequest sys next = some sys') : secPres sys sys' := by
  unfold handleEncryptionRequest at h
  cases ha : arbCall sys (ChannelCommand.EncryptionRequest sys.wid) with
  | none => rw [ha] at h; exact Option.noConfusion h
  | some r =>
    obtain ⟨sys1, rep⟩ := r
    rw [ha] at h
    obtain ⟨ha1, ha2⟩ := arbCall_secret sys _ sys1 rep ha
      (fun s t u v hne => ChannelCommand.noConfusion hne)
    have hwid : sys1.wid = sys.wid := arbCall_wid sys _ sys1 rep ha
    cases rep with
    | nil => exact Option.noConfusion h
    | cons o rest =>
      cases o
      case replyToken expect_token =>
        cases rest with
        | cons o2 r2 => exact Option.noConfusion h
        | nil =>
          cases next with
          | none =>
            injection h with h2
            rw [← h2]
            exact secPres_of_eq ha1 ha2
          | some q =>
            cases q
            case EncryptionConfirm es et =>
              replace h : (match arbCall sys1
                  (ChannelCommand.EncryptionConfirm sys.wid es et expect_token) with
                | none => none
                | some (sys2, [COut.replySecret (Except.ok sp)]) =>
                  if sp.length = 32 then
                    some { sys2 with
                      r := { sys2.r with secret := some sp, nonceSeeded := true } }
                  else none
                | some (sys2, [COut.replySecret (Except.error ())]) =>
                  sendW sys2 ConnectionCommand.Close false
                | some _ => none) = some sys' := h
              cases hac : arbCall sys1
                  (ChannelCommand.EncryptionConfirm sys.wid es et expect_token) with
              | none => rw [hac] at h; exact Option.noConfusion h
              | some r2 =>
                obtain ⟨sys2, rep2⟩ := r2
                rw [hac] at h
                rcases arbCall_ec sys1 sys.wid es et expect_token sys2 rep2 hwid.symm hac
                  with ⟨he1, he2, herep⟩ | ⟨s0, hs1, hs2, hlen, hsrep⟩
                · subst herep
                  obtain ⟨h1, h2⟩ := sendW_secret sys2 ConnectionCommand.Close false sys' h
                    (fun s hs => ConnectionCommand.noConfusion hs)
                  exact secPres_of_eq (h1.trans (he1.trans ha1)) (h2.trans (he2.trans ha2))
                · subst hsrep
                  replace h : (if s0.length = 32 then
                      some { sys2 with
                        r := { sys2.r with secret := some s0, nonceSeeded := true } }
                    else none) = some sys' := h
                  rw [if_pos hlen] at h
                  injection h with h2
                  constructor
                  · intro h3
                    rw [← h2]
                    show some s0 = sys2.w.secret
                    rw [hs2]
                  · intro h3
                    rw [← h2]
                    rfl
            all_goals
              obtain ⟨h1, h2⟩ := sendW_secret sys1 ConnectionCommand.Close false sys' h
                (fun s hs => ConnectionCommand.noConfusion hs)
            all_goals
              exact secPres_of_eq (h1.trans ha1) (h2.trans ha2)
      all_goals exact Option.noConfusion h

theorem respond_secret (sys : SysState) (m : String) (sys' : SysState)
    (h : respond sys m = some sys') :
    sys'.r.secret = sys.r.secret ∧ sys'.w.secret = sys.w.secret :=
  sendW_secret sys _ true sys' h (fun _ hs => ConnectionCommand.noConfusion hs)

theorem getPerms_secret (sys : SysState) (un : String) (sys1 : SysState)
    (perms : UserPermissions) (h : getPerms sys un = some (sys1, perms)) :
    sys1.r.secret = sys.r.secret ∧ sys1.w.secret = sys.w.secret := by
  unfold getPerms at h
  obtain ⟨r, hr, h2⟩ := Option.bind_eq_some.mp h
  obtain ⟨ra, rb⟩ := r
  obtain ⟨hs1, hs2⟩ := arbCall_secret sys _ ra rb hr
    (fun s t u v hne => ChannelCommand.noConfusion hne)
  cases rb with
  | nil => exact Option.noConfusion h2
  | cons o rest =>
    cases o
    case replyPerms p =>
      cases rest with
      | cons o2 r2 => exact Option.noConfusion h2
      | nil =>
        injection h2 with h3
        obtain ⟨h4, -⟩ := Prod.mk.inj h3
        rw [← h4]
        exact ⟨hs1, hs2⟩
    all_goals exact Option.noConfusion h2

theorem gatedUserCommand_secret (sys : SysState) (target : Option String)
    (mk : String → ChannelCommand) (okMsg : String → String) (sys' : SysState)
    (hmk : ∀ t s u v w2, mk t ≠ ChannelCommand.EncryptionConfirm s u v w2)
    (h : gatedUserCommand sys target mk okMsg = some sys') :
    sys'.r.secret = sys.r.secret ∧ sys'.w.secret = sys.w.secret := by
  unfold gatedUserCommand at h
  cases target with
  | none => exact respond_secret sys _ sys' h
  | some t =>
    cases hun : sys.r.username with
    | none => rw [hun] at h; exact Option.noConfusion h
    | some un =>
      rw [hun] at h
      replace h : (match getPerms sys un with
          | none => none
          | some (sys1, perms) =>
            if perms.operator = true then
              match arbCall sys1 (mk t) with
              | none => none
              | some (sys2, _) => respond sys2 (okMsg t)
            else respond sys1 "Not permitted.") = some sys' := h
      cases hp : getPerms sys un with
      | none => rw [hp] at h; exact Option.noConfusion h
      | some r =>
        obtain ⟨sys1, perms⟩ := r
        rw [hp] at h
        obtain ⟨hp1, hp2⟩ := getPerms_secret sys un sys1 perms hp
        replace h : (if perms.operator = true then
            match arbCall sys1 (mk t) with
            | none => none
            | some (sys2, _) => respond sys2 (okMsg t)
          else respond sys1 "Not permitted.") = some sys' := h
        split at h
        · cases ha : arbCall sys1 (mk t) with
          | none => rw [ha] at h; exact Option.noConfusion h
          | some r2 =>
            obtain ⟨sys2, rep⟩ := r2
            rw [ha] at h
            obtain ⟨ha1, ha2⟩ := arbCall_secret sys1 (mk t) sys2 rep ha (hmk t)
            obtain ⟨h1, h2⟩ := respond_secret sys2 _ sys' h
            exact ⟨(h1.trans ha1).trans hp1, (h2.trans ha2).trans hp2⟩
        · obtain ⟨h1, h2⟩ := respond_secret sys1 _ sys' h
          exact ⟨h1.trans hp1, h2.trans hp2⟩

theorem handleCommand_secret (sys : SysState) (c : String) (sys' : SysState)
    (h : handleCommand sys c = some sys') :
    sys'.r.secret = sys.r.secret ∧ sys'.w.secret = sys.w.secret := by
  unfold handleCommand at h
  cases hsp : rustSplit c ' ' with
  | nil =>
    rw [hsp] at h
    injection h with h2
    rw [← h2]
    exact ⟨rfl, rfl⟩
  | cons verb args =>
    rw [hsp] at h
    dsimp only at h
    by_cases hv1 : verb = "list"
    · rw [if_pos hv1] at h
      obtain ⟨r, hr, h2⟩ := Option.map_eq_some'.mp h
      obtain ⟨ha1, ha2⟩ := arbCall_secret sys _ r.1 r.2 (by rw [hr])
        (fun s t u v hne => ChannelCommand.noConfusion hne)
      rw [← h2]
      exact ⟨ha1, ha2⟩
    rw [if_neg hv1] at h
    by_cases hv2 : verb = "kick"
    · rw [if_pos hv2] at h
      exact gatedUserCommand_secret sys _ _ _ sys'
          (fun t s u v w2 hne => ChannelCommand.noConfusion hne) h
    rw [if_neg hv2] at h
    by_cases hv3 : verb = "ban"
    · rw [if_pos hv3] at h
      exact gatedUserCommand_secret sys _ _ _ sys'
          (fun t s u v w2 hne => ChannelCommand.noConfusion hne) h
    rw [if_neg hv3] at h
    by_cases hv4 : verb = "unban"
    · rw [if_pos hv4] at h
      exact gatedUserCommand_secret sys _ _ _ sys'
          (fun t s u v w2 hne => ChannelCommand.noConfusion hne) h
    rw [if_neg hv4] at h
    by_cases hv5 : verb = "whitelist"
    · rw [if_pos hv5] at h
      exact gatedUserCommand_secret sys _ _ _ sys'
          (fun t s u v w2 hne => ChannelCommand.noConfusion hne) h
    rw [if_neg hv5] at h
    by_cases hv6 : verb = "unwhitelist"
    · rw [if_pos hv6] at h
      exact gatedUserCommand_secret sys _ _ _ sys'
          (fun t s u v w2 hne => ChannelCommand.noConfusion hne) h
    rw [if_neg hv6] at h
    by_cases hv7 : verb = "set_whitelist"
    · rw [if_pos hv7] at h
      cases hhd : args.head? with
        | none => rw [hhd] at h; exact respond_secret sys _ sys' h
        | some a =>
          rw [hhd] at h
          replace h : (if a = "on" ∨ a = "true" then
              match arbCall sys (ChannelCommand.SetWhitelist true) with
              | none => none
              | some (sys1, _) => respond sys1 "Whitelist on."
            else if a = "off" ∨ a = "false" then
              match arbCall sys (ChannelCommand.SetWhitelist false) with
              | none => none
              | some (sys1, _) => respond sys1 "Whitelist off."
            else respond sys ("Invalid argument: " ++ a ++ ".\nExpected \"on\"/\"off\"")) =
              some sys' := h
          by_cases hon : a = "on" ∨ a = "true"
          · rw [if_pos hon] at h
            cases ha : arbCall sys (ChannelCommand.SetWhitelist true) with
            | none => rw [ha] at h; exact Option.noConfusion h
            | some r2 =>
              obtain ⟨sys1, rep⟩ := r2
              rw [ha] at h
              obtain ⟨ha1, ha2⟩ := arbCall_secret sys _ sys1 rep ha
                (fun s t u v hne => ChannelCommand.noConfusion hne)
              obtain ⟨h1, h2⟩ := respond_secret sys1 _ sys' h
              exact ⟨h1.trans ha1, h2.trans ha2⟩
          · rw [if_neg hon] at h
            by_cases hoff : a = "off" ∨ a = "false"
            · rw [if_pos hoff] at h
              cases ha : arbCall sys (ChannelCommand.SetWhitelist false) with
              | none => rw [ha] at h; exact Option.noConfusion h
              | some r2 =>
                obtain ⟨sys1, rep⟩ := r2
                rw [ha] at h
                obtain ⟨ha1, ha2⟩ := arbCall_secret sys _ sys1 rep ha
                  (fun s t u v hne => ChannelCommand.noConfusion hne)
                obtain ⟨h1, h2⟩ := respond_secret sys1 _ sys' h
                exact ⟨h1.trans ha1, h2.trans ha2⟩
            · rw [if_neg hoff] at h
              exact respond_secret sys _ sys' h
    rw [if_neg hv7] at h
    by_cases hv8 : verb = "set_allow_new_accounts"
    · rw [if_pos hv8] at h
      cases hhd : args.head? with
        | none => rw [hhd] at h; exact respond_secret sys _ sys' h
        | some a =>
          rw [hhd] at h
          replace h : (if a = "on" ∨ a = "true" then
              match arbCall sys (ChannelCommand.SetAllowNewAccounts true) with
              | none => none
              | some (sys1, _) => respond sys1 "Allow new accounts on."
            else if a = "off" ∨ a = "false" then
              match arbCall sys (ChannelCommand.SetAllowNewAccounts false) with
              | none => none
              | some (sys1, _) => respond sys1 "Allow new accounts off."
            else respond sys ("Invalid argument: " ++ a ++ ".\nExpected \"on\"/\"off\"")) =
              some sys' := h
          by_cases hon : a = "on" ∨ a = "true"
          · rw [if_pos hon] at h
            cases ha : arbCall sys (ChannelCommand.SetAllowNewAccounts true) with
            | none => rw [ha] at h; exact Option.noConfusion h
            | some r2 =>
              obtain ⟨sys1, rep⟩ := r2
              rw [ha] at h
              obtain ⟨ha1, ha2⟩ := arbCall_secret sys _ sys1 rep ha
                (fun s t u v hne => ChannelCommand.noConfusion hne)
              obtain ⟨h1, h2⟩ := respond_secret sys1 _ sys' h
              exact ⟨h1.trans ha1, h2.trans ha2⟩
          · rw [if_neg hon] at h
            by_cases hoff : a = "off" ∨ a = "false"
            · rw [if_pos hoff] at h
              cases ha : arbCall sys (ChannelCommand.SetAllowNewAccounts false) with
              | none => rw [ha] at h; exact Option.noConfusion h
              | some r2 =>
                obtain ⟨sys1, rep⟩ := r2
                rw [ha] at h
                obtain ⟨ha1, ha2⟩ := arbCall_secret sys _ sys1 rep ha
                  (fun s t u v hne => ChannelCommand.noConfusion hne)
                obtain ⟨h1, h2⟩ := respond_secret sys1 _ sys' h
                exact ⟨h1.trans ha1, h2.trans ha2⟩
            · rw [if_neg hoff] at h
              exact respond_secret sys _ sys' h
    rw [if_neg hv8] at h
    exact respond_secret sys _ sys' h

theorem readerLogin_secret (sys : SysState) (un pw : String) (sys' : SysState)
    (h : readerLogin sys un pw = some sys') :
    sys'.r.secret = sys.r.secret ∧ sys'.w.secret = sys.w.secret := by
  unfold readerLogin at h
  cases ha : arbCall sys (ChannelCommand.LoginAttempt un pw sys.r.addr sys.wid) with
  | none => rw [ha] at h; exact Option.noConfusion h
  | some r =>
    obtain ⟨sys1, rep⟩ := r
    rw [ha] at h
    obtain ⟨ha1, ha2⟩ := arbCall_secret sys _ sys1 rep ha
      (fun s t u v hne => ChannelCommand.noConfusion hne)
    cases rep with
    | nil => exact Option.noConfusion h
    | cons o rest =>
      cases o
      case replyLogin res =>
        cases rest with
        | cons o2 r2 => exact Option.noConfusion h
        | nil =>
          cases res with
          | ok response =>
            replace h : (match rustSplit response '|' with
              | a :: b :: _ =>
                match rustParseI64 a with
                | none => none
                | some uid =>
                  match sendW { sys1 with r := { sys1.r with
                      user_id := some uid, username := some b } }
                    (ConnectionCommand.Write ClientboundPacket.LoginAck) true with
                  | none => none
                  | some sys3 =>
                    (arbCall sys3 (ChannelCommand.UserJoined b)).map (fun r => r.1)
              | _ => none) = some sys' := h
            cases hspl : rustSplit response '|' with
            | nil => rw [hspl] at h; exact Option.noConfusion h
            | cons a bs =>
              rw [hspl] at h
              cases bs with
              | nil => exact Option.noConfusion h
              | cons b rest2 =>
                replace h : (match rustParseI64 a with
                  | none => none
                  | some uid =>
                    match sendW { sys1 with r := { sys1.r with
                        user_id := some uid, username := some b } }
                      (ConnectionCommand.Write ClientboundPacket.LoginAck) true with
                    | none => none
                    | some sys3 =>
                      (arbCall sys3 (ChannelCommand.UserJoined b)).map
                        (fun r => r.1)) = some sys' := h
                cases hpi : rustParseI64 a with
                | none => rw [hpi] at h; exact Option.noConfusion h
                | some uid =>
                  rw [hpi] at h
                  replace h : (match sendW { sys1 with r := { sys1.r with
                      user_id := some uid, username := some b } }
                      (ConnectionCommand.Write ClientboundPacket.LoginAck) true with
                    | none => none
                    | some sys3 =>
                      (arbCall sys3 (ChannelCommand.UserJoined b)).map
                        (fun r => r.1)) = some sys' := h
                  cases hw3 : sendW { sys1 with r := { sys1.r with
                      user_id := some uid, username := some b } }
                      (ConnectionCommand.Write ClientboundPacket.LoginAck) true with
                  | none => rw [hw3] at h; exact Option.noConfusion h
                  | some sys3 =>
                    rw [hw3] at h
                    obtain ⟨hw1, hw2⟩ := sendW_secret _ _ true sys3 hw3
                      (fun _ hs => ConnectionCommand.noConfusion hs)
                    obtain ⟨r2, hr2, h2⟩ := Option.map_eq_some'.mp h
                    obtain ⟨hj1, hj2⟩ := arbCall_secret sys3 _ r2.1 r2.2 (by rw [hr2])
                      (fun s t u v hne => ChannelCommand.noConfusion hne)
                    rw [← h2]
                    exact ⟨((hj1.trans hw1).trans ha1), ((hj2.trans hw2).trans ha2)⟩
          | error m =>
            obtain ⟨s2, hs2, hs3⟩ := Option.bind_eq_some.mp h
            obtain ⟨hb1, hb2⟩ := sendW_secret sys1 _ true s2 hs2
              (fun _ hs => ConnectionCommand.noConfusion hs)
            obtain ⟨hc1, hc2⟩ := sendW_secret s2 _ true sys' hs3
              (fun _ hs => ConnectionCommand.noConfusion hs)
            exact ⟨(hc1.trans hb1).trans ha1, (hc2.trans hb2).trans ha2⟩
      all_goals exact Option.noConfusion h

theorem foldW_none (ms : List ClientboundPacket) :
    ms.foldl (fun acc m => acc.bind
      (fun s2 => sendW s2 (ConnectionCommand.Write m) true)) none = none := by
  induction ms with
  | nil => rfl
  | cons m ms ih =>
    rw [List.foldl_cons]
    exact ih

theorem foldW_secret (ms : List ClientboundPacket) : ∀ (s s' : SysState),
    ms.foldl (fun acc m => acc.bind
      (fun s2 => sendW s2 (ConnectionCommand.Write m) true)) (some s) = some s' →
    s'.r.secret = s.r.secret ∧ s'.w.secret = s.w.secret := by
  induction ms with
  | nil =>
    intro s s' h
    injection h with h2
    rw [← h2]
    exact ⟨rfl, rfl⟩
  | cons m ms ih =>
    intro s s' h
    rw [List.foldl_cons] at h
    replace h : ms.foldl (fun acc m => acc.bind
        (fun s2 => sendW s2 (ConnectionCommand.Write m) true))
        (sendW s (ConnectionCommand.Write m) true) = some s' := h
    cases hw : sendW s (ConnectionCommand.Write m) true with
    | none =>
      rw [hw, foldW_none ms] at h
      exact Option.noConfusion h
    | some s1 =>
      rw [hw] at h
      obtain ⟨h1, h2⟩ := sendW_secret s _ true s1 hw
        (fun _ hs => ConnectionCommand.noConfusion hs)
      obtain ⟨h3, h4⟩ := ih s1 s' h
      exact ⟨h3.trans h1, h4.trans h2⟩

theorem handlePacket_secPres (sys : SysState) (p : ServerboundPacket) (sys' : SysState)
    (h : handlePacket sys p = some sys') : secPres sys sys' := by
  cases p with
  | Ping =>
    obtain ⟨h1, h2⟩ := sendW_secret sys _ true sys' h
      (fun _ hs => ConnectionCommand.noConfusion hs)
    exact secPres_of_eq h1 h2
  | Login un pw =>
    replace h : (if sys.r.username.isSome = true then some sys
      else readerLogin sys un pw) = some sys' := h
    split at h
    · injection h with h2
      rw [← h2]
      exact secPres_refl sys
    · obtain ⟨h1, h2⟩ := readerLogin_secret sys un pw sys' h
      exact secPres_of_eq h1 h2
  | EncryptionRequest => exact hER_secPres sys none sys' h
  | EncryptionConfirm es et =>
    replace h : (if sys.r.username.isSome = true then none
      else some sys) = some sys' := h
    split at h
    · exact Option.noConfusion h
    · injection h with h2
      rw [← h2]
      exact secPres_refl sys
  | Message m =>
    replace h : (if sys.r.username.isSome = true then
        match sys.r.user_id, sys.r.username with
        | some uid, some unm =>
          if verify_message m then
            (arbCall sys (ChannelCommand.Write (ClientboundPacket.Message
              { sender_id := uid, sender := unm, text := m, time := sys.now }))).map
              (fun r => r.1)
          else some sys
        | _, _ => none
      else some sys) = some sys' := h
    split at h
    · cases hui : sys.r.user_id with
      | none =>
        rw [hui] at h
        cases hun : sys.r.username with
        | none => rw [hun] at h; exact Option.noConfusion h
        | some unm => rw [hun] at h; exact Option.noConfusion h
      | some uid =>
        rw [hui] at h
        cases hun : sys.r.username with
        | none => rw [hun] at h; exact Option.noConfusion h
        | some unm =>
          rw [hun] at h
          replace h : (if verify_message m then
              (arbCall sys (ChannelCommand.Write (ClientboundPacket.Message
                { sender_id := uid, sender := unm, text := m, time := sys.now }))).map
                (fun r => r.1)
            else some sys) = some sys' := h
          split at h
          · obtain ⟨r, hr, h2⟩ := Option.map_eq_some'.mp h
            obtain ⟨ha1, ha2⟩ := arbCall_secret sys _ r.1 r.2 (by rw [hr])
              (fun s t u v hne => ChannelCommand.noConfusion hne)
            rw [← h2]
            exact secPres_of_eq ha1 ha2
          · injection h with h2
            rw [← h2]
            exact secPres_refl sys
    · injection h with h2
      rw [← h2]
      exact secPres_refl sys
  | ImageMessage im =>
    replace h : (if sys.r.username.isSome = true then
        match sys.r.user_id, sys.r.username with
        | some uid, some unm =>
          (arbCall sys (ChannelCommand.Write (ClientboundPacket.ImageMessage
            { sender_id := uid, sender := unm, image_bytes := im, time := sys.now }))).map
            (fun r => r.1)
        | _, _ => none
      else some sys) = some sys' := h
    split at h
    · cases hui : sys.r.user_id with
      | none =>
        rw [hui] at h
        cases hun : sys.r.username with
        | none => rw [hun] at h; exact Option.noConfusion h
        | some unm => rw [hun] at h; exact Option.noConfusion h
      | some uid =>
        rw [hui] at h
        cases hun : sys.r.username with
        | none => rw [hun] at h; exact Option.noConfusion h
        | some unm =>
          rw [hun] at h
          obtain ⟨r, hr, h2⟩ := Option.map_eq_some'.mp h
          obtain ⟨ha1, ha2⟩ := arbCall_secret sys _ r.1 r.2 (by rw [hr])
            (fun s t u v hne => ChannelCommand.noConfusion hne)
          rw [← h2]
          exact secPres_of_eq ha1 ha2
    · injection h with h2
      rw [← h2]
      exact secPres_refl sys
  | Command c =>
    replace h : (if sys.r.username.isSome = true then handleCommand sys c
      else some sys) = some sys' := h
    split at h
    · obtain ⟨h1, h2⟩ := handleCommand_secret sys c sys' h
      exact secPres_of_eq h1 h2
    · injection h with h2
      rw [← h2]
      exact secPres_refl sys
  | FetchMessages o n =>
    replace h : (if sys.r.username.isSome = true then
        match arbCall sys (ChannelCommand.FetchMessages o n) with
        | some (sys1, [COut.replyPackets msgs]) =>
          msgs.reverse.foldl
            (fun acc m => acc.bind
              (fun s => sendW s (ConnectionCommand.Write m) true))
            (some sys1)
        | _ => none
      else some sys) = some sys' := h
    split at h
    · cases ha : arbCall sys (ChannelCommand.FetchMessages o n) with
      | none => rw [ha] at h; exact Option.noConfusion h
      | some r =>
        obtain ⟨sys1, rep⟩ := r
        rw [ha] at h
        obtain ⟨ha1, ha2⟩ := arbCall_secret sys _ sys1 rep ha
          (fun s t u v hne => ChannelCommand.noConfusion hne)
        cases rep with
        | nil => exact Option.noConfusion h
        | cons o2 rest =>
          cases o2
          case replyPackets msgs =>
            cases rest with
            | cons o3 r3 => exact Option.noConfusion h
            | nil =>
              obtain ⟨h1, h2⟩ := foldW_secret msgs.reverse sys1 sys' h
              exact secPres_of_eq (h1.trans ha1) (h2.trans ha2)
          all_goals exact Option.noConfusion h
    · injection h with h2
      rw [← h2]
      exact secPres_refl sys

theorem runConn_secPres : ∀ (n : Nat) (ps : List ServerboundPacket) (sys sys' : SysState),
    ps.length ≤ n → runConn sys ps = some sys' → secPres sys sys' := by
  intro n
  induction n with
  | zero =>
    intro ps sys sys' hl h
    cases ps with
    | nil =>
      injection h with h2
      rw [← h2]
      exact secPres_refl sys
    | cons p ps => exact absurd hl (by simp)
  | succ n ih =>
    intro ps sys sys' hl h
    cases ps with
    | nil =>
      injection h with h2
      rw [← h2]
      exact secPres_refl sys
    | cons p ps =>
      cases p
      case EncryptionRequest =>
        cases ps with
        | nil =>
          obtain ⟨s1, h1, h2⟩ := Option.bind_eq_some.mp h
          refine secPres_trans (hER_secPres sys none s1 h1) ?_
          injection h2 with h3
          rw [← h3]
          exact secPres_refl s1
        | cons q qs =>
          obtain ⟨s1, h1, h2⟩ := Option.bind_eq_some.mp h
          exact secPres_trans (hER_secPres sys (some q) s1 h1)
            (ih qs s1 sys' (by simp at hl; omega) h2)
      all_goals
        obtain ⟨s1, h1, h2⟩ := Option.bind_eq_some.mp h
      all_goals
        exact secPres_trans (handlePacket_secPres sys _ s1 h1)
          (ih ps s1 sys' (by simp at hl; omega) h2)

end server

/-- A fresh connection against an arbiter holding two pending handshake
tokens, the test RSA key, and an empty database. -/
def c4Sys : server.SysState :=
  { r := { addr := 0, user_id := none, username := none, secret := none,
           nonceSeeded := false },
    w := { secret := none, nonceSeeded := false, closed := false, log := [] },
    arb := { txs := [], connected_users := [],
             db := { accounts := [], next_user_id := 1, messages := [], images := [] },
             config := { operators := [], whitelist_on := false,
                         allow_new_accounts := true },
             saltStream := [], tokenStream := [tok1, tok2], key := testKey,
             pubKeyDer := [] },
    wid := 0, now := 0, extOut := [] }

def c4Trace1 : List server.ServerboundPacket :=
  [server.ServerboundPacket.EncryptionRequest,
   server.ServerboundPacket.EncryptionConfirm encS1 encT1]

def c4Trace2 : List server.ServerboundPacket :=
  c4Trace1 ++ [server.ServerboundPacket.EncryptionRequest,
   server.ServerboundPacket.EncryptionConfirm encS2 encT2]

/-- C4 counterexample: a completed handshake installs `sec1` on both
halves, but a second `EncryptionRequest`/`EncryptionConfirm` pair on the
same connection is accepted and rotates both halves to `sec2`: the claim
that the secret is never rotated after installation is false. -/
theorem C4_counterexample :
    ((server.runConn c4Sys c4Trace1).map (fun s => (s.r.secret, s.w.secret))
       = some (some sec1, some sec1)) ∧
    ((server.runConn c4Sys c4Trace2).map (fun s => (s.r.secret, s.w.secret))
       = some (some sec2, some sec2)) ∧
    sec1 ≠ sec2 := by
  refine ⟨by decide, by decide, by decide⟩

/-- C4 (amended): if the reader and writer halves start with identical
secrets, then after any packet sequence that does not panic they still
hold identical secrets, and an installed secret is never cleared (it can
only be replaced by another installed secret, as the counterexample
shows). -/
theorem C4_secret_agreement (sys : server.SysState) (ps : List server.ServerboundPacket)
    (sys' : server.SysState) (h : server.runConn sys ps = some sys')
    (hagree : sys.r.secret = sys.w.secret) :
    sys'.r.secret = sys'.w.secret ∧
      (sys.r.secret.isSome = true → sys'.r.secret.isSome = true) :=
  ⟨(server.runConn_secPres ps.length ps sys sys' le_rfl h).1 hagree,
   (server.runConn_secPres ps.length ps sys sys' le_rfl h).2⟩

def c4Final : server.SysState := (server.runConn c4Sys c4Trace1).getD c4Sys

theorem C4_witness :
    server.runConn c4Sys c4Trace1 = some c4Final ∧
    (c4Final.r.secret = c4Final.w.secret ∧
      (c4Sys.r.secret.isSome = true → c4Final.r.secret.isSome = true)) :=
  ⟨by decide, C4_secret_agreement c4Sys c4Trace1 c4Final (by decide) rfl⟩
